import Mathlib

/-!
TreeSitterPlusPlus: structural search and query execution.

A shallow embedding of `src/src/node.cpp` (`point_lte`, `Node::descendantsOfType`,
the child lists, node comparison, field and byte-range look-ups),
`src/src/lang.cpp` (`Language::init`, `Language::nodeTypes`, the field catalog,
`Language::query`), `src/src/query.cpp` (`queryMatches`, `queryCaptures`,
`Query::matches`, `Query::captures`, `Query::predicatesForPattern`, the constructor
of `Query`) and `src/src/parser.cpp` (the logger callback of `Parser::setLogger`).

The parsing engine (the C library behind `tree_sitter/api.h`) is an external
collaborator.  Its syntax tree is modelled as a finite rose tree, its tree cursor
as a zipper over that tree, its pattern matcher as a function from the cursor
configuration to the finite sequence of raw records it yields, and its pattern
compiler as a function from the pattern source to a compiled query or an error.
Machine integers (`uint32_t`) are natural numbers; `UINT32_MAX` is `2^32 - 1`.
An out-of-range `operator[]` (undefined behaviour in C++) makes the modelled
function return `none`, or `Outcome.undefined` where exceptions are modelled too.
The constructor of `std::regex` is modelled by the part of its pattern grammar that
decides whether the pattern of `lang.cpp`, line 13, is accepted.
-/

namespace TreeSitter

/-! ## Engine data: points, nodes, tree cursor -/

/-- The engine's `TSPoint`: a row and a column. -/
structure TSPoint where
  row : Nat
  column : Nat
deriving DecidableEq, Repr

/-- The constant `UINT32_MAX`. -/
def UINT32_MAX : Nat := 4294967295

/-- The function `point_lte` of `node.cpp`, lines 9-11. -/
def point_lte (a b : TSPoint) : Bool :=
  (a.row < b.row) || (a.row == b.row && a.column <= b.column)

/-- The engine's `TSNode`, seen as the subtree it denotes: `id` stands for the
node's identity (the `id` pointer of a `TSNode`), `symbol` for `ts_node_symbol`,
the two points for `ts_node_start_point` and `ts_node_end_point`, and `children`
for the nodes the tree cursor reaches from it. -/
inductive TSNode where
  | mk (id : Nat) (symbol : Nat) (start_point end_point : TSPoint)
      (children : List TSNode)

namespace TSNode

/-- Identity of the node. -/
def id : TSNode → Nat
  | mk i _ _ _ _ => i

/-- Symbol id, `ts_node_symbol`. -/
def symbol : TSNode → Nat
  | mk _ s _ _ _ => s

/-- Start position, `ts_node_start_point`. -/
def start_point : TSNode → TSPoint
  | mk _ _ a _ _ => a

/-- End position, `ts_node_end_point`. -/
def end_point : TSNode → TSPoint
  | mk _ _ _ b _ => b

/-- Child nodes in document order. -/
def children : TSNode → List TSNode
  | mk _ _ _ _ cs => cs

mutual
/-- Number of nodes of the subtree. -/
def size : TSNode → Nat
  | mk _ _ _ _ cs => 1 + sizeList cs
/-- Number of nodes of a forest. -/
def sizeList : List TSNode → Nat
  | [] => 0
  | c :: cs => size c + sizeList cs
end

mutual
/-- Pre-order (document order) list of the nodes of the subtree, root first. -/
def preorder : TSNode → List TSNode
  | mk i s a b cs => mk i s a b cs :: preorderList cs
/-- Pre-order list of the nodes of a forest. -/
def preorderList : List TSNode → List TSNode
  | [] => []
  | c :: cs => preorder c ++ preorderList cs
end

/-- Sibling order: each sibling starts at or after the end of the one before. -/
def siblingsOrdered : List TSNode → Bool
  | [] => true
  | [_] => true
  | a :: b :: rest => point_lte a.end_point b.start_point && siblingsOrdered (b :: rest)

/-- The range of child `c` lies inside the range `[lo, hi]` of its parent. -/
def inside (lo hi : TSPoint) (c : TSNode) : Bool :=
  point_lte lo c.start_point && point_lte c.end_point hi

mutual
/-- Well-formed tree: every node's range runs from its start to its end, each
child's range lies inside its parent's, and siblings are in position order. -/
def wellFormed : TSNode → Bool
  | mk _ _ a b cs =>
    point_lte a b && cs.all (inside a b) && siblingsOrdered cs && wellFormedList cs
/-- Every tree of the forest is well-formed. -/
def wellFormedList : List TSNode → Bool
  | [] => true
  | c :: cs => wellFormed c && wellFormedList cs
end

end TSNode

/-- One ancestor entry of the tree cursor: the parent node and the siblings that
follow the child the cursor went into. -/
structure CursorEntry where
  parent : TSNode
  following : List TSNode

/-- The engine's `TSTreeCursor`: the current node and the entries of its
ancestors, nearest first, up to the node the cursor was reset to. -/
structure TSTreeCursor where
  node : TSNode
  stack : List CursorEntry

/-- Engine call `ts_tree_cursor_reset`: the cursor walks the subtree of `node`. -/
def ts_tree_cursor_reset (node : TSNode) : TSTreeCursor :=
  ⟨node, []⟩

/-- Engine call `ts_tree_cursor_current_node`. -/
def ts_tree_cursor_current_node (c : TSTreeCursor) : TSNode :=
  c.node

/-- Engine call `ts_tree_cursor_goto_first_child`; `none` is the return value
`false`, which leaves the cursor where it was. -/
def ts_tree_cursor_goto_first_child (c : TSTreeCursor) : Option TSTreeCursor :=
  match c.node.children with
  | [] => none
  | k :: ks => some ⟨k, ⟨c.node, ks⟩ :: c.stack⟩

/-- Engine call `ts_tree_cursor_goto_next_sibling`; `none` is the return value
`false`.  The node the cursor was reset to has no sibling inside the cursor. -/
def ts_tree_cursor_goto_next_sibling (c : TSTreeCursor) : Option TSTreeCursor :=
  match c.stack with
  | [] => none
  | ⟨_, []⟩ :: _ => none
  | ⟨p, s :: ss⟩ :: rest => some ⟨s, ⟨p, ss⟩ :: rest⟩

/-- Engine call `ts_tree_cursor_goto_parent`; `none` is the return value `false`. -/
def ts_tree_cursor_goto_parent (c : TSTreeCursor) : Option TSTreeCursor :=
  match c.stack with
  | [] => none
  | ⟨p, _⟩ :: rest => some ⟨p, rest⟩

/-! ## `Node::descendantsOfType` -/

/-- The variables of the `while (true)` loop of `Node::descendantsOfType`. -/
structure WalkState where
  cursor : TSTreeCursor
  already_visited_children : Bool
  result : List TSNode

/-- Outcome of one pass through the loop body. -/
inductive LoopStep where
  | next (st : WalkState)
  | done (result : List TSNode)

namespace Node

/-- Lines 309-317 of `node.cpp`: the indices `i` of `typesBySymbol` whose entry is
one of `types`, in increasing order. -/
def descendantsOfType.symbols (typesBySymbol types : List String) : List Nat :=
  (List.range typesBySymbol.length).filter fun i =>
    match typesBySymbol[i]? with
    | some t => types.contains t
    | none => false

/-- Lines 319-324 of `node.cpp`: the end point, with the `(0,0)` sentinel replaced
by `(UINT32_MAX, UINT32_MAX)`. -/
def descendantsOfType.end_point (endPosition : TSPoint) : TSPoint :=
  if endPosition.row == 0 && endPosition.column == 0 then ⟨UINT32_MAX, UINT32_MAX⟩
  else ⟨endPosition.row, endPosition.column⟩

/-- Lines 330-378 of `node.cpp`: one pass through the body of the loop. -/
def descendantsOfType.body (symbols : List Nat) (start_point end_point : TSPoint)
    (st : WalkState) : LoopStep :=
  let descendant := ts_tree_cursor_current_node st.cursor
  if !st.already_visited_children then
    if point_lte descendant.end_point start_point then
      match ts_tree_cursor_goto_next_sibling st.cursor with
      | some c => .next ⟨c, false, st.result⟩
      | none =>
        match ts_tree_cursor_goto_parent st.cursor with
        | none => .done st.result
        | some c => .next ⟨c, true, st.result⟩
    else if point_lte end_point descendant.start_point then
      .done st.result
    else
      let result :=
        if symbols.contains descendant.symbol then st.result ++ [descendant]
        else st.result
      match ts_tree_cursor_goto_first_child st.cursor with
      | some c => .next ⟨c, false, result⟩
      | none =>
        match ts_tree_cursor_goto_next_sibling st.cursor with
        | some c => .next ⟨c, false, result⟩
        | none =>
          match ts_tree_cursor_goto_parent st.cursor with
          | none => .done result
          | some c => .next ⟨c, true, result⟩
  else
    match ts_tree_cursor_goto_next_sibling st.cursor with
    | some c => .next ⟨c, false, st.result⟩
    | none =>
      match ts_tree_cursor_goto_parent st.cursor with
      | none => .done st.result
      | some c => .next ⟨c, st.already_visited_children, st.result⟩

/-- The `while (true)` loop of lines 329-379, run for at most `fuel` passes;
`none` when the fuel runs out before a `break`. -/
def descendantsOfType.loop (symbols : List Nat) (start_point end_point : TSPoint) :
    Nat → WalkState → Option (List TSNode)
  | 0, _ => none
  | fuel + 1, st =>
    match descendantsOfType.body symbols start_point end_point st with
    | .done r => some r
    | .next st' => descendantsOfType.loop symbols start_point end_point fuel st'

/-- Lines 326-381 of `node.cpp`: the walk from `node` with the resolved `symbols`
and the points `start_point`, `end_point`. -/
def descendantsOfType.walk (fuel : Nat) (symbols : List Nat)
    (start_point end_point : TSPoint) (node : TSNode) : Option (List TSNode) :=
  descendantsOfType.loop symbols start_point end_point fuel
    ⟨ts_tree_cursor_reset node, false, []⟩

/-- The method `Node::descendantsOfType` of `node.cpp`, lines 307-382, on the node
`node`; `typesBySymbol` is the value of `d->tree->language().nodeTypes()`. -/
def descendantsOfType (fuel : Nat) (typesBySymbol : List String) (node : TSNode)
    (types : List String) (startPosition endPosition : TSPoint) :
    Option (List TSNode) :=
  let symbols := descendantsOfType.symbols typesBySymbol types
  let start_point : TSPoint := ⟨startPosition.row, startPosition.column⟩
  let end_point := descendantsOfType.end_point endPosition
  descendantsOfType.walk fuel symbols start_point end_point node

end Node

/-! ### A recursive reading of the walk -/

mutual
/-- What the walk collects from the subtree of a node it enters, and whether it
stopped (`break` at a node that starts at or after the end point). -/
def scan (symbols : List Nat) (s e : TSPoint) : TSNode → List TSNode × Bool
  | .mk i y a b cs =>
    if point_lte b s then ([], false)
    else if point_lte e a then ([], true)
    else
      let r := scanList symbols s e cs
      (if symbols.contains y then .mk i y a b cs :: r.1 else r.1, r.2)
/-- What the walk collects from a list of siblings, left to right. -/
def scanList (symbols : List Nat) (s e : TSPoint) : List TSNode → List TSNode × Bool
  | [] => ([], false)
  | c :: cs =>
    let r := scan symbols s e c
    if r.2 then (r.1, true)
    else
      let r' := scanList symbols s e cs
      (r.1 ++ r'.1, r'.2)
end

/-! ### Specification of the search and proof vocabulary -/

open Node

/-- Strict order on points: `a` lies before `b`. -/
def point_lt (a b : TSPoint) : Bool :=
  (a.row < b.row) || (a.row == b.row && a.column < b.column)

/-- The range of the node overlaps the window `[s, e)`: the node ends after `s`
and starts before `e`. -/
def overlaps (s e : TSPoint) (n : TSNode) : Bool :=
  point_lt s n.end_point && point_lt n.start_point e

/-- The test of the specification on one node. -/
def wanted (symbols : List Nat) (s e : TSPoint) (n : TSNode) : Bool :=
  symbols.contains n.symbol && overlaps s e n

/-- The nodes the search is specified to return: those of the subtree of `root`,
in pre-order, whose symbol is in `symbols` and whose range overlaps `[s, e)`. -/
def matching (symbols : List Nat) (s e : TSPoint) (root : TSNode) : List TSNode :=
  root.preorder.filter (wanted symbols s e)

/-- The result after the symbol test of lines 354-357. -/
def collect (symbols : List Nat) (n : TSNode) (acc : List TSNode) : List TSNode :=
  if symbols.contains n.symbol then acc ++ [n] else acc

/-- Simulation statement for a node entered by the walk. -/
def NodeSim (symbols : List Nat) (s e : TSPoint) (n : TSNode) : Prop :=
  ∃ k, k + 2 ≤ 2 * n.size ∧ ∀ (f : Nat) (stack : List CursorEntry) (acc : List TSNode),
    ((scan symbols s e n).2 = true →
      descendantsOfType.loop symbols s e (f + k + 1) ⟨⟨n, stack⟩, false, acc⟩ =
        some (acc ++ (scan symbols s e n).1)) ∧
    ((scan symbols s e n).2 = false →
      descendantsOfType.loop symbols s e (f + k) ⟨⟨n, stack⟩, false, acc⟩ =
        descendantsOfType.loop symbols s e f
          ⟨⟨n, stack⟩, true, acc ++ (scan symbols s e n).1⟩)

/-- Simulation statement for a non-empty list of siblings entered at its head. -/
def ForestSim (symbols : List Nat) (s e : TSPoint) (l : List TSNode) : Prop :=
  ∀ c cs, l = c :: cs →
  ∃ k, k + 2 ≤ 2 * TSNode.sizeList l ∧
    ∀ (f : Nat) (p : TSNode) (stack : List CursorEntry) (acc : List TSNode),
    ((scanList symbols s e l).2 = true →
      descendantsOfType.loop symbols s e (f + k + 1) ⟨⟨c, ⟨p, cs⟩ :: stack⟩, false, acc⟩ =
        some (acc ++ (scanList symbols s e l).1)) ∧
    ((scanList symbols s e l).2 = false →
      descendantsOfType.loop symbols s e (f + k + 1) ⟨⟨c, ⟨p, cs⟩ :: stack⟩, false, acc⟩ =
        descendantsOfType.loop symbols s e f
          ⟨⟨p, stack⟩, true, acc ++ (scanList symbols s e l).1⟩)

/-! ## Language tables -/

/-- The engine's `TSLanguage`, as far as `Language::init` reads it:
`ts_language_symbol_count`, `ts_language_symbol_type` (0 regular, 1 anonymous,
2 auxiliary), `ts_language_symbol_name`, `ts_language_field_count` and
`ts_language_field_name_for_id` (`none` is the null pointer). -/
structure TSLanguage where
  symbol_count : Nat
  symbol_type : Nat → Nat
  symbol_name : Nat → String
  field_count : Nat
  field_name_for_id : Nat → Option String

namespace Language

/-- Lines 94-98 of `lang.cpp`, `Language::init`: the entries `types[i] = name` put
into `d->types`, one for each symbol `i` below the symbol count whose symbol type
is below 2, listed in the order of insertion. -/
def init (lang : TSLanguage) : List (Nat × String) :=
  ((List.range lang.symbol_count).filter fun i => lang.symbol_type i < 2).map
    fun i => (i, lang.symbol_name i)

/-- Lines 132-138 of `lang.cpp`, `Language::nodeTypes`: the mapped values of
`d->types`, pushed in the order in which the container iterates; `types` lists the
entries of the `std::unordered_map` in that order. -/
def nodeTypes (types : List (Nat × String)) : List String :=
  types.map fun nodeType => nodeType.2

end Language

/-! ## Query execution -/

/-- The engine's `TSQueryCapture`: a node and a capture id. -/
structure TSQueryCapture where
  node : TSNode
  index : Nat

/-- The engine's `TSQueryMatch`: `capture_count` is the length of `captures`. -/
structure TSQueryMatch where
  pattern_index : Nat
  captures : List TSQueryCapture

/-- The engine's `TSQueryCursor`, as far as this code sets it up. -/
structure TSQueryCursor where
  match_limit : Nat
  start_point : TSPoint
  end_point : TSPoint

/-- Engine call `ts_query_cursor_set_match_limit`. -/
def ts_query_cursor_set_match_limit (cursor : TSQueryCursor) (limit : Nat) :
    TSQueryCursor :=
  ⟨limit, cursor.start_point, cursor.end_point⟩

/-- Engine call `ts_query_cursor_set_point_range`. -/
def ts_query_cursor_set_point_range (cursor : TSQueryCursor)
    (start_point end_point : TSPoint) : TSQueryCursor :=
  ⟨cursor.match_limit, start_point, end_point⟩

/-- The engine's `TSQueryPredicateStepType`. -/
inductive TSQueryPredicateStepType where
  | Done
  | Capture
  | String
deriving DecidableEq

/-- The engine's `TSQueryPredicateStep`. -/
structure TSQueryPredicateStep where
  type : TSQueryPredicateStepType
  value_id : Nat

/-- The engine's compiled `TSQuery`: its capture-name table
(`ts_query_capture_count`, `ts_query_capture_name_for_id`), its string table
(`ts_query_string_count`, `ts_query_string_value_for_id`), its pattern count
(`ts_query_pattern_count`), the predicate steps of each pattern
(`ts_query_predicates_for_pattern`: the array the returned pointer addresses, its
length being the step count), and its matcher: for a cursor set-up and a node, the
records that successive calls of `ts_query_cursor_next_match` (or
`ts_query_cursor_next_capture`) yield after `ts_query_cursor_exec` until the call
returns `false`, and the value of `ts_query_cursor_did_exceed_match_limit` after
that. -/
structure TSQuery where
  capture_count : Nat
  capture_name_for_id : Nat → String
  string_count : Nat
  string_value_for_id : Nat → String
  pattern_count : Nat
  predicates_for_pattern : Nat → List TSQueryPredicateStep
  next_match : TSQueryCursor → TSNode → List TSQueryMatch
  next_capture : TSQueryCursor → TSNode → List (TSQueryMatch × Nat)
  did_exceed_match_limit : TSQueryCursor → TSNode → Bool

/-- The struct `MatchResult` of `query.cpp`, lines 60-65. -/
structure MatchResult where
  pattern : Nat
  captureCount : Nat
  captureIndex : Nat
  captures : List TSQueryCapture

namespace Query

/-- The struct `Query::Options`. -/
structure Options where
  matchLimit : Nat

/-- The struct `Query::Capture`; the node stands for `Node(tree, capture.node)`. -/
structure Capture where
  name : String
  node : TSNode

/-- The struct `Query::Match`. -/
structure Match where
  pattern : Nat
  captures : List Capture

/-- The struct `Query::Operand`. -/
structure Operand where
  name : String
  type : String

/-- The struct `Query::PredicateResult`. -/
structure PredicateResult where
  operatorName : String
  operands : List Operand

/-- The type `Query::Properties`, a map from strings to strings, as its list of
key-value entries. -/
abbrev Properties := List (String × String)

/-- The type `Query::TextPredicate`. -/
abbrev TextPredicate := List Capture → Bool

end Query

/-- The struct `Query::Private` of `query.cpp`, lines 9-19.  The method
`Query::captureNames` returns the field `captureNames`. -/
structure Query where
  query : TSQuery
  cursor : TSQueryCursor
  captureNames : List String
  textPredicates : List (List Query.TextPredicate)
  predicates : List (List Query.PredicateResult)
  setProperties : List Query.Properties
  assertedProperties : List Query.Properties
  refutedProperties : List Query.Properties
  exceededMatchLimit : Bool

/-- The function `queryMatches` of `query.cpp`, lines 68-110: the cursor after the
set-up, the match count, the collected records and the did-exceed flag.  The field
`captureIndex` is not assigned by this function; it is modelled as 0. -/
def queryMatches (query : TSQuery) (cursor : TSQueryCursor) (node : TSNode)
    (start_row start_column end_row end_column match_limit : Nat) :
    TSQueryCursor × Nat × List MatchResult × Bool :=
  let cursor :=
    if match_limit == 0 then ts_query_cursor_set_match_limit cursor UINT32_MAX
    else ts_query_cursor_set_match_limit cursor match_limit
  let start_point : TSPoint := ⟨start_row, start_column⟩
  let end_point : TSPoint := ⟨end_row, end_column⟩
  let cursor := ts_query_cursor_set_point_range cursor start_point end_point
  let loop := (query.next_match cursor node).foldl
    (fun (acc : Nat × List MatchResult) (m : TSQueryMatch) =>
      (acc.1 + 1,
        acc.2 ++ [⟨m.pattern_index, m.captures.length, 0,
          m.captures.map fun capture => ⟨capture.node, capture.index⟩⟩]))
    (0, [])
  let did_exceed_match_limit := query.did_exceed_match_limit cursor node
  (cursor, loop.1, loop.2, did_exceed_match_limit)

/-- The function `queryCaptures` of `query.cpp`, lines 112-160. -/
def queryCaptures (query : TSQuery) (cursor : TSQueryCursor) (node : TSNode)
    (start_row start_column end_row end_column match_limit : Nat) :
    TSQueryCursor × Nat × List MatchResult × Bool :=
  let cursor :=
    if match_limit == 0 then ts_query_cursor_set_match_limit cursor UINT32_MAX
    else ts_query_cursor_set_match_limit cursor match_limit
  let start_point : TSPoint := ⟨start_row, start_column⟩
  let end_point : TSPoint := ⟨end_row, end_column⟩
  let cursor := ts_query_cursor_set_point_range cursor start_point end_point
  let loop := (query.next_capture cursor node).foldl
    (fun (acc : Nat × List MatchResult) (r : TSQueryMatch × Nat) =>
      (acc.1 + 1,
        acc.2 ++ [⟨r.1.pattern_index, r.1.captures.length, r.2,
          r.1.captures.map fun capture => ⟨capture.node, capture.index⟩⟩]))
    (0, [])
  let did_exceed_match_limit := query.did_exceed_match_limit cursor node
  (cursor, loop.1, loop.2, did_exceed_match_limit)

namespace Query

/-- The method `Query::predicatesForPattern`, lines 263-268, on an index that is
not negative. -/
def predicatesForPattern (q : Query) (patternIndex : Nat) : List PredicateResult :=
  match q.predicates[patternIndex]? with
  | none => []
  | some ps => ps

/-- The predicate loop of lines 198-204 (and 247-253): `every` stays `true` unless
some predicate, tried in list order, returns `false`, which ends the loop. -/
def every (captures : List Capture) : List TextPredicate → Bool
  | [] => true
  | fn :: fns => if !fn captures then false else every captures fns

/-- Lines 186-207 of `query.cpp`: the body of the loop of `Query::matches` for the
record `mr`.  The inner loop reads `captures.at(j)` for `j` below `captureCount`
and the name `d->captureNames[capture.index]`. -/
def matches.body (q : Query) (mr : MatchResult) (result : List Match) :
    Option (List Match) := do
  let pattern := mr.pattern
  let captureCount := mr.captureCount
  let captures ← (List.range captureCount).mapM fun j => do
    let capture ← mr.captures[j]?
    let name ← q.captureNames[capture.index]?
    pure (Capture.mk name capture.node)
  let fns ← q.textPredicates[pattern]?
  pure (if every captures fns then result ++ [⟨pattern, captures⟩] else result)

/-- Lines 236-257 of `query.cpp`: the body of the loop of `Query::captures` for
the record `mr`. -/
def captures.body (q : Query) (mr : MatchResult) (result : List Capture) :
    Option (List Capture) := do
  let pattern := mr.pattern
  let captureIndex := mr.captureIndex
  let captures ← mr.captures.mapM fun c => do
    let name ← q.captureNames[c.index]?
    pure (Capture.mk name c.node)
  let fns ← q.textPredicates[pattern]?
  if every captures fns then
    let capture ← captures[captureIndex]?
    pure (result ++ [capture])
  else
    pure result

/-- The method `Query::captures` of `query.cpp`, lines 215-261: the query after
the call and the returned list. -/
def captures (q : Query) (node : TSNode) (startPosition endPosition : TSPoint)
    (options : Options) : Query × Option (List Capture) :=
  let matchLimit := options.matchLimit
  let ret := queryCaptures q.query q.cursor node startPosition.row startPosition.column
    endPosition.row endPosition.column matchLimit
  let count := ret.2.1
  let matchResults := ret.2.2.1
  let didExceedMatchLimit := ret.2.2.2
  let q' : Query := ⟨q.query, ret.1, q.captureNames, q.textPredicates, q.predicates,
    q.setProperties, q.assertedProperties, q.refutedProperties, didExceedMatchLimit⟩
  (q', (List.range count).foldlM
    (fun result i => do
      let mr ← matchResults[i]?
      captures.body q mr result)
    [])

end Query

/-- The method `Query::matches` of `query.cpp`, lines 162-213: the query after
the call and the returned list.  The list starts as `result(rawCount)`, that is
`rawCount` value-initialised matches. -/
def Query.matches (q : Query) (node : TSNode) (startPosition endPosition : TSPoint)
    (options : Query.Options) : Query × Option (List Query.Match) :=
  let matchLimit := options.matchLimit
  let ret := queryMatches q.query q.cursor node startPosition.row startPosition.column
    endPosition.row endPosition.column matchLimit
  let rawCount := ret.2.1
  let matchResults := ret.2.2.1
  let didExceedMatchLimit := ret.2.2.2
  let result : List Query.Match := List.replicate rawCount ⟨0, []⟩
  let q' : Query := ⟨q.query, ret.1, q.captureNames, q.textPredicates, q.predicates,
    q.setProperties, q.assertedProperties, q.refutedProperties, didExceedMatchLimit⟩
  (q', (List.range rawCount).foldlM
    (fun result i => do
      let mr ← matchResults[i]?
      Query.matches.body q mr result)
    result)

namespace Language

/-- Lines 236, 238 and 240-248 of `lang.cpp`, in `Language::query`: the vector
`captureNames`, constructed as `captureNames(captureCount)` (that many empty
strings) and then extended by one `push_back` per capture id. -/
def query.captureNames (address : TSQuery) : List String :=
  let captureCount := address.capture_count
  (List.range captureCount).foldl
    (fun captureNames i => captureNames ++ [address.capture_name_for_id i])
    (List.replicate captureCount "")

/-- Lines 235, 239 and 250-258 of `lang.cpp`, in `Language::query`: the vector
`stringValues`, constructed as `stringValues(stringCount)` and then extended by
one `push_back` per string id. -/
def query.stringValues (address : TSQuery) : List String :=
  let stringCount := address.string_count
  (List.range stringCount).foldl
    (fun stringValues i => stringValues ++ [address.string_value_for_id i])
    (List.replicate stringCount "")

/-- Lines 260-262 of `lang.cpp`, in `Language::query`: each of the vectors
`setProperties`, `assertedProperties` and `refutedProperties` as constructed, with
`patternCount` empty maps. -/
def query.properties (address : TSQuery) : List Query.Properties :=
  List.replicate address.pattern_count []

end Language

/-! ### Specification of query execution -/

/-- The match limit the specification hands to the engine: unbounded, that is
`UINT32_MAX`, for 0, and the given limit otherwise. -/
def effectiveMatchLimit (matchLimit : Nat) : Nat :=
  if matchLimit = 0 then UINT32_MAX else matchLimit

/-- The cursor set-up of one call: the effective match limit and the point range. -/
def configured (startPosition endPosition : TSPoint) (options : Query.Options) :
    TSQueryCursor :=
  ⟨effectiveMatchLimit options.matchLimit, startPosition, endPosition⟩

/-- The captures of a raw match, reified in order: capture id `index` becomes the
entry `index` of the query's capture-name list. -/
def reified (q : Query) (m : TSQueryMatch) : List Query.Capture :=
  m.captures.map fun c => ⟨q.captureNames.getD c.index "", c.node⟩

/-- Every text predicate of the pattern of the raw match returns `true` on its
reified captures. -/
def passes (q : Query) (m : TSQueryMatch) : Bool :=
  (q.textPredicates.getD m.pattern_index []).all fun fn => fn (reified q m)

/-- The capture stream of the specification: one capture per record whose match
passes, the reified capture at the record's capture index. -/
def captureStream (q : Query) (records : List (TSQueryMatch × Nat)) :
    List Query.Capture :=
  records.filterMap fun r => if passes q r.1 then (reified q r.1)[r.2]? else none

/-- An unranged search: the nodes of the subtree of `root`, in pre-order, whose
symbol is in `symbols`. -/
def unrangedSearch (symbols : List Nat) (root : TSNode) : List TSNode :=
  root.preorder.filter fun n => symbols.contains n.symbol

/-! ### Sample inputs -/

/-- The tree of the source text `a = 1 + 2`: an assignment (symbol 5) of a sum
(symbol 4) of two numbers (symbol 3) to an identifier (symbol 1). -/
def sampleTree : TSNode :=
  .mk 0 5 ⟨0, 0⟩ ⟨0, 9⟩
    [.mk 1 1 ⟨0, 0⟩ ⟨0, 1⟩ [],
     .mk 2 2 ⟨0, 2⟩ ⟨0, 3⟩ [],
     .mk 3 4 ⟨0, 4⟩ ⟨0, 9⟩
       [.mk 4 3 ⟨0, 4⟩ ⟨0, 5⟩ [],
        .mk 5 6 ⟨0, 6⟩ ⟨0, 7⟩ [],
        .mk 6 3 ⟨0, 8⟩ ⟨0, 9⟩ []]]

/-- The root of the tree of an empty document: it starts and ends at `(0,0)`. -/
def emptyDocument : TSNode :=
  .mk 0 1 ⟨0, 0⟩ ⟨0, 0⟩ []

/-- A language with three symbols: the hidden end marker 0 and the visible node
types `list` (1) and `number` (2). -/
def listLanguage : TSLanguage :=
  ⟨3, fun i => if i = 0 then 2 else 0,
    fun i => if i = 0 then "end" else if i = 1 then "list" else "number",
    0, fun _ => none⟩

/-- The tree of the source text `1 2` in `listLanguage`: a list of two numbers. -/
def listTree : TSNode :=
  .mk 0 1 ⟨0, 0⟩ ⟨0, 3⟩
    [.mk 1 2 ⟨0, 0⟩ ⟨0, 1⟩ [],
     .mk 2 2 ⟨0, 2⟩ ⟨0, 3⟩ []]

/-- The record that `queryCaptures` stores for one raw capture record. -/
def captureRecord (r : TSQueryMatch × Nat) : MatchResult :=
  ⟨r.1.pattern_index, r.1.captures.length, r.2,
    r.1.captures.map fun capture => ⟨capture.node, capture.index⟩⟩

/-- The record that `queryMatches` stores for one raw match. -/
def matchRecord (m : TSQueryMatch) : MatchResult :=
  ⟨m.pattern_index, m.captures.length, 0,
    m.captures.map fun capture => ⟨capture.node, capture.index⟩⟩

/-- The identifier node of `sampleTree`. -/
def sampleIdentifier : TSNode :=
  .mk 1 1 ⟨0, 0⟩ ⟨0, 1⟩ []

/-- The compiled query of the pattern `(identifier) @id`: one capture name, no
string, one pattern; on every node its matcher yields one match of pattern 0 that
captures `sampleIdentifier`, and the match limit is not exceeded. -/
def sampleAddress : TSQuery :=
  ⟨1, fun _ => "id", 0, fun _ => "", 1, fun _ => [],
    fun _ _ => [⟨0, [⟨sampleIdentifier, 0⟩]⟩],
    fun _ _ => [(⟨0, [⟨sampleIdentifier, 0⟩]⟩, 0)],
    fun _ _ => false⟩

/-- The tables of the compiled query of `((identifier) @id (#eq? @id "x"))`: the
capture name `id`, the strings `eq?` and `x`, and the steps of its pattern. -/
def predicateAddress : TSQuery :=
  ⟨1, fun _ => "id", 2, fun i => if i = 0 then "eq?" else "x", 1,
    fun _ => [⟨.String, 0⟩, ⟨.Capture, 0⟩, ⟨.String, 1⟩, ⟨.Done, 0⟩],
    fun _ _ => [], fun _ _ => [], fun _ _ => false⟩

/-- The `Query` that `Language::query` (lines 235-264 and 402-410 of `lang.cpp`)
constructs from a compiled query none of whose patterns has a predicate step: the
tables as built, empty per-pattern lists, and a fresh cursor. -/
def plainQuery (address : TSQuery) : Query :=
  ⟨address, ⟨UINT32_MAX, ⟨0, 0⟩, ⟨UINT32_MAX, UINT32_MAX⟩⟩,
    Language.query.captureNames address,
    List.replicate address.pattern_count [],
    List.replicate address.pattern_count [],
    Language.query.properties address,
    Language.query.properties address,
    Language.query.properties address,
    false⟩

/-- A `Query` over `sampleAddress` with the capture name `id` and one text
predicate on pattern 0 that rejects every match. -/
def rejectingQuery : Query :=
  ⟨sampleAddress, ⟨UINT32_MAX, ⟨0, 0⟩, ⟨UINT32_MAX, UINT32_MAX⟩⟩,
    ["id"], [[fun _ => false]], [[]], [[]], [[]], [[]], false⟩

/-- A `Query` over `sampleAddress` with the capture name `id` and no predicate. -/
def namedQuery : Query :=
  ⟨sampleAddress, ⟨UINT32_MAX, ⟨0, 0⟩, ⟨UINT32_MAX, UINT32_MAX⟩⟩,
    ["id"], [[]], [[]], [[]], [[]], [[]], false⟩

/-- The match list of the specification: in engine order, the reified match of
every raw match that passes the text predicates of its pattern. -/
def matchList (q : Query) (raw : List TSQueryMatch) : List Query.Match :=
  raw.filterMap fun m =>
    if passes q m then some ⟨m.pattern_index, reified q m⟩ else none

/-! ## Query construction: `Language::query` -/

/-- The classes of the exceptions thrown by `Language::query`, and the class
`std::regex_error` of the exception that the construction of a `std::regex` throws
for a pattern outside the grammar. -/
inductive ExceptionClass where
  | range_error
  | runtime_error
  | logic_error
  | regex_error
deriving DecidableEq

/-- A thrown exception: its class and the text of `what()`. -/
structure Exception where
  cls : ExceptionClass
  what : String
deriving DecidableEq

/-- How a call ends: it returns a value, it throws, or its behaviour is undefined
(an `operator[]` outside the container, a read outside an engine array, a
`substr` position past the end). -/
inductive Outcome (α : Type) where
  | returned (value : α)
  | thrown (e : Exception)
  | undefined

namespace Outcome

/-- Sequencing: what follows runs on the returned value only. -/
def andThen {α β : Type} : Outcome α → (α → Outcome β) → Outcome β
  | returned a, f => f a
  | thrown e, _ => thrown e
  | undefined, _ => undefined

instance : Monad Outcome where
  pure := returned
  bind := andThen

/-- A container read: `none` is a read outside the container. -/
def ofOption {α : Type} : Option α → Outcome α
  | some a => returned a
  | none => undefined

end Outcome

/-- The engine's `TSQueryError`. -/
inductive TSQueryError where
  | None
  | Syntax
  | NodeType
  | Field
  | Capture
  | Structure
  | Language
deriving DecidableEq

/-- The struct `Step` of `lang.cpp`, lines 15-19. -/
structure Step where
  type : String
  name : String
  value : String
deriving DecidableEq

namespace Query

/-- Assignment `properties[key] = value` on a `Query::Properties` map. -/
def Properties.assign (properties : Properties) (key value : String) : Properties :=
  (key, value) :: properties.filter fun entry => entry.1 != key

/-- Look-up of `key` in a `Query::Properties` map. -/
def Properties.find (properties : Properties) (key : String) : Option String :=
  (List.find? (fun entry => entry.1 == key) properties).map fun entry => entry.2

end Query

/-! ### The library's `std::regex` constructor

The constructor of `std::regex` reads its pattern by the grammar of ECMA-262
(C++ standard, [re.grammar]) and throws `std::regex_error` for a pattern outside
it.  The check below covers grouping, bracket expressions and escapes; it does not
look at quantifiers, so a pattern it rejects is outside the grammar, and a pattern it
accepts has no error of these three kinds. -/

/-- The codes of `std::regex_constants::error_type` that the check reports. -/
inductive std.regex_constants.error_type where
  | error_escape
  | error_brack
  | error_paren
  | error_range
deriving DecidableEq, Repr

/-- The name of an error code. -/
def std.regex_constants.error_type.name : std.regex_constants.error_type → String
  | .error_escape => "error_escape"
  | .error_brack => "error_brack"
  | .error_paren => "error_paren"
  | .error_range => "error_range"

/-- A `ClassAtom` of a bracket expression (ECMA-262, 15.10.2.17 and 15.10.2.19): one
character, or a character class escape (`\d`, `\D`, `\s`, `\S`, `\w`, `\W`), which
stands for a set of several characters. -/
inductive std.regex.ClassAtom where
  | character (c : Char)
  | characterClass (c : Char)

/-- The character that an escaped character denotes inside a bracket expression:
the control escapes and `\b` denote control characters, every other character
stands for itself.  Escapes that give a character by its code (`\x`, `\u`, `\c`,
digits) are not modelled. -/
def std.regex.escaped (c : Char) : Char :=
  if c = 't' then Char.ofNat 9
  else if c = 'n' then Char.ofNat 10
  else if c = 'v' then Char.ofNat 11
  else if c = 'f' then Char.ofNat 12
  else if c = 'r' then Char.ofNat 13
  else if c = 'b' then Char.ofNat 8
  else c

/-- Reads one `ClassAtom` at the head of the text: the atom and the text after it. -/
def std.regex.classAtom :
    List Char → Except std.regex_constants.error_type (std.regex.ClassAtom × List Char)
  | [] => .error .error_brack
  | c :: rest =>
    if c = '\\' then
      match rest with
      | [] => .error .error_escape
      | e :: rest1 =>
        if e = 'd' ∨ e = 'D' ∨ e = 's' ∨ e = 'S' ∨ e = 'w' ∨ e = 'W' then
          .ok (.characterClass e, rest1)
        else .ok (.character (std.regex.escaped e), rest1)
    else .ok (.character c, rest)

/-- The operation `CharacterRange(A, B)` of ECMA-262, 15.10.2.15, as far as it can
fail: both ends of a range must be single characters, the first not above the
second. -/
def std.regex.characterRange : std.regex.ClassAtom → std.regex.ClassAtom → Bool
  | .character a, .character b => a.toNat ≤ b.toNat
  | _, _ => false

/-- Reads the `ClassRanges` of a bracket expression up to its closing bracket and
returns the text after it (ECMA-262, 15.10.2.14-16): an atom followed by a dash and
another atom is a range; a dash before the closing bracket stands for itself.
`none` is fuel used up. -/
def std.regex.classRanges :
    Nat → List Char → Option (Except std.regex_constants.error_type (List Char))
  | 0, _ => none
  | _ + 1, [] => some (.error .error_brack)
  | fuel + 1, c :: rest =>
    if c = ']' then some (.ok rest)
    else
      match std.regex.classAtom (c :: rest) with
      | .error e => some (.error e)
      | .ok (a, rest1) =>
        match rest1 with
        | d :: n :: rest2 =>
          if d = '-' ∧ n ≠ ']' then
            match std.regex.classAtom (n :: rest2) with
            | .error e => some (.error e)
            | .ok (b, rest3) =>
              if std.regex.characterRange a b then std.regex.classRanges fuel rest3
              else some (.error .error_range)
          else std.regex.classRanges fuel rest1
        | _ => std.regex.classRanges fuel rest1

/-- The check of a pattern, with `depth` groups open: escapes take the next
character, parentheses must pair, a bracket expression is read by `classRanges`.
`none` is fuel used up. -/
def std.regex.scan :
    Nat → Nat → List Char → Option (Except std.regex_constants.error_type Unit)
  | 0, _, _ => none
  | _ + 1, depth, [] => some (if depth = 0 then .ok () else .error .error_paren)
  | fuel + 1, depth, c :: rest =>
    if c = '\\' then
      match rest with
      | [] => some (.error .error_escape)
      | _ :: rest1 => std.regex.scan fuel depth rest1
    else if c = '(' then std.regex.scan fuel (depth + 1) rest
    else if c = ')' then
      if depth = 0 then some (.error .error_paren)
      else std.regex.scan fuel (depth - 1) rest
    else if c = '[' then
      match std.regex.classRanges (rest.length + 1)
          (match rest with
            | [] => []
            | n :: rest1 => if n = '^' then rest1 else n :: rest1) with
      | none => none
      | some (.error e) => some (.error e)
      | some (.ok rest1) => std.regex.scan fuel depth rest1
    else std.regex.scan fuel depth rest

/-- A constructed `std::regex` object: it holds its pattern. -/
structure std.basic_regex where
  pattern : String
deriving DecidableEq

/-- The constructor `std::regex(pattern)`: it returns the object, or throws
`std::regex_error` with the code of the first error of the pattern.  The text of
`what()` is implementation-defined; the model puts the name of the code there.  The
fuel, one pass per character and one more, is never used up. -/
def std.regex (pattern : String) : Outcome std.basic_regex :=
  match std.regex.scan (pattern.data.length + 1) 0 pattern.data with
  | none => .undefined
  | some (.error e) => .thrown ⟨.regex_error, e.name⟩
  | some (.ok _) => .returned ⟨pattern⟩

namespace Language

/-- Line 13 of `lang.cpp`: the initialiser of the static `QUERY_WORD_REGEX`, whose
pattern is the C++ literal `"([\\w-.]*)"`. -/
def QUERY_WORD_REGEX : Outcome std.basic_regex :=
  std.regex "([\\w-.]*)"

/-- The characters that `QUERY_WORD_REGEX` is written for: letters, digits, `_`,
`-` and `.`. -/
def QUERY_WORD_CHAR (c : Char) : Bool :=
  c.isAlphanum || c == '_' || c == '-' || c == '.'

/-- Lines 211-212 of `lang.cpp`: the text `match[0]` after
`std::regex_search(suffix, match, QUERY_WORD_REGEX)`.  The regex object is the one
that the initialiser of line 13 constructs: when the construction throws there is no
object to search with and the exception is the outcome (it leaves the initialiser of
a static, before `main`, and ends the program); for a constructed object the match
of a starred class in a group is the longest run of characters of the class at the
start of `suffix`, empty when `suffix` starts with another character. -/
def query.word (suffix : List Char) : Outcome (List Char) :=
  QUERY_WORD_REGEX.andThen fun _ => .returned (suffix.takeWhile QUERY_WORD_CHAR)

/-- Lines 205-233 of `lang.cpp`, in `Language::query`: the exception thrown when
`ts_query_new` returns null with `errorOffset` and `errorId`.  A `std::string` is
read as the list of its bytes, one character each.  The three cases that quote the
word need the result of the search with `QUERY_WORD_REGEX`; the model consults the
construction of that object there, and describes the other two cases as the body of
the function reads. -/
def query.error (source : String) (errorOffset : Nat) (errorId : TSQueryError) :
    Outcome Query :=
  if errorOffset > source.data.length then .undefined
  else
    let suffixStr := (source.data.drop errorOffset).take 100
    let suffix :=
      match source.data.findIdx? (fun c => c == '\n') with
      | none => suffixStr
      | some pos => suffixStr.take pos
    let word := (query.word suffix).andThen fun word => .returned (String.mk word)
    match errorId with
    | .NodeType =>
      word.andThen fun word => .thrown ⟨.range_error, "Invalid node name '" ++ word ++ "'"⟩
    | .Field =>
      word.andThen fun word => .thrown ⟨.range_error, "Invalid field name '" ++ word ++ "'"⟩
    | .Capture =>
      word.andThen fun word => .thrown ⟨.range_error, "Invalid capture name @" ++ word⟩
    | .Structure =>
      .thrown ⟨.runtime_error, "Invalid structure at offset " ++ toString errorOffset ++
        " ('" ++ String.mk suffix ++ "')"⟩
    | _ =>
      .thrown ⟨.logic_error, "Invalid syntax at offset " ++ toString errorOffset ++
        " ('" ++ String.mk suffix ++ "')"⟩

/-- The five per-pattern vectors that `Language::query` fills, lines 260-264. -/
structure query.Artifacts where
  setProperties : List Query.Properties
  assertedProperties : List Query.Properties
  refutedProperties : List Query.Properties
  predicates : List (List Query.PredicateResult)
  textPredicates : List (List Query.TextPredicate)

/-- The vectors as constructed at lines 260-264: `patternCount` empty entries each. -/
def query.Artifacts.init (patternCount : Nat) : query.Artifacts :=
  ⟨List.replicate patternCount [], List.replicate patternCount [],
    List.replicate patternCount [], List.replicate patternCount [],
    List.replicate patternCount []⟩

/-- An update `v[i] = f(v[i])` of the entry `i` of a vector. -/
def query.update {α : Type} (v : List α) (i : Nat) (f : α → α) : Outcome (List α) :=
  match v[i]? with
  | none => .undefined
  | some x => .returned (v.set i (f x))

/-- The closure of lines 305-314, for `eq?` with two captures.  The closure captures
`captureName1`, `captureName2` and `isPositive` by reference; they are read here
with the values they hold when the closure is built. -/
def query.eqCaptures (text : TSNode → String) (captureName1 captureName2 : String)
    (isPositive : Bool) : Query.TextPredicate := fun captures =>
  let nodes := captures.foldl
    (fun (nodes : Option TSNode × Option TSNode) (c : Query.Capture) =>
      (if c.name == captureName1 then some c.node else nodes.1,
        if c.name == captureName2 then some c.node else nodes.2))
    (none, none)
  match nodes.1, nodes.2 with
  | some node1, some node2 => (text node1 == text node2) == isPositive
  | _, _ => true

/-- The closure of lines 319-326, for `eq?` with a capture and a string, with the
captured variables read as in `query.eqCaptures`. -/
def query.eqString (text : TSNode → String) (captureName stringValue : String)
    (isPositive : Bool) : Query.TextPredicate := fun captures =>
  match captures.find? fun c => c.name == captureName with
  | some c => (text c.node == stringValue) == isPositive
  | none => true

/-- The closure of lines 344-351, for `match?`: the test is
`std::regex_match(c.name, regex)`, on the name of the capture.  The matcher
`regex_match text pattern` is a given function. -/
def query.matchName (regex_match : String → String → Bool)
    (captureName pattern : String) (isPositive : Bool) : Query.TextPredicate :=
  fun captures =>
    match captures.find? fun c => c.name == captureName with
    | some c => regex_match c.name pattern == isPositive
    | none => true

/-- The loops of lines 358-362 and 373-380: whether every step is a string. -/
def query.allStrings (steps : List Step) : Bool :=
  steps.all fun s => s.type == "string"

/-- The value assigned at lines 365, 383 and 386. -/
def query.propertyValue (steps : List Step) : Outcome String :=
  if steps.length == 3 then (Outcome.ofOption steps[2]?).andThen fun s => .returned s.value
  else .returned ""

/-- Lines 288-397 of `lang.cpp`: the interpretation of the buffered `steps` as one
predicate invocation of pattern `i`.  For `not-eq?` and for `not-match?` the branch
only assigns `isPositive = false`. -/
def query.invocation (text : TSNode → String) (regex_match : String → String → Bool)
    (i : Nat) (steps : List Step) (a : query.Artifacts) : Outcome query.Artifacts :=
  (Outcome.ofOption steps[0]?).andThen fun s0 =>
  if s0.type != "string" then
    .thrown ⟨.runtime_error, "Predicates must begin with a literal value"⟩
  else
    let operatorName := s0.value
    let isPositive := true
    if operatorName == "not-eq?" then
      .returned a
    else if operatorName == "eq?" then
      if steps.length != 3 then
        .thrown ⟨.runtime_error, "Wrong number of arguments to `#eq?` predicate"⟩
      else
        (Outcome.ofOption steps[1]?).andThen fun s1 =>
        (Outcome.ofOption steps[2]?).andThen fun s2 =>
        if s1.type != "capture" then
          .thrown ⟨.runtime_error, "First argument of `#eq?` predicate must be a capture"⟩
        else if s2.type == "capture" then
          (query.update a.textPredicates i fun fns =>
            fns ++ [query.eqCaptures text s1.name s2.name isPositive]).andThen fun t =>
          .returned ⟨a.setProperties, a.assertedProperties, a.refutedProperties,
            a.predicates, t⟩
        else
          (query.update a.textPredicates i fun fns =>
            fns ++ [query.eqString text s1.name s2.value isPositive]).andThen fun t =>
          .returned ⟨a.setProperties, a.assertedProperties, a.refutedProperties,
            a.predicates, t⟩
    else if operatorName == "not-match?" then
      .returned a
    else if operatorName == "match?" then
      if steps.length != 3 then
        .thrown ⟨.runtime_error, "Wrong number of arguments to `#match?` predicate"⟩
      else
        (Outcome.ofOption steps[1]?).andThen fun s1 =>
        (Outcome.ofOption steps[2]?).andThen fun s2 =>
        if s1.type != "capture" then
          .thrown ⟨.runtime_error,
            "First argument of `#match?` predicate must be a capture"⟩
        else if s2.type != "string" then
          .thrown ⟨.runtime_error,
            "Second argument of `#match?` predicate must be a string"⟩
        else
          (query.update a.textPredicates i fun fns =>
            fns ++ [query.matchName regex_match s1.name s2.value isPositive]).andThen
          fun t =>
          .returned ⟨a.setProperties, a.assertedProperties, a.refutedProperties,
            a.predicates, t⟩
    else if operatorName == "set!" then
      if steps.length < 2 || steps.length > 3 then
        .thrown ⟨.runtime_error, "Wrong number of arguments to `#set!` predicate"⟩
      else if !query.allStrings steps then
        .thrown ⟨.runtime_error, "Arguments to `#set!` predicate must be a strings"⟩
      else
        (Outcome.ofOption steps[1]?).andThen fun s1 =>
        (query.propertyValue steps).andThen fun value =>
        (query.update a.setProperties i fun properties =>
          properties.assign s1.value value).andThen fun p =>
        .returned ⟨p, a.assertedProperties, a.refutedProperties, a.predicates,
          a.textPredicates⟩
    else if operatorName == "is?" || operatorName == "is-not?" then
      if steps.length < 2 || steps.length > 3 then
        .thrown ⟨.runtime_error,
          if operatorName == "is?" then "Wrong number of arguments to `#is?` predicate"
          else "Wrong number of arguments to `#is-not?` predicate"⟩
      else if !query.allStrings steps then
        .thrown ⟨.runtime_error,
          if operatorName == "is?" then "Arguments to `#is?` predicate must be a strings"
          else "Arguments to `#is-not?` predicate must be a strings"⟩
      else
        (Outcome.ofOption steps[1]?).andThen fun s1 =>
        (query.propertyValue steps).andThen fun value =>
        if operatorName == "is?" then
          (query.update a.assertedProperties i fun properties =>
            properties.assign s1.value value).andThen fun p =>
          .returned ⟨a.setProperties, p, a.refutedProperties, a.predicates,
            a.textPredicates⟩
        else
          (query.update a.refutedProperties i fun properties =>
            properties.assign s1.value value).andThen fun p =>
          .returned ⟨a.setProperties, a.assertedProperties, p, a.predicates,
            a.textPredicates⟩
    else
      let ops : List Query.Operand := (steps.drop 1).map fun s => ⟨s.name, s.type⟩
      (query.update a.predicates i fun results =>
        results ++ [⟨operatorName, ops⟩]).andThen fun p =>
      .returned ⟨a.setProperties, a.assertedProperties, a.refutedProperties, p,
        a.textPredicates⟩

/-- Lines 281-398 of `lang.cpp`: one pass of the loop over `j` for pattern `i`.
The step is read as `stepAddress[i]`, with the pattern index. -/
def query.step (text : TSNode → String) (regex_match : String → String → Bool)
    (captureNames stringValues : List String) (stepAddress : List TSQueryPredicateStep)
    (i : Nat) (steps : List Step) (a : query.Artifacts) :
    Outcome (List Step × query.Artifacts) :=
  (Outcome.ofOption stepAddress[i]?).andThen fun step =>
  let stepType := step.type
  let stepValueId := step.value_id
  if stepType = .Capture then
    (Outcome.ofOption captureNames[stepValueId]?).andThen fun name =>
    .returned (steps ++ [⟨"capture", name, ""⟩], a)
  else if stepType = .String then
    (Outcome.ofOption stringValues[stepValueId]?).andThen fun value =>
    .returned (steps ++ [⟨"string", "", value⟩], a)
  else if steps.length > 0 then
    (query.invocation text regex_match i steps a).andThen fun a' =>
    .returned ([], a')
  else
    .returned (steps, a)

/-- Lines 280-399 of `lang.cpp`: the loop `for (j = 0; j < stepCount; j++)`, over
the values of `j` still to come. -/
def query.stepLoop (text : TSNode → String) (regex_match : String → String → Bool)
    (captureNames stringValues : List String) (stepAddress : List TSQueryPredicateStep)
    (i : Nat) : List Nat → List Step → query.Artifacts →
    Outcome (List Step × query.Artifacts)
  | [], steps, a => .returned (steps, a)
  | _ :: js, steps, a =>
    (query.step text regex_match captureNames stringValues stepAddress i steps a).andThen
      fun r =>
      query.stepLoop text regex_match captureNames stringValues stepAddress i js r.1 r.2

/-- Lines 266-400 of `lang.cpp`: the loop over the pattern indices still to come. -/
def query.patternLoop (text : TSNode → String) (regex_match : String → String → Bool)
    (captureNames stringValues : List String) (address : TSQuery) :
    List Nat → query.Artifacts → Outcome query.Artifacts
  | [], a => .returned a
  | i :: is, a =>
    let predicatesAddress := address.predicates_for_pattern i
    let stepCount := predicatesAddress.length
    (query.update a.predicates i fun _ => []).andThen fun predicates =>
    (query.update a.textPredicates i fun _ => []).andThen fun textPredicates =>
    (query.stepLoop text regex_match captureNames stringValues predicatesAddress i
      (List.range stepCount) []
      ⟨a.setProperties, a.assertedProperties, a.refutedProperties, predicates,
        textPredicates⟩).andThen fun r =>
    query.patternLoop text regex_match captureNames stringValues address is r.2

end Language

/-- Engine call `ts_query_cursor_new`: a fresh cursor, with no match limit and the
whole point range. -/
def ts_query_cursor_new : TSQueryCursor :=
  ⟨UINT32_MAX, ⟨0, 0⟩, ⟨UINT32_MAX, UINT32_MAX⟩⟩

/-- The constructor `Query::Query` of `query.cpp`, lines 21-41. -/
def Query.new (query : TSQuery) (captureNames : List String)
    (textPredicates : List (List Query.TextPredicate))
    (predicates : List (List Query.PredicateResult))
    (setProperties assertedProperties refutedProperties : List Query.Properties) :
    Query :=
  ⟨query, ts_query_cursor_new, captureNames, textPredicates, predicates, setProperties,
    assertedProperties, refutedProperties, false⟩

/-- The method `Language::query` of `lang.cpp`, lines 193-411.  The engine call
`ts_query_new` is a given function of the pattern source: it yields the compiled
query, or the error offset and error kind.  The node text `text` stands for
`Node::text` and `regex_match text pattern` for `std::regex_match`. -/
def Language.query (text : TSNode → String) (regex_match : String → String → Bool)
    (ts_query_new : String → Except (Nat × TSQueryError) TSQuery) (source : String) :
    Outcome Query :=
  match ts_query_new source with
  | .error (errorOffset, errorId) => Language.query.error source errorOffset errorId
  | .ok address =>
    let patternCount := address.pattern_count
    let captureNames := Language.query.captureNames address
    let stringValues := Language.query.stringValues address
    (Language.query.patternLoop text regex_match captureNames stringValues address
      (List.range patternCount) (Language.query.Artifacts.init patternCount)).andThen
    fun a =>
    .returned (Query.new address captureNames a.textPredicates a.predicates
      a.setProperties a.assertedProperties a.refutedProperties)

/-! ### Sample pattern sources -/

/-- The compiled query of `((identifier) @a (identifier) @b (#eq? @a @b))`. -/
def eqAddress : TSQuery :=
  ⟨2, fun i => if i = 0 then "a" else "b", 1, fun _ => "eq?", 1,
    fun _ => [⟨.String, 0⟩, ⟨.Capture, 0⟩, ⟨.Capture, 1⟩, ⟨.Done, 0⟩],
    fun _ _ => [], fun _ _ => [], fun _ _ => false⟩

/-- The compiled query of `((identifier) @a (#not-eq? @a "x"))`. -/
def notEqAddress : TSQuery :=
  ⟨1, fun _ => "a", 2, fun i => if i = 0 then "not-eq?" else "x", 1,
    fun _ => [⟨.String, 0⟩, ⟨.Capture, 0⟩, ⟨.String, 1⟩, ⟨.Done, 0⟩],
    fun _ _ => [], fun _ _ => [], fun _ _ => false⟩

/-- The compiled query of `((identifier) @a (#match? @a "^x"))`. -/
def matchAddress : TSQuery :=
  ⟨1, fun _ => "a", 2, fun i => if i = 0 then "match?" else "^x", 1,
    fun _ => [⟨.String, 0⟩, ⟨.Capture, 0⟩, ⟨.String, 1⟩, ⟨.Done, 0⟩],
    fun _ _ => [], fun _ _ => [], fun _ _ => false⟩

/-- The compiled query of `((identifier) @abc (#eq?))`, the pattern of the test
`throws an error on invalid predicates`. -/
def eqNoOperandAddress : TSQuery :=
  ⟨1, fun _ => "abc", 1, fun _ => "eq?", 1,
    fun _ => [⟨.String, 0⟩, ⟨.Done, 0⟩],
    fun _ _ => [], fun _ _ => [], fun _ _ => false⟩

/-- The compiled query of `((identifier) @a (#eq? "x" @a))`. -/
def eqStringFirstAddress : TSQuery :=
  ⟨1, fun _ => "a", 2, fun i => if i = 0 then "eq?" else "x", 1,
    fun _ => [⟨.String, 0⟩, ⟨.String, 1⟩, ⟨.Capture, 0⟩, ⟨.Done, 0⟩],
    fun _ _ => [], fun _ _ => [], fun _ _ => false⟩

/-- A compiled query whose only pattern has an instruction stream that begins with
a capture step: `@a "x"` followed by the separator. -/
def captureFirstAddress : TSQuery :=
  ⟨1, fun _ => "a", 1, fun _ => "x", 1,
    fun _ => [⟨.Capture, 0⟩, ⟨.String, 0⟩, ⟨.Done, 0⟩],
    fun _ _ => [], fun _ _ => [], fun _ _ => false⟩

/-- The compiled query of `((identifier) @a (#set! "k" "v"))`. -/
def setAddress : TSQuery :=
  ⟨1, fun _ => "a", 3, fun i => if i = 0 then "set!" else if i = 1 then "k" else "v", 1,
    fun _ => [⟨.String, 0⟩, ⟨.String, 1⟩, ⟨.String, 2⟩, ⟨.Done, 0⟩],
    fun _ _ => [], fun _ _ => [], fun _ _ => false⟩

/-- The compiled query of `((identifier) @a (#foo? @a "b"))`. -/
def fooAddress : TSQuery :=
  ⟨1, fun _ => "a", 2, fun i => if i = 0 then "foo?" else "b", 1,
    fun _ => [⟨.String, 0⟩, ⟨.Capture, 0⟩, ⟨.String, 1⟩, ⟨.Done, 0⟩],
    fun _ _ => [], fun _ _ => [], fun _ _ => false⟩

/-- The compiled query of `((identifier) @a (#foo? @a) (#bar? @a))`: two
invocations, each ended by the separator. -/
def fooBarAddress : TSQuery :=
  ⟨1, fun _ => "a", 2, fun i => if i = 0 then "foo?" else "bar?", 1,
    fun _ => [⟨.String, 0⟩, ⟨.Capture, 0⟩, ⟨.Done, 0⟩,
      ⟨.String, 1⟩, ⟨.Capture, 0⟩, ⟨.Done, 0⟩],
    fun _ _ => [], fun _ _ => [], fun _ _ => false⟩

/-! ### Specification of the error messages -/

/-- The message the specification gives for error kind `errorId` at offset
`errorOffset`, from the word and the suffix found there. -/
def errorMessage (errorId : TSQueryError) (errorOffset : Nat) (word suffix : String) :
    String :=
  match errorId with
  | .NodeType => "Invalid node name '" ++ word ++ "'"
  | .Field => "Invalid field name '" ++ word ++ "'"
  | .Capture => "Invalid capture name @" ++ word
  | .Structure =>
    "Invalid structure at offset " ++ toString errorOffset ++ " ('" ++ suffix ++ "')"
  | _ => "Invalid syntax at offset " ++ toString errorOffset ++ " ('" ++ suffix ++ "')"

/-- The first word-like token of the source at offset `o`: the longest prefix of
the source text at `o` made only of letters, digits, `_`, `-` and `.`. -/
def firstWord (source : String) (o : Nat) : String :=
  String.mk ((source.data.drop o).takeWhile Language.QUERY_WORD_CHAR)

/-! ## Field catalog, node identity, byte ranges -/

namespace Language

/-- Lines 100-105 of `lang.cpp`, `Language::init`: the entries `fields[i] = name`
put into `d->fields`, one for each id `i` below the field count whose name is not
null, listed in the order of insertion. -/
def init.fields (lang : TSLanguage) : List (Int × String) :=
  (List.range lang.field_count).filterMap fun i =>
    (lang.field_name_for_id i).map fun fieldName => ((i : Int), fieldName)

/-- Lines 120-126 of `lang.cpp`, `Language::fields`: the mapped values of
`d->fields`, pushed in the order in which the container iterates; `fields` lists
the entries of the `std::unordered_map` in that order. -/
def fields (fields : List (Int × String)) : List String :=
  fields.map fun field => field.2

/-- Lines 168-170 of `lang.cpp`, `Language::hasFieldId`. -/
def hasFieldId (fields : List (Int × String)) (fieldId : Int) : Bool :=
  (fields.find? fun field => field.1 == fieldId).isSome

/-- Lines 172-177 of `lang.cpp`, `Language::fieldNameForId`. -/
def fieldNameForId (fields : List (Int × String)) (fieldId : Int) : String :=
  if !hasFieldId fields fieldId then ""
  else
    match fields.find? fun field => field.1 == fieldId with
    | some field => field.2
    | none => ""

/-- Lines 179-186 of `lang.cpp`, `Language::fieldIdForName`. -/
def fieldIdForName (fields : List (Int × String)) (fieldName : String) : Int :=
  match fields.find? fun field => field.2 == fieldName with
  | some field => field.1
  | none => -1

/-- Lines 188-191 of `lang.cpp`, `Language::hasFieldName`. -/
def hasFieldName (fields : List (Int × String)) (fieldName : String) : Bool :=
  fieldIdForName fields fieldName == -1

end Language

/-- Engine call `ts_node_eq`: the two nodes are the same node of the tree. -/
def ts_node_eq (a b : TSNode) : Bool :=
  a.id == b.id

namespace Node

/-- Lines 42-44 of `node.cpp`, `Node::operator==`, called on `self` with the
argument `node`: the engine is asked about `d->node` and `d->node`. -/
def operator_eq (self _node : TSNode) : Bool :=
  ts_node_eq self self

/-- Lines 46-48 of `node.cpp`, `Node::operator!=`. -/
def operator_ne (self _node : TSNode) : Bool :=
  !ts_node_eq self self

/-- Lines 236-238 of `node.cpp`, `Node::equals`. -/
def equals (self other : TSNode) : Bool :=
  ts_node_eq self other

/-- Lines 278-284 of `node.cpp`, `Node::childForFieldId`; the engine call
`ts_node_child_by_field_id` on the node is the given function, `none` being the
null node. -/
def childForFieldId (child_by_field_id : Int → Option TSNode) (fieldId : Int) :
    Option TSNode :=
  child_by_field_id fieldId

/-- Lines 286-294 of `node.cpp`, `Node::childForFieldName`; `fields` lists the
entries of the language's field map in iteration order. -/
def childForFieldName (fields : List (Int × String))
    (child_by_field_id : Int → Option TSNode) (fieldName : String) : Option TSNode :=
  let names := Language.fields fields
  match names.indexOf? fieldName with
  | none => none
  | some it => childForFieldId child_by_field_id (it : Int)

/-- Conversion of an `int` argument to the `uint32_t` parameter of an engine call. -/
def uint32_of_int (x : Int) : Nat :=
  (x % 4294967296).toNat

/-- Lines 300-305 of `node.cpp`, `Node::descendantForIndex`: the byte range handed
to `ts_node_descendant_for_byte_range`. -/
def descendantForIndex.range (startIndex endIndex : Int) : Nat × Nat :=
  let start := startIndex
  let endByte := if endIndex > start then start else endIndex
  (uint32_of_int start, uint32_of_int endByte)

/-- Lines 394-400 of `node.cpp`, `Node::namedDescendantForIndex`: the byte range
handed to `ts_node_named_descendant_for_byte_range`. -/
def namedDescendantForIndex.range (startIndex endIndex : Int) : Nat × Nat :=
  let endIndex := if endIndex < startIndex then startIndex else endIndex
  (uint32_of_int startIndex, uint32_of_int endIndex)

end Node

/-- Conversion of an `int` to `size_t` (64 bits), as in the comparison and the
subscript of `Query::predicatesForPattern`. -/
def size_t_of_int (x : Int) : Nat :=
  (x % 18446744073709551616).toNat

/-- The method `Query::predicatesForPattern` of `query.cpp`, lines 263-268, with
its `int` parameter: the comparison with `size()` and the subscript convert the
index to `size_t`; `none` is a read outside the vector. -/
def Query.predicatesForPattern.ofInt (q : Query) (patternIndex : Int) :
    Option (List Query.PredicateResult) :=
  if size_t_of_int patternIndex ≥ q.predicates.length then some []
  else q.predicates[size_t_of_int patternIndex]?

/-! ### Further specification vocabulary and sample inputs -/

/-- A language whose field ids 1 and 2 are named `name` and `body`; id 0 has no
name. -/
def fieldLanguage : TSLanguage :=
  ⟨0, fun _ => 0, fun _ => "", 3,
    fun i => if i = 1 then some "name" else if i = 2 then some "body" else none⟩

/-- The first number node of `sampleTree`. -/
def sampleNumber : TSNode :=
  .mk 4 3 ⟨0, 4⟩ ⟨0, 5⟩ []

/-- The engine's answers for a node whose `name` field (id 1) holds
`sampleIdentifier` and whose `body` field (id 2) holds `sampleNumber`. -/
def sampleFieldChildren (fieldId : Int) : Option TSNode :=
  if fieldId = 1 then some sampleIdentifier
  else if fieldId = 2 then some sampleNumber
  else none

/-! ### The passes of the walk -/

/-- The states at the head of the passes of the loop of `Node::descendantsOfType`,
in order, for at most `fuel` passes from the state `st`. -/
def Node.descendantsOfType.trace (symbols : List Nat) (start_point end_point : TSPoint) :
    Nat → WalkState → List WalkState
  | 0, _ => []
  | fuel + 1, st =>
    st :: match Node.descendantsOfType.body symbols start_point end_point st with
      | .done _ => []
      | .next st' => Node.descendantsOfType.trace symbols start_point end_point fuel st'

/-- Work left above the cursor: for every ancestor entry, the siblings still to
come, twice each node, and the return to the parent. -/
def stackWeight : List CursorEntry → Nat
  | [] => 0
  | entry :: rest => 2 * TSNode.sizeList entry.following + 1 + stackWeight rest

/-- Work left for the walk at a cursor position with a flag: a node not yet visited
counts twice each node of its subtree, less one. -/
def walkWeight (c : TSTreeCursor) (already_visited_children : Bool) : Nat :=
  (if already_visited_children then 0 else 2 * c.node.size - 1) + stackWeight c.stack

/-- The cursor position `node` with ancestor entries `stack` lies in the tree of
`root`: each entry's parent has the node below it among its children, followed by
the entry's remaining siblings, and the topmost node is `root`. -/
def cursorWithin (root : TSNode) : TSNode → List CursorEntry → Prop
  | node, [] => node = root
  | node, entry :: rest =>
    (∃ before : List TSNode, entry.parent.children = before ++ node :: entry.following) ∧
    cursorWithin root entry.parent rest

/-! ### Child lists -/

/-- The struct `Node::Private` of `node.cpp`, lines 13-20, as far as the child lists
use it: the node, the two cached lists and the cursor. -/
structure Node.Private where
  node : TSNode
  children : List TSNode
  namedChildren : List TSNode
  cursor : TSTreeCursor

/-- The constructor `Node::Node` of `node.cpp`, lines 22-32: both cached lists are
empty. -/
def Node.new (node : TSNode) : Node.Private :=
  ⟨node, [], [], ⟨node, []⟩⟩

/-- A cursor move whose return value is not looked at: the cursor stays where it
is when the move fails. -/
def cursorMove (move : TSTreeCursor → Option TSTreeCursor) (cursor : TSTreeCursor) :
    TSTreeCursor :=
  match move cursor with
  | some c => c
  | none => cursor

/-- Lines 127-132 of `node.cpp`: one pass of the loop of `Node::children`. -/
def Node.children.step (acc : TSTreeCursor × List TSNode) (_ : Nat) :
    TSTreeCursor × List TSNode :=
  let cursor := cursorMove ts_tree_cursor_goto_next_sibling acc.1
  (cursor, acc.2 ++ [ts_tree_cursor_current_node cursor])

/-- The method `Node::children` of `node.cpp`, lines 113-135: the private data after
the call and the returned list.  The engine call `ts_node_child_count` is a given
function. -/
def Node.children (ts_node_child_count : TSNode → Nat) (d : Node.Private) :
    Node.Private × List TSNode :=
  if d.children.length > 0 then (d, d.children)
  else
    let count := ts_node_child_count d.node
    if count > 0 then
      let cursor := ts_tree_cursor_reset d.node
      let cursor := cursorMove ts_tree_cursor_goto_first_child cursor
      let node := ts_tree_cursor_current_node cursor
      let loop := (List.range' 1 (count - 1)).foldl Node.children.step
        (cursor, d.children ++ [node])
      (⟨d.node, loop.2, d.namedChildren, loop.1⟩, loop.2)
    else (d, d.children)

/-- The `while (true)` loop of `Node::namedChildren`, lines 151-163, run for at most
`fuel` passes; `none` when the fuel runs out before a `break`. -/
def Node.namedChildren.loop (ts_node_is_named : TSNode → Bool) (count : Nat) :
    Nat → TSTreeCursor → Nat → List TSNode → Option (TSTreeCursor × List TSNode)
  | 0, _, _, _ => none
  | fuel + 1, cursor, i, namedChildren =>
    let child := ts_tree_cursor_current_node cursor
    if ts_node_is_named child then
      let namedChildren := namedChildren ++ [child]
      let i := i + 1
      if i == count then some (cursor, namedChildren)
      else
        match ts_tree_cursor_goto_next_sibling cursor with
        | none => some (cursor, namedChildren)
        | some c => Node.namedChildren.loop ts_node_is_named count fuel c i namedChildren
    else
      match ts_tree_cursor_goto_next_sibling cursor with
      | none => some (cursor, namedChildren)
      | some c => Node.namedChildren.loop ts_node_is_named count fuel c i namedChildren

/-- The method `Node::namedChildren` of `node.cpp`, lines 141-166: the private data
after the call and the returned list.  The engine calls
`ts_node_named_child_count` and `ts_node_is_named` are given functions. -/
def Node.namedChildren (ts_node_named_child_count : TSNode → Nat)
    (ts_node_is_named : TSNode → Bool) (fuel : Nat) (d : Node.Private) :
    Option (Node.Private × List TSNode) :=
  if d.namedChildren.length > 0 then some (d, d.namedChildren)
  else
    let count := ts_node_named_child_count d.node
    if count > 0 then
      let cursor := ts_tree_cursor_reset d.node
      let cursor := cursorMove ts_tree_cursor_goto_first_child cursor
      (Node.namedChildren.loop ts_node_is_named count fuel cursor 0 d.namedChildren).map
        fun r => (⟨d.node, d.children, r.2, r.1⟩, r.2)
    else some (d, d.namedChildren)

/-- The cached lists of the private data are empty or hold the lists of the node:
its children, and its named children. -/
def Node.Private.cached (ts_node_is_named : TSNode → Bool) (d : Node.Private) : Prop :=
  (d.children = [] ∨ d.children = d.node.children) ∧
  (d.namedChildren = [] ∨ d.namedChildren = d.node.children.filter ts_node_is_named)

/-- A sample `ts_node_is_named`: in the sample grammar the nodes of symbol 2 and 6
(the operators) are anonymous, every other node is named. -/
def sampleIsNamed (node : TSNode) : Bool :=
  node.symbol != 2 && node.symbol != 6

/-! ### The logger callback of `parser.cpp` -/

/-- The two values of the engine's `TSLogType`. -/
inductive TSLogType where
  | TSLogTypeParse
  | TSLogTypeLex
  deriving DecidableEq, Repr

/-- The type `LoggerParams` of `parser.h`, line 20, a map from strings to strings,
as its list of entries with distinct keys. -/
abbrev LoggerParams := List (String × String)

/-- Assignment `params[key] = value` on a `LoggerParams` map. -/
def LoggerParams.assign (params : LoggerParams) (key value : String) : LoggerParams :=
  (key, value) :: params.filter fun entry => entry.1 != key

/-- Look-up of `key` in a `LoggerParams` map. -/
def LoggerParams.find (params : LoggerParams) (key : String) : Option String :=
  (List.find? (fun entry => entry.1 == key) params).map fun entry => entry.2

/-- The constant `std::string::npos`, the largest `size_t`. -/
def std.string.npos : Nat := 18446744073709551615

/-- The scan of `std::string::find`: `s` is the text from position `i` on. -/
def std.string.find.go (str : List Char) : List Char → Nat → Nat
  | [], i => if str.isPrefixOf [] then i else std.string.npos
  | c :: s, i => if str.isPrefixOf (c :: s) then i else std.string.find.go str s (i + 1)

/-- The library function `std::string::find(str, pos)` on a string given as the list
of its characters: the lowest position not below `pos` at which `str` occurs in
`s`, `npos` when there is none. -/
def std.string.find (s str : List Char) (pos : Nat) : Nat :=
  if pos > s.length then std.string.npos else std.string.find.go str (s.drop pos) pos

/-- The library function `std::string::substr(pos, count)`: the characters from
`pos` on, `min(count, size() - pos)` of them; `none` stands for the exception
`std::out_of_range` thrown when `pos > size()`. -/
def std.string.substr (s : List Char) (pos count : Nat) : Option (List Char) :=
  if pos > s.length then none else some ((s.drop pos).take (min count (s.length - pos)))

/-- Addition of two `size_t` values. -/
def size_t_add (a b : Nat) : Nat :=
  (a + b) % 18446744073709551616

/-- Subtraction of two `size_t` values. -/
def size_t_sub (a b : Nat) : Nat :=
  (a + 18446744073709551616 - b) % 18446744073709551616

/-- The loop of lines 69-83 of `parser.cpp` on the variables `param_sep`,
`param_sep_pos` and `params`; the result is `params` at the exit of the loop.
`none` stands for fuel used up before the exit, or for an exception of `substr`. -/
def Parser.setLogger.cb.loop (message : List Char) :
    Nat → List Char → Nat → LoggerParams → Option LoggerParams
  | 0, _, _, _ => none
  | fuel + 1, param_sep, param_sep_pos, params =>
    if param_sep_pos != std.string.npos then
      let key_pos := size_t_add param_sep_pos param_sep.length
      let value_sep_pos := std.string.find message [':'] key_pos
      if value_sep_pos == std.string.npos then some params
      else
        let val_pos := size_t_add value_sep_pos 1
        let param_sep := [',', ' ']
        let param_sep_pos := std.string.find message param_sep value_sep_pos
        (std.string.substr message key_pos (size_t_sub value_sep_pos key_pos)).bind fun key =>
        (std.string.substr message val_pos (size_t_sub param_sep_pos val_pos)).bind fun value =>
        Parser.setLogger.cb.loop message fuel param_sep param_sep_pos
          (params.assign (String.mk key) (String.mk value))
    else some params

/-- The callback `cb` that `Parser::setLogger` installs (`parser.cpp`, lines 61-85),
with the parser's `logger` in place of the payload: the result is what the one call
of the logger at line 84 returns.  `none` stands for fuel used up in the loop, or
for an exception of `substr`. -/
def Parser.setLogger.cb {α : Type} (logger : String → LoggerParams → String → α)
    (fuel : Nat) (type : TSLogType) (message_str : String) : Option α :=
  let message := message_str.data
  let param_sep := [' ']
  let param_sep_pos := std.string.find message param_sep 0
  let type_name := if type = TSLogType.TSLogTypeParse then "parse" else "lex"
  (std.string.substr message 0 param_sep_pos).bind fun name =>
  (Parser.setLogger.cb.loop message fuel param_sep param_sep_pos []).map fun params =>
  logger (String.mk name) params type_name

/-- The part `, k2:v2, ..., kn:vn` of a log message, for the pairs after the first. -/
def logMessage.more : List (String × String) → String
  | [] => ""
  | q :: qs => ", " ++ q.1 ++ ":" ++ q.2 ++ logMessage.more qs

/-- A log message of the form `name k1:v1, k2:v2, ..., kn:vn`, as the specification
writes it; without pairs it is the name alone. -/
def logMessage (name : String) : List (String × String) → String
  | [] => name
  | p :: ps => name ++ " " ++ p.1 ++ ":" ++ p.2 ++ logMessage.more ps

/-- The logger that records its three arguments. -/
def recordingLogger (name : String) (params : LoggerParams) (type : String) :
    String × LoggerParams × String :=
  (name, params, type)

/-! ## Theorems -/

/-! ### Induction over trees and forests -/

/-- Simultaneous induction over a tree and its lists of children. -/
theorem TSNode.induct (P : TSNode → Prop) (Q : List TSNode → Prop)
    (hmk : ∀ i y a b cs, Q cs → P (.mk i y a b cs)) (hnil : Q [])
    (hcons : ∀ c cs, P c → Q cs → Q (c :: cs)) : (∀ n, P n) ∧ (∀ l, Q l) :=
  ⟨fun n => @TSNode.rec P Q hmk hnil hcons n,
   fun l => @TSNode.rec_1 P Q hmk hnil hcons l⟩

/-! ### The loop follows the recursive reading -/

theorem loop_succ (symbols : List Nat) (s e : TSPoint) (f : Nat) (st : WalkState) :
    descendantsOfType.loop symbols s e (f + 1) st =
      match descendantsOfType.body symbols s e st with
      | .done r => some r
      | .next st' => descendantsOfType.loop symbols s e f st' := rfl

/-- A node that ends at or before the start point is left like a node whose
children have been visited. -/
theorem loop_skip (symbols : List Nat) (s e : TSPoint) (f : Nat) (n : TSNode)
    (stack : List CursorEntry) (acc : List TSNode) (h : point_lte n.end_point s = true) :
    descendantsOfType.loop symbols s e f ⟨⟨n, stack⟩, false, acc⟩ =
      descendantsOfType.loop symbols s e f ⟨⟨n, stack⟩, true, acc⟩ := by
  cases f with
  | zero => rfl
  | succ f =>
    rw [loop_succ, loop_succ]
    simp only [descendantsOfType.body, ts_tree_cursor_current_node, h, Bool.not_false,
      Bool.not_true, if_true]
    rcases stack with _ | ⟨⟨p, _ | ⟨x, xs⟩⟩, rest⟩ <;> rfl

/-- A node that starts at or after the end point stops the walk. -/
theorem loop_break (symbols : List Nat) (s e : TSPoint) (f : Nat) (n : TSNode)
    (stack : List CursorEntry) (acc : List TSNode)
    (h1 : point_lte n.end_point s = false) (h2 : point_lte e n.start_point = true) :
    descendantsOfType.loop symbols s e (f + 1) ⟨⟨n, stack⟩, false, acc⟩ = some acc := by
  rw [loop_succ]
  simp [descendantsOfType.body, ts_tree_cursor_current_node, h1, h2]

/-- A childless node inside the window is tested and then left. -/
theorem loop_leaf (symbols : List Nat) (s e : TSPoint) (f : Nat) (n : TSNode)
    (stack : List CursorEntry) (acc : List TSNode)
    (h1 : point_lte n.end_point s = false) (h2 : point_lte e n.start_point = false)
    (h3 : n.children = []) :
    descendantsOfType.loop symbols s e f ⟨⟨n, stack⟩, false, acc⟩ =
      descendantsOfType.loop symbols s e f ⟨⟨n, stack⟩, true, collect symbols n acc⟩ := by
  cases f with
  | zero => rfl
  | succ f =>
    rw [loop_succ, loop_succ]
    simp only [descendantsOfType.body, ts_tree_cursor_current_node, h1, h2, Bool.not_false,
      Bool.not_true, if_true, ts_tree_cursor_goto_first_child, h3, collect]
    rcases stack with _ | ⟨⟨p, _ | ⟨x, xs⟩⟩, rest⟩ <;> simp

/-- A node inside the window with children is tested and its first child entered. -/
theorem loop_descend (symbols : List Nat) (s e : TSPoint) (f : Nat) (n : TSNode)
    (stack : List CursorEntry) (acc : List TSNode) (k : TSNode) (ks : List TSNode)
    (h1 : point_lte n.end_point s = false) (h2 : point_lte e n.start_point = false)
    (h3 : n.children = k :: ks) :
    descendantsOfType.loop symbols s e (f + 1) ⟨⟨n, stack⟩, false, acc⟩ =
      descendantsOfType.loop symbols s e f
        ⟨⟨k, ⟨n, ks⟩ :: stack⟩, false, collect symbols n acc⟩ := by
  rw [loop_succ]
  simp only [descendantsOfType.body, ts_tree_cursor_current_node, h1, h2, Bool.not_false,
    Bool.not_true, if_true, ts_tree_cursor_goto_first_child, h3, collect]
  simp

/-- After the last child the cursor returns to the parent. -/
theorem loop_up (symbols : List Nat) (s e : TSPoint) (f : Nat) (c p : TSNode)
    (stack : List CursorEntry) (acc : List TSNode) :
    descendantsOfType.loop symbols s e (f + 1) ⟨⟨c, ⟨p, []⟩ :: stack⟩, true, acc⟩ =
      descendantsOfType.loop symbols s e f ⟨⟨p, stack⟩, true, acc⟩ := rfl

/-- After a child that has a following sibling the cursor moves to that sibling. -/
theorem loop_right (symbols : List Nat) (s e : TSPoint) (f : Nat) (c p x : TSNode)
    (xs : List TSNode) (stack : List CursorEntry) (acc : List TSNode) :
    descendantsOfType.loop symbols s e (f + 1) ⟨⟨c, ⟨p, x :: xs⟩ :: stack⟩, true, acc⟩ =
      descendantsOfType.loop symbols s e f ⟨⟨x, ⟨p, xs⟩ :: stack⟩, false, acc⟩ := rfl

/-- At the node the cursor was reset to, the walk ends once its children are done. -/
theorem loop_root (symbols : List Nat) (s e : TSPoint) (f : Nat) (n : TSNode)
    (acc : List TSNode) :
    descendantsOfType.loop symbols s e (f + 1) ⟨⟨n, []⟩, true, acc⟩ = some acc := rfl

theorem TSNode.size_pos (n : TSNode) : 1 ≤ n.size := by
  cases n; simp [TSNode.size]

theorem nodeSim_mk (symbols : List Nat) (s e : TSPoint) (i y : Nat) (a b : TSPoint)
    (cs : List TSNode) (ih : ForestSim symbols s e cs) :
    NodeSim symbols s e (.mk i y a b cs) := by
  by_cases h1 : point_lte b s = true
  · refine ⟨0, by simp [TSNode.size], fun f stack acc => ?_⟩
    have hs : scan symbols s e (.mk i y a b cs) = ([], false) := by simp [scan, h1]
    rw [hs]
    refine ⟨by simp, fun _ => ?_⟩
    simpa using loop_skip symbols s e f (.mk i y a b cs) stack acc h1
  have h1' : point_lte b s = false := by simpa using h1
  by_cases h2 : point_lte e a = true
  · refine ⟨0, by simp [TSNode.size], fun f stack acc => ?_⟩
    have hs : scan symbols s e (.mk i y a b cs) = ([], true) := by simp [scan, h1', h2]
    rw [hs]
    refine ⟨fun _ => ?_, by simp⟩
    simpa using loop_break symbols s e f (.mk i y a b cs) stack acc h1' h2
  have h2' : point_lte e a = false := by simpa using h2
  have hs : scan symbols s e (.mk i y a b cs) =
      (if symbols.contains y then .mk i y a b cs :: (scanList symbols s e cs).1
        else (scanList symbols s e cs).1, (scanList symbols s e cs).2) := by
    simp [scan, h1', h2']
  have hacc : ∀ acc : List TSNode, acc ++ (scan symbols s e (.mk i y a b cs)).1 =
      collect symbols (.mk i y a b cs) acc ++ (scanList symbols s e cs).1 := by
    intro acc
    rw [hs]
    by_cases hy : y ∈ symbols <;> simp [collect, TSNode.symbol, hy]
  cases cs with
  | nil =>
    refine ⟨0, by simp [TSNode.size], fun f stack acc => ?_⟩
    rw [hacc]
    have hb : (scan symbols s e (.mk i y a b [])).2 = false := by rw [hs]; simp [scanList]
    refine ⟨by simp [hb], fun _ => ?_⟩
    simpa [scanList] using loop_leaf symbols s e f (.mk i y a b []) stack acc h1' h2' rfl
  | cons c cs =>
    obtain ⟨k, hk, hsim⟩ := ih c cs rfl
    have hb : (scan symbols s e (.mk i y a b (c :: cs))).2 =
        (scanList symbols s e (c :: cs)).2 := by rw [hs]
    by_cases hbr : (scanList symbols s e (c :: cs)).2 = true
    · refine ⟨k + 1, by simp [TSNode.size]; omega, fun f stack acc => ?_⟩
      rw [hacc, hb]
      refine ⟨fun _ => ?_, by simp [hbr]⟩
      have hd := loop_descend symbols s e (f + k + 1) (.mk i y a b (c :: cs)) stack acc c cs
        h1' h2' rfl
      rw [show f + (k + 1) + 1 = f + k + 1 + 1 by omega, hd]
      exact (hsim f _ stack _).1 hbr
    · have hbr' : (scanList symbols s e (c :: cs)).2 = false := by simpa using hbr
      refine ⟨k + 2, by simp [TSNode.size]; omega, fun f stack acc => ?_⟩
      rw [hacc, hb]
      refine ⟨by simp [hbr'], fun _ => ?_⟩
      have hd := loop_descend symbols s e (f + k + 1) (.mk i y a b (c :: cs)) stack acc c cs
        h1' h2' rfl
      rw [show f + (k + 2) = f + k + 1 + 1 by omega, hd]
      exact (hsim f _ stack _).2 hbr'

theorem forestSim_cons (symbols : List Nat) (s e : TSPoint) (c : TSNode)
    (cs : List TSNode) (hc : NodeSim symbols s e c) (ih : ForestSim symbols s e cs) :
    ForestSim symbols s e (c :: cs) := by
  intro c0 cs0 heq
  obtain ⟨rfl, rfl⟩ : c = c0 ∧ cs = cs0 := by simpa using heq
  obtain ⟨kc, hkc, hsimc⟩ := hc
  by_cases hbc : (scan symbols s e c).2 = true
  · -- the walk stops inside the first sibling
    have hs : scanList symbols s e (c :: cs) = ((scan symbols s e c).1, true) := by
      simp [scanList, hbc]
    refine ⟨kc, by simp [TSNode.sizeList]; omega, fun f p stack acc => ?_⟩
    rw [hs]
    exact ⟨fun _ => (hsimc f _ acc).1 hbc, by simp⟩
  have hbc' : (scan symbols s e c).2 = false := by simpa using hbc
  have hs : scanList symbols s e (c :: cs) =
      ((scan symbols s e c).1 ++ (scanList symbols s e cs).1, (scanList symbols s e cs).2) := by
    simp [scanList, hbc']
  cases cs with
  | nil =>
    refine ⟨kc, by simp [TSNode.sizeList]; omega, fun f p stack acc => ?_⟩
    have hs' : scanList symbols s e [c] = ((scan symbols s e c).1, false) := by
      rw [hs]; simp [scanList]
    rw [hs']
    refine ⟨by simp, fun _ => ?_⟩
    have h := (hsimc (f + 1) (⟨p, []⟩ :: stack) acc).2 hbc'
    rw [show f + kc + 1 = f + 1 + kc by omega, h, loop_up]
  | cons c' cs' =>
    obtain ⟨k, hk, hsim⟩ := ih c' cs' rfl
    have hpos := TSNode.size_pos c
    refine ⟨kc + k + 1, by simp [TSNode.sizeList] at hk ⊢; omega, fun f p stack acc => ?_⟩
    have h := (hsimc (f + k + 1 + 1) (⟨p, c' :: cs'⟩ :: stack) acc).2 hbc'
    rw [hs]
    refine ⟨fun hb => ?_, fun hb => ?_⟩
    · rw [show f + (kc + k + 1) + 1 = f + k + 1 + 1 + kc by omega, h, loop_right,
        (hsim f p stack _).1 hb, List.append_assoc]
    · rw [show f + (kc + k + 1) + 1 = f + k + 1 + 1 + kc by omega, h, loop_right,
        (hsim f p stack _).2 hb, List.append_assoc]

theorem forestSim_nil (symbols : List Nat) (s e : TSPoint) : ForestSim symbols s e [] := by
  intro c cs h
  cases h

/-- Every node satisfies the simulation statement. -/
theorem nodeSim_all (symbols : List Nat) (s e : TSPoint) (n : TSNode) :
    NodeSim symbols s e n :=
  (TSNode.induct (NodeSim symbols s e) (ForestSim symbols s e)
    (fun i y a b cs ih => nodeSim_mk symbols s e i y a b cs ih)
    (forestSim_nil symbols s e)
    (fun c cs hc ih => forestSim_cons symbols s e c cs hc ih)).1 n

/-- With fuel for two passes per node, the walk returns what the recursive reading
collects from the root. -/
theorem walk_eq_scan (symbols : List Nat) (s e : TSPoint) (root : TSNode) (fuel : Nat)
    (hfuel : 2 * root.size ≤ fuel) :
    descendantsOfType.walk fuel symbols s e root = some (scan symbols s e root).1 := by
  obtain ⟨k, hk, hsim⟩ := nodeSim_all symbols s e root
  unfold descendantsOfType.walk ts_tree_cursor_reset
  by_cases hb : (scan symbols s e root).2 = true
  · have h := (hsim (fuel - (k + 1)) [] []).1 hb
    rw [show fuel - (k + 1) + k + 1 = fuel by omega] at h
    simpa using h
  · have hb' : (scan symbols s e root).2 = false := by simpa using hb
    have h := (hsim (fuel - (k + 1) + 1) [] []).2 hb'
    rw [show fuel - (k + 1) + 1 + k = fuel by omega, loop_root] at h
    simpa using h

/-! ### The recursive reading on well-formed trees -/

theorem point_lt_eq_not_lte (a b : TSPoint) : point_lt a b = !point_lte b a := by
  unfold point_lt point_lte
  by_cases h1 : a.row < b.row
  · have h2 : ¬ b.row < a.row := by omega
    have h3 : ¬ b.row = a.row := by omega
    simp [h1, h2, h3]
  · by_cases h4 : a.row = b.row
    · by_cases h5 : a.column < b.column
      · have h6 : ¬ b.column ≤ a.column := by omega
        simp [h4, h5, h6]
      · have h6 : b.column ≤ a.column := by omega
        simp [h4, h5, h6]
    · have h2 : b.row < a.row := by omega
      have h3 : ¬ b.row = a.row := by omega
      simp [h1, h2, h3, h4]

theorem point_lte_refl (a : TSPoint) : point_lte a a = true := by
  simp [point_lte]

theorem point_lte_trans {a b c : TSPoint} (h1 : point_lte a b = true)
    (h2 : point_lte b c = true) : point_lte a c = true := by
  simp only [point_lte, Bool.or_eq_true, decide_eq_true_eq, Bool.and_eq_true, beq_iff_eq]
    at h1 h2 ⊢
  omega

theorem overlaps_false_of_end (s e : TSPoint) (n : TSNode)
    (h : point_lte n.end_point s = true) : overlaps s e n = false := by
  simp [overlaps, point_lt_eq_not_lte, h]

theorem overlaps_false_of_start (s e : TSPoint) (n : TSNode)
    (h : point_lte e n.start_point = true) : overlaps s e n = false := by
  simp [overlaps, point_lt_eq_not_lte, h]

theorem mem_preorderList {m : TSNode} {l : List TSNode} :
    m ∈ TSNode.preorderList l ↔ ∃ c ∈ l, m ∈ c.preorder := by
  induction l with
  | nil => simp [TSNode.preorderList]
  | cons c cs ih => simp [TSNode.preorderList, ih]

theorem wellFormed_range {n : TSNode} (h : n.wellFormed = true) :
    point_lte n.start_point n.end_point = true := by
  cases n
  simp only [TSNode.wellFormed, Bool.and_eq_true] at h
  exact h.1.1.1

/-- In a well-formed tree every node of a subtree lies inside the range of the
subtree's root. -/
theorem preorder_bounds (n : TSNode) : n.wellFormed = true → ∀ m ∈ n.preorder,
    point_lte n.start_point m.start_point = true ∧
      point_lte m.end_point n.end_point = true := by
  refine (TSNode.induct
    (fun n => n.wellFormed = true → ∀ m ∈ n.preorder,
      point_lte n.start_point m.start_point = true ∧
        point_lte m.end_point n.end_point = true)
    (fun l => TSNode.wellFormedList l = true → ∀ c ∈ l, ∀ m ∈ c.preorder,
      point_lte c.start_point m.start_point = true ∧
        point_lte m.end_point c.end_point = true)
    ?_ ?_ ?_).1 n
  · intro i y a b cs ih hwf m hm
    simp only [TSNode.wellFormed, Bool.and_eq_true, List.all_eq_true] at hwf
    obtain ⟨⟨⟨_, hin⟩, _⟩, hl⟩ := hwf
    simp only [TSNode.preorder, List.mem_cons] at hm
    rcases hm with rfl | hm
    · exact ⟨point_lte_refl _, point_lte_refl _⟩
    · obtain ⟨c, hc, hmc⟩ := mem_preorderList.1 hm
      have hb := ih hl c hc m hmc
      have hi := hin c hc
      simp only [TSNode.inside, Bool.and_eq_true] at hi
      exact ⟨point_lte_trans hi.1 hb.1, point_lte_trans hb.2 hi.2⟩
  · intro _ c hc
    cases hc
  · intro c cs hc ih hwf x hx m hm
    simp only [TSNode.wellFormedList, Bool.and_eq_true] at hwf
    rcases List.mem_cons.1 hx with rfl | hx
    · exact hc hwf.1 m hm
    · exact ih hwf.2 x hx m hm

/-- In an ordered list of well-formed siblings every node of a later sibling's
subtree starts at or after the end of the first sibling. -/
theorem siblings_after (cs : List TSNode) : ∀ (c : TSNode),
    TSNode.siblingsOrdered (c :: cs) = true → TSNode.wellFormedList cs = true →
    ∀ m ∈ TSNode.preorderList cs, point_lte c.end_point m.start_point = true := by
  induction cs with
  | nil => intro c _ _ m hm; simp [TSNode.preorderList] at hm
  | cons x xs ih =>
    intro c hord hwf m hm
    simp only [TSNode.siblingsOrdered, Bool.and_eq_true] at hord
    simp only [TSNode.wellFormedList, Bool.and_eq_true] at hwf
    simp only [TSNode.preorderList, List.mem_append] at hm
    rcases hm with hm | hm
    · exact point_lte_trans hord.1 (preorder_bounds x hwf.1 m hm).1
    · exact point_lte_trans (point_lte_trans hord.1 (wellFormed_range hwf.1))
        (ih x hord.2 hwf.2 m hm)

theorem siblingsOrdered_tail {c : TSNode} {cs : List TSNode}
    (h : TSNode.siblingsOrdered (c :: cs) = true) : TSNode.siblingsOrdered cs = true := by
  cases cs with
  | nil => rfl
  | cons x xs =>
    simp only [TSNode.siblingsOrdered, Bool.and_eq_true] at h
    exact h.2

/-- On a well-formed tree the recursive reading collects the wanted nodes of the
pre-order list, and it stops only at or before the end of the subtree. -/
theorem scan_wellFormed (symbols : List Nat) (s e : TSPoint) (n : TSNode) :
    n.wellFormed = true →
      (scan symbols s e n).1 = n.preorder.filter (wanted symbols s e) ∧
      ((scan symbols s e n).2 = true → point_lte e n.end_point = true) := by
  refine (TSNode.induct
    (fun n => n.wellFormed = true →
      (scan symbols s e n).1 = n.preorder.filter (wanted symbols s e) ∧
      ((scan symbols s e n).2 = true → point_lte e n.end_point = true))
    (fun l => TSNode.wellFormedList l = true → TSNode.siblingsOrdered l = true →
      (scanList symbols s e l).1 = (TSNode.preorderList l).filter (wanted symbols s e) ∧
      ((scanList symbols s e l).2 = true → ∃ c ∈ l, point_lte e c.end_point = true))
    ?_ ?_ ?_).1 n
  · intro i y a b cs ih hwf
    have hbounds := preorder_bounds _ hwf
    have hrange := wellFormed_range hwf
    simp only [TSNode.start_point, TSNode.end_point] at hbounds hrange
    simp only [TSNode.wellFormed, Bool.and_eq_true, List.all_eq_true] at hwf
    obtain ⟨⟨⟨_, hin⟩, hord⟩, hl⟩ := hwf
    obtain ⟨ih1, ih2⟩ := ih hl hord
    by_cases h1 : point_lte b s = true
    · have hs : scan symbols s e (.mk i y a b cs) = ([], false) := by simp [scan, h1]
      rw [hs]
      refine ⟨?_, by simp⟩
      symm
      rw [List.filter_eq_nil_iff]
      intro m hm
      have := overlaps_false_of_end s e m (point_lte_trans (hbounds m hm).2 h1)
      simp [wanted, this]
    have h1' : point_lte b s = false := by simpa using h1
    by_cases h2 : point_lte e a = true
    · have hs : scan symbols s e (.mk i y a b cs) = ([], true) := by simp [scan, h1', h2]
      rw [hs]
      refine ⟨?_, fun _ => point_lte_trans h2 hrange⟩
      symm
      rw [List.filter_eq_nil_iff]
      intro m hm
      have := overlaps_false_of_start s e m (point_lte_trans h2 (hbounds m hm).1)
      simp [wanted, this]
    have h2' : point_lte e a = false := by simpa using h2
    have hs : scan symbols s e (.mk i y a b cs) =
        (if symbols.contains y then .mk i y a b cs :: (scanList symbols s e cs).1
          else (scanList symbols s e cs).1, (scanList symbols s e cs).2) := by
      simp [scan, h1', h2']
    have hw : wanted symbols s e (.mk i y a b cs) = symbols.contains y := by
      simp [wanted, overlaps, point_lt_eq_not_lte, TSNode.symbol, TSNode.start_point,
        TSNode.end_point, h1', h2']
    rw [hs]
    refine ⟨?_, fun hb => ?_⟩
    · simp only [TSNode.preorder, List.filter_cons, hw, ih1]
    · obtain ⟨c, hc, hce⟩ := ih2 hb
      have hi := hin c hc
      simp only [TSNode.inside, Bool.and_eq_true] at hi
      exact point_lte_trans hce hi.2
  · intro _ _
    simp [scanList, TSNode.preorderList]
  · intro c cs hc ih hwf hord
    simp only [TSNode.wellFormedList, Bool.and_eq_true] at hwf
    obtain ⟨hc1, hc2⟩ := hc hwf.1
    obtain ⟨ih1, ih2⟩ := ih hwf.2 (siblingsOrdered_tail hord)
    by_cases hbc : (scan symbols s e c).2 = true
    · have hs : scanList symbols s e (c :: cs) = ((scan symbols s e c).1, true) := by
        simp [scanList, hbc]
      rw [hs]
      refine ⟨?_, fun _ => ⟨c, List.mem_cons_self _ _, hc2 hbc⟩⟩
      have hnil : (TSNode.preorderList cs).filter (wanted symbols s e) = [] := by
        rw [List.filter_eq_nil_iff]
        intro m hm
        have hafter := siblings_after cs c hord hwf.2 m hm
        have := overlaps_false_of_start s e m (point_lte_trans (hc2 hbc) hafter)
        simp [wanted, this]
      simp [TSNode.preorderList, List.filter_append, hnil, hc1]
    · have hbc' : (scan symbols s e c).2 = false := by simpa using hbc
      have hs : scanList symbols s e (c :: cs) =
          ((scan symbols s e c).1 ++ (scanList symbols s e cs).1,
            (scanList symbols s e cs).2) := by
        simp [scanList, hbc']
      rw [hs]
      refine ⟨by simp [TSNode.preorderList, List.filter_append, hc1, ih1], fun hb => ?_⟩
      obtain ⟨x, hx, hxe⟩ := ih2 hb
      exact ⟨x, List.mem_cons_of_mem _ hx, hxe⟩

/-- C1: on a well-formed tree (every range runs from start to end, each child's
range lies inside its parent's, each sibling starts at or after the end of the one
before), for every root, every resolved symbol list and every window `[s, e)`, the
walk of `Node::descendantsOfType`, given two loop passes per node, returns exactly
the pre-order list of the nodes of the root's subtree whose symbol is in the list
and whose range overlaps the window (end after `s`, start before `e`); when the
nodes of the tree are pairwise distinct, no node occurs twice in the result. -/
theorem descendantsOfType_walk_matching (root : TSNode) (symbols : List Nat)
    (s e : TSPoint) (fuel : Nat) (hwf : root.wellFormed = true)
    (hfuel : 2 * root.size ≤ fuel) :
    Node.descendantsOfType.walk fuel symbols s e root = some (matching symbols s e root) ∧
    ((root.preorder.map TSNode.id).Nodup →
      ((matching symbols s e root).map TSNode.id).Nodup) := by
  refine ⟨?_, fun hnd => ?_⟩
  · rw [walk_eq_scan symbols s e root fuel hfuel, (scan_wellFormed symbols s e root hwf).1]
    rfl
  · exact hnd.sublist ((List.filter_sublist _).map _)

/-- Witness for C1: the walk over the tree of `a = 1 + 2`, searching symbol 3 in
the window from `(0,5)` to `(0,9)`. -/
theorem descendantsOfType_walk_matching_witness :
    sampleTree.wellFormed = true ∧ 2 * sampleTree.size ≤ 14 ∧
    (Node.descendantsOfType.walk 14 [3] ⟨0, 5⟩ ⟨0, 9⟩ sampleTree =
        some (matching [3] ⟨0, 5⟩ ⟨0, 9⟩ sampleTree) ∧
      ((sampleTree.preorder.map TSNode.id).Nodup →
        ((matching [3] ⟨0, 5⟩ ⟨0, 9⟩ sampleTree).map TSNode.id).Nodup)) :=
  ⟨by decide, by decide,
    descendantsOfType_walk_matching sampleTree [3] ⟨0, 5⟩ ⟨0, 9⟩ 14 (by decide) (by decide)⟩

/-! ### The default range -/

/-- When no node of the subtree ends at or before `s` or starts at or after `e`,
the recursive reading collects every node with a wanted symbol and never stops. -/
theorem scan_unranged (symbols : List Nat) (s e : TSPoint) (n : TSNode) :
    (∀ m ∈ n.preorder, point_lte m.end_point s = false ∧
        point_lte e m.start_point = false) →
      scan symbols s e n = (unrangedSearch symbols n, false) := by
  refine (TSNode.induct
    (fun n => (∀ m ∈ n.preorder, point_lte m.end_point s = false ∧
        point_lte e m.start_point = false) →
      scan symbols s e n = (unrangedSearch symbols n, false))
    (fun l => (∀ m ∈ TSNode.preorderList l, point_lte m.end_point s = false ∧
        point_lte e m.start_point = false) →
      scanList symbols s e l =
        ((TSNode.preorderList l).filter fun n => symbols.contains n.symbol, false))
    ?_ ?_ ?_).1 n
  · intro i y a b cs ih h
    have hroot := h (.mk i y a b cs) (by simp [TSNode.preorder])
    simp only [TSNode.start_point, TSNode.end_point] at hroot
    have hcs := ih fun m hm => h m (by simp [TSNode.preorder, hm])
    simp [scan, hroot.1, hroot.2, hcs, unrangedSearch, TSNode.preorder, List.filter_cons,
      TSNode.symbol]
  · intro _
    simp [scanList, TSNode.preorderList]
  · intro c cs hc ih h
    have h1 := hc fun m hm => h m (by simp [TSNode.preorderList, hm])
    have h2 := ih fun m hm => h m (by simp [TSNode.preorderList, hm])
    simp [scanList, h1, h2, unrangedSearch, TSNode.preorderList, List.filter_append]

theorem end_point_default :
    Node.descendantsOfType.end_point ⟨0, 0⟩ = ⟨UINT32_MAX, UINT32_MAX⟩ := rfl

/-- C2, amended: when every node of the root's subtree ends after `(0,0)` and
starts before `(UINT32_MAX, UINT32_MAX)`, `Node::descendantsOfType` with the
default range, given two loop passes per node, returns the unranged search: the
pre-order list of all nodes of the subtree whose symbol is in the resolved set. -/
theorem descendantsOfType_default_range (typesBySymbol : List String) (root : TSNode)
    (types : List String) (fuel : Nat) (hfuel : 2 * root.size ≤ fuel)
    (hpos : ∀ m ∈ root.preorder, point_lt ⟨0, 0⟩ m.end_point = true ∧
      point_lt m.start_point ⟨UINT32_MAX, UINT32_MAX⟩ = true) :
    Node.descendantsOfType fuel typesBySymbol root types ⟨0, 0⟩ ⟨0, 0⟩ =
      some (unrangedSearch (Node.descendantsOfType.symbols typesBySymbol types) root) := by
  unfold Node.descendantsOfType
  simp only [end_point_default]
  rw [walk_eq_scan _ _ _ root fuel hfuel, scan_unranged]
  intro m hm
  have h := hpos m hm
  simp only [point_lt_eq_not_lte, Bool.not_eq_true'] at h
  exact h

/-- Witness for C2, amended: the tree of `a = 1 + 2`, searched for `number`. -/
theorem descendantsOfType_default_range_witness :
    2 * sampleTree.size ≤ 14 ∧
    (∀ m ∈ sampleTree.preorder, point_lt ⟨0, 0⟩ m.end_point = true ∧
      point_lt m.start_point ⟨UINT32_MAX, UINT32_MAX⟩ = true) ∧
    Node.descendantsOfType 14 ["end", "identifier", "=", "number"] sampleTree ["number"]
        ⟨0, 0⟩ ⟨0, 0⟩ =
      some (unrangedSearch
        (Node.descendantsOfType.symbols ["end", "identifier", "=", "number"] ["number"])
        sampleTree) :=
  ⟨by decide, by decide,
    descendantsOfType_default_range ["end", "identifier", "=", "number"] sampleTree
      ["number"] 14 (by decide) (by decide)⟩

/-- C2, counterexample: on the root of an empty document, which ends at `(0,0)`,
the search with the default range returns no node for any amount of fuel, while
the unranged search returns the root. -/
theorem descendantsOfType_default_range_counterexample :
    (¬ ∃ fuel, Node.descendantsOfType fuel ["identifier", "program"] emptyDocument
        ["program"] ⟨0, 0⟩ ⟨0, 0⟩ =
      some (unrangedSearch
        (Node.descendantsOfType.symbols ["identifier", "program"] ["program"])
        emptyDocument)) ∧
    Node.descendantsOfType 1 ["identifier", "program"] emptyDocument ["program"]
      ⟨0, 0⟩ ⟨0, 0⟩ = some [] ∧
    unrangedSearch (Node.descendantsOfType.symbols ["identifier", "program"] ["program"])
      emptyDocument = [emptyDocument] := by
  have hsym : Node.descendantsOfType.symbols ["identifier", "program"] ["program"] = [1] := by
    decide
  have hun : unrangedSearch [1] emptyDocument = [emptyDocument] := by rfl
  refine ⟨?_, by rfl, by rw [hsym, hun]⟩
  rintro ⟨fuel, h⟩
  rw [hsym, hun] at h
  cases fuel with
  | zero => cases h
  | succ f =>
    have h' : Node.descendantsOfType (f + 1) ["identifier", "program"] emptyDocument
        ["program"] ⟨0, 0⟩ ⟨0, 0⟩ = some [] := by rfl
    rw [h'] at h
    cases h

/-! ### Resolution of the type names -/

theorem symbols_lt_length (typesBySymbol types : List String) :
    ∀ i ∈ Node.descendantsOfType.symbols typesBySymbol types, i < typesBySymbol.length := by
  intro i hi
  simp only [Node.descendantsOfType.symbols, List.mem_filter, List.mem_range] at hi
  exact hi.1

/-- The resolved indices depend on the given names only through the names that
occur in `typesBySymbol`. -/
theorem symbols_congr (typesBySymbol types types' : List String)
    (h : ∀ t ∈ typesBySymbol, types.contains t = types'.contains t) :
    Node.descendantsOfType.symbols typesBySymbol types =
      Node.descendantsOfType.symbols typesBySymbol types' := by
  unfold Node.descendantsOfType.symbols
  apply List.filter_congr
  intro i _
  cases hget : typesBySymbol[i]? with
  | none => rfl
  | some t => exact h t (List.getElem?_mem hget)

theorem symbols_nil (typesBySymbol : List String) :
    Node.descendantsOfType.symbols typesBySymbol [] = [] := by
  unfold Node.descendantsOfType.symbols
  rw [List.filter_eq_nil_iff]
  intro i _
  cases typesBySymbol[i]? <;> simp

/-- With no target symbol the recursive reading collects nothing. -/
theorem scan_nil (s e : TSPoint) (n : TSNode) : (scan [] s e n).1 = [] := by
  refine (TSNode.induct (fun n => (scan [] s e n).1 = [])
    (fun l => (scanList [] s e l).1 = []) ?_ ?_ ?_).1 n
  · intro i y a b cs ih
    simp only [scan]
    split
    · rfl
    · split
      · rfl
      · simpa using ih
  · rfl
  · intro c cs hc ih
    simp only [scanList]
    split
    · exact hc
    · simp [hc, ih]

/-- C4: when none of the names `extra` is an entry of the language's node-type
list, `Node::descendantsOfType` called with the names `extra` alone returns the
empty list (a normal return, for every tree, root and range), and adding the names
`extra` to a target list, before or after it, does not change the result. -/
theorem descendantsOfType_unknown_names (typesBySymbol : List String) (root : TSNode)
    (types extra : List String) (startPosition endPosition : TSPoint) (fuel : Nat)
    (hfuel : 2 * root.size ≤ fuel) (hunknown : ∀ t ∈ extra, t ∉ typesBySymbol) :
    Node.descendantsOfType fuel typesBySymbol root extra startPosition endPosition =
      some [] ∧
    Node.descendantsOfType fuel typesBySymbol root (types ++ extra) startPosition
        endPosition =
      Node.descendantsOfType fuel typesBySymbol root types startPosition endPosition ∧
    Node.descendantsOfType fuel typesBySymbol root (extra ++ types) startPosition
        endPosition =
      Node.descendantsOfType fuel typesBySymbol root types startPosition endPosition := by
  have hno : ∀ t ∈ typesBySymbol, extra.contains t = false := by
    intro t ht
    cases hc : extra.contains t with
    | false => rfl
    | true => exact absurd ht (hunknown t (by simpa using hc))
  refine ⟨?_, ?_, ?_⟩
  · have hsym : Node.descendantsOfType.symbols typesBySymbol extra = [] := by
      rw [symbols_congr typesBySymbol extra [] (fun t ht => by rw [hno t ht]; rfl),
        symbols_nil]
    unfold Node.descendantsOfType
    simp only [hsym]
    rw [walk_eq_scan _ _ _ root fuel hfuel, scan_nil]
  · unfold Node.descendantsOfType
    rw [symbols_congr typesBySymbol (types ++ extra) types]
    intro t ht
    have := hno t ht
    simp only [List.contains_eq_any_beq, List.any_append] at this ⊢
    simp [this]
  · unfold Node.descendantsOfType
    rw [symbols_congr typesBySymbol (extra ++ types) types]
    intro t ht
    have := hno t ht
    simp only [List.contains_eq_any_beq, List.any_append] at this ⊢
    simp [this]

/-- Witness for C4: the names `foo` and `bar` are unknown among the node types
`identifier` and `number`. -/
theorem descendantsOfType_unknown_names_witness :
    2 * sampleTree.size ≤ 14 ∧ (∀ t ∈ ["foo", "bar"], t ∉ ["identifier", "number"]) ∧
    (Node.descendantsOfType 14 ["identifier", "number"] sampleTree ["foo", "bar"]
        ⟨0, 0⟩ ⟨0, 0⟩ = some [] ∧
      Node.descendantsOfType 14 ["identifier", "number"] sampleTree
          (["number"] ++ ["foo", "bar"]) ⟨0, 0⟩ ⟨0, 0⟩ =
        Node.descendantsOfType 14 ["identifier", "number"] sampleTree ["number"]
          ⟨0, 0⟩ ⟨0, 0⟩ ∧
      Node.descendantsOfType 14 ["identifier", "number"] sampleTree
          (["foo", "bar"] ++ ["number"]) ⟨0, 0⟩ ⟨0, 0⟩ =
        Node.descendantsOfType 14 ["identifier", "number"] sampleTree ["number"]
          ⟨0, 0⟩ ⟨0, 0⟩) :=
  ⟨by decide, by decide,
    descendantsOfType_unknown_names ["identifier", "number"] sampleTree ["number"]
      ["foo", "bar"] ⟨0, 0⟩ ⟨0, 0⟩ 14 (by decide) (by decide)⟩

/-- C3, at the failing input: in `listLanguage` the name of symbol 2 is `number`,
yet for no iteration order of the type map is 2 among the ids resolved for the name
`number`; with the map iterated in insertion order the search for `number` in the
tree of `1 2` resolves index 1 and returns the `list` root instead of the two
`number` nodes, and with the opposite order it resolves index 0 and returns
nothing. -/
theorem descendantsOfType_symbols_listLanguage :
    listLanguage.symbol_name 2 = "number" ∧
    Language.init listLanguage = [(1, "list"), (2, "number")] ∧
    (¬ ∃ types : List (Nat × String), types.Perm (Language.init listLanguage) ∧
      2 ∈ Node.descendantsOfType.symbols (Language.nodeTypes types) ["number"]) ∧
    Node.descendantsOfType.symbols
      (Language.nodeTypes (Language.init listLanguage)) ["number"] = [1] ∧
    Node.descendantsOfType 6 (Language.nodeTypes (Language.init listLanguage)) listTree
      ["number"] ⟨0, 0⟩ ⟨0, 0⟩ = some [listTree] ∧
    Node.descendantsOfType 6 (Language.nodeTypes [(2, "number"), (1, "list")]) listTree
      ["number"] ⟨0, 0⟩ ⟨0, 0⟩ = some [] := by
  refine ⟨rfl, by decide, ?_, by decide, by rfl, by rfl⟩
  rintro ⟨types, hperm, hmem⟩
  have hlt := symbols_lt_length _ _ 2 hmem
  have hlen : (Language.nodeTypes types).length = 2 := by
    simp only [Language.nodeTypes, List.length_map, hperm.length_eq]
    decide
  omega

/-! ### Loops over index ranges -/

theorem foldl_count_push {α β : Type} (f : α → β) (l : List α) :
    ∀ acc : Nat × List β,
      l.foldl (fun (acc : Nat × List β) a => (acc.1 + 1, acc.2 ++ [f a])) acc =
        (acc.1 + l.length, acc.2 ++ l.map f) := by
  induction l with
  | nil => intro acc; simp
  | cons x xs ih =>
    intro acc
    rw [List.foldl_cons, ih]
    simp
    omega

theorem foldlM_range'_getElem? {α β : Type} (g : β → α → Option β) (l : List α) :
    ∀ (pre : List α) (init : β),
      (List.range' pre.length l.length).foldlM
          (fun acc i => (pre ++ l)[i]? >>= fun x => g acc x) init =
        l.foldlM g init := by
  induction l with
  | nil => intro pre init; rfl
  | cons x xs ih =>
    intro pre init
    rw [List.length_cons, List.range'_succ, List.foldlM_cons, List.foldlM_cons]
    have hx : (pre ++ x :: xs)[pre.length]? = some x := by
      rw [List.getElem?_append_right (Nat.le_refl _)]
      simp
    rw [hx]
    simp only [Option.some_bind, Option.bind_eq_bind]
    congr 1
    funext acc
    have := ih (pre ++ [x]) acc
    simpa using this

/-- A loop over the indices of a list that reads the element at each index is a
loop over the elements. -/
theorem foldlM_range_getElem? {α β : Type} (g : β → α → Option β) (l : List α)
    (init : β) :
    (List.range l.length).foldlM (fun acc i => l[i]? >>= fun x => g acc x) init =
      l.foldlM g init := by
  rw [List.range_eq_range']
  simpa using foldlM_range'_getElem? g l [] init

theorem queryCaptures_eq (query : TSQuery) (cursor : TSQueryCursor) (node : TSNode)
    (startPosition endPosition : TSPoint) (options : Query.Options) :
    queryCaptures query cursor node startPosition.row startPosition.column
        endPosition.row endPosition.column options.matchLimit =
      (configured startPosition endPosition options,
        (query.next_capture (configured startPosition endPosition options) node).length,
        (query.next_capture (configured startPosition endPosition options) node).map
          captureRecord,
        query.did_exceed_match_limit (configured startPosition endPosition options) node) := by
  have hc : ts_query_cursor_set_point_range
      (if (options.matchLimit == 0) = true then
        ts_query_cursor_set_match_limit cursor UINT32_MAX
      else ts_query_cursor_set_match_limit cursor options.matchLimit)
      ⟨startPosition.row, startPosition.column⟩ ⟨endPosition.row, endPosition.column⟩ =
      configured startPosition endPosition options := by
    by_cases h : options.matchLimit = 0 <;>
      simp [configured, effectiveMatchLimit, ts_query_cursor_set_point_range,
        ts_query_cursor_set_match_limit, h]
  have hl := foldl_count_push captureRecord
    (query.next_capture (configured startPosition endPosition options) node) (0, [])
  simp only [captureRecord] at hl
  unfold queryCaptures
  simp only [hc, hl]
  simp [captureRecord]

theorem queryMatches_eq (query : TSQuery) (cursor : TSQueryCursor) (node : TSNode)
    (startPosition endPosition : TSPoint) (options : Query.Options) :
    queryMatches query cursor node startPosition.row startPosition.column
        endPosition.row endPosition.column options.matchLimit =
      (configured startPosition endPosition options,
        (query.next_match (configured startPosition endPosition options) node).length,
        (query.next_match (configured startPosition endPosition options) node).map
          matchRecord,
        query.did_exceed_match_limit (configured startPosition endPosition options) node) := by
  have hc : ts_query_cursor_set_point_range
      (if (options.matchLimit == 0) = true then
        ts_query_cursor_set_match_limit cursor UINT32_MAX
      else ts_query_cursor_set_match_limit cursor options.matchLimit)
      ⟨startPosition.row, startPosition.column⟩ ⟨endPosition.row, endPosition.column⟩ =
      configured startPosition endPosition options := by
    by_cases h : options.matchLimit = 0 <;>
      simp [configured, effectiveMatchLimit, ts_query_cursor_set_point_range,
        ts_query_cursor_set_match_limit, h]
  have hl := foldl_count_push matchRecord
    (query.next_match (configured startPosition endPosition options) node) (0, [])
  simp only [matchRecord] at hl
  unfold queryMatches
  simp only [hc, hl]
  simp [matchRecord]

/-! ### Filtering by text predicates -/

theorem every_eq_all (captures : List Query.Capture) (fns : List Query.TextPredicate) :
    Query.every captures fns = fns.all fun fn => fn captures := by
  induction fns with
  | nil => rfl
  | cons fn fns ih =>
    simp only [Query.every, List.all_cons, ih]
    cases fn captures <;> simp

theorem rawCaptures_eta (l : List TSQueryCapture) :
    (l.map fun capture => (⟨capture.node, capture.index⟩ : TSQueryCapture)) = l := by
  induction l with
  | nil => rfl
  | cons c cs ih => simp

/-- The naming loop over raw captures whose ids are inside the name table. -/
theorem mapM_names (names : List String) (l : List TSQueryCapture)
    (h : ∀ c ∈ l, c.index < names.length) :
    (l.mapM fun c => names[c.index]? >>= fun name =>
        (pure (Query.Capture.mk name c.node) : Option Query.Capture)) =
      some (l.map fun c => ⟨names.getD c.index "", c.node⟩) := by
  induction l with
  | nil => rfl
  | cons c cs ih =>
    have hc : c.index < names.length := h c (List.mem_cons_self _ _)
    have hget : names[c.index]? = some (names.getD c.index "") := by
      simp [List.getD, List.getElem?_eq_getElem hc]
    rw [List.mapM_cons, hget, ih fun x hx => h x (List.mem_cons_of_mem _ hx)]
    rfl

/-- One pass of the loop of `Query::captures` on the record of a raw capture
record whose indices are in range. -/
theorem captures_body_eq (q : Query) (r : TSQueryMatch × Nat) (result : List Query.Capture)
    (hpattern : r.1.pattern_index < q.textPredicates.length)
    (hname : ∀ c ∈ r.1.captures, c.index < q.captureNames.length)
    (hindex : passes q r.1 = true → r.2 < r.1.captures.length) :
    Query.captures.body q (captureRecord r) result =
      some (result ++ captureStream q [r]) := by
  have hfns : q.textPredicates[r.1.pattern_index]? =
      some (q.textPredicates.getD r.1.pattern_index []) := by
    simp [List.getD, List.getElem?_eq_getElem hpattern]
  have hmap : (r.1.captures.mapM fun c => q.captureNames[c.index]? >>= fun name =>
      (pure (Query.Capture.mk name c.node) : Option Query.Capture)) =
      some (reified q r.1) := mapM_names q.captureNames r.1.captures hname
  have hpass : ((q.textPredicates.getD r.1.pattern_index []).all fun fn =>
      fn (reified q r.1)) = passes q r.1 := rfl
  unfold Query.captures.body
  simp only [captureRecord, rawCaptures_eta, bind, pure] at hmap ⊢
  rw [hmap]
  simp only [Option.some_bind, Option.bind_eq_bind, hfns, every_eq_all, hpass]
  by_cases hp : passes q r.1 = true
  · have hlt : r.2 < (reified q r.1).length := by
      simpa [reified] using hindex hp
    simp only [hp, if_true, captureStream, List.filterMap_cons, List.filterMap_nil,
      List.getElem?_eq_getElem hlt, Option.some_bind]
  · have hp' : passes q r.1 = false := by simpa using hp
    simp [hp', captureStream]

theorem captureStream_cons (q : Query) (r : TSQueryMatch × Nat)
    (rs : List (TSQueryMatch × Nat)) :
    captureStream q (r :: rs) = captureStream q [r] ++ captureStream q rs := by
  simp only [captureStream, List.filterMap_cons, List.filterMap_nil]
  split <;> simp

theorem captures_fold (q : Query) (records : List (TSQueryMatch × Nat)) :
    (∀ r ∈ records, r.1.pattern_index < q.textPredicates.length) →
    (∀ r ∈ records, ∀ c ∈ r.1.captures, c.index < q.captureNames.length) →
    (∀ r ∈ records, passes q r.1 = true → r.2 < r.1.captures.length) →
    ∀ result : List Query.Capture,
      (records.map captureRecord).foldlM
          (fun result mr => Query.captures.body q mr result) result =
        some (result ++ captureStream q records) := by
  induction records with
  | nil => intro _ _ _ result; simp [captureStream]
  | cons r rs ih =>
    intro hpattern hname hindex result
    rw [List.map_cons, List.foldlM_cons,
      captures_body_eq q r result (hpattern r (List.mem_cons_self _ _))
        (hname r (List.mem_cons_self _ _)) (hindex r (List.mem_cons_self _ _))]
    simp only [bind, Option.some_bind]
    rw [ih (fun x hx => hpattern x (List.mem_cons_of_mem _ hx))
        (fun x hx => hname x (List.mem_cons_of_mem _ hx))
        (fun x hx => hindex x (List.mem_cons_of_mem _ hx)),
      captureStream_cons q r rs, List.append_assoc]

/-- C7: for every query and every sequence of raw capture records yielded by the
engine for the call, with pattern indices, capture ids and capture indices in
range, `Query::captures` returns, in engine order, exactly one capture per record
whose match passes all text predicates of its pattern, namely the reified capture
at the record's capture index, and nothing for a record whose match fails one. -/
theorem captures_eq_captureStream (q : Query) (node : TSNode)
    (startPosition endPosition : TSPoint) (options : Query.Options)
    (hpattern : ∀ r ∈ q.query.next_capture (configured startPosition endPosition options) node,
      r.1.pattern_index < q.textPredicates.length)
    (hname : ∀ r ∈ q.query.next_capture (configured startPosition endPosition options) node,
      ∀ c ∈ r.1.captures, c.index < q.captureNames.length)
    (hindex : ∀ r ∈ q.query.next_capture (configured startPosition endPosition options) node,
      passes q r.1 = true → r.2 < r.1.captures.length) :
    (q.captures node startPosition endPosition options).2 =
      some (captureStream q
        (q.query.next_capture (configured startPosition endPosition options) node)) := by
  unfold Query.captures
  simp only [queryCaptures_eq]
  have hlen : (q.query.next_capture (configured startPosition endPosition options) node).length =
      ((q.query.next_capture (configured startPosition endPosition options) node).map
        captureRecord).length := by simp
  rw [hlen]
  have hfold := foldlM_range_getElem? (fun result mr => Query.captures.body q mr result)
    ((q.query.next_capture (configured startPosition endPosition options) node).map
      captureRecord) []
  simp only [bind] at hfold ⊢
  rw [hfold, captures_fold q _ hpattern hname hindex]
  simp

/-! ### The list returned by `Query::matches` -/

theorem mapM_range'_getElem? {α β : Type} (f : α → Option β) (l : List α) :
    ∀ pre : List α,
      (List.range' pre.length l.length).mapM (fun j => (pre ++ l)[j]? >>= f) =
        l.mapM f := by
  induction l with
  | nil => intro pre; rfl
  | cons x xs ih =>
    intro pre
    have hx : (pre ++ x :: xs)[pre.length]? = some x := by
      rw [List.getElem?_append_right (Nat.le_refl _)]
      simp
    have := ih (pre ++ [x])
    simp only [List.length_append, List.length_singleton, List.append_assoc,
      List.singleton_append] at this
    rw [List.length_cons, List.range'_succ, List.mapM_cons, List.mapM_cons, hx, this]
    rfl

/-- A naming loop over the indices of a list is a naming loop over its elements. -/
theorem mapM_range_getElem? {α β : Type} (f : α → Option β) (l : List α) :
    (List.range l.length).mapM (fun j => l[j]? >>= f) = l.mapM f := by
  rw [List.range_eq_range']
  simpa using mapM_range'_getElem? f l []

/-- One pass of the loop of `Query::matches` on the record of a raw match whose
indices are in range. -/
theorem matches_body_eq (q : Query) (m : TSQueryMatch) (result : List Query.Match)
    (hpattern : m.pattern_index < q.textPredicates.length)
    (hname : ∀ c ∈ m.captures, c.index < q.captureNames.length) :
    Query.matches.body q (matchRecord m) result = some (result ++ matchList q [m]) := by
  have hfns : q.textPredicates[m.pattern_index]? =
      some (q.textPredicates.getD m.pattern_index []) := by
    simp [List.getD, List.getElem?_eq_getElem hpattern]
  have hmap : ((List.range m.captures.length).mapM fun j => m.captures[j]? >>= fun c =>
      q.captureNames[c.index]? >>= fun name =>
        (pure (Query.Capture.mk name c.node) : Option Query.Capture)) =
      some (reified q m) := by
    rw [mapM_range_getElem?]
    exact mapM_names q.captureNames m.captures hname
  have hpass : ((q.textPredicates.getD m.pattern_index []).all fun fn =>
      fn (reified q m)) = passes q m := rfl
  unfold Query.matches.body
  simp only [matchRecord, rawCaptures_eta, bind, pure] at hmap ⊢
  rw [hmap]
  simp only [Option.some_bind, Option.bind_eq_bind, hfns, every_eq_all, hpass]
  by_cases hp : passes q m = true
  · simp [hp, matchList]
  · have hp' : passes q m = false := by simpa using hp
    simp [hp', matchList]

theorem matchList_cons (q : Query) (m : TSQueryMatch) (ms : List TSQueryMatch) :
    matchList q (m :: ms) = matchList q [m] ++ matchList q ms := by
  simp only [matchList, List.filterMap_cons, List.filterMap_nil]
  split <;> simp

theorem matches_fold (q : Query) (raw : List TSQueryMatch) :
    (∀ m ∈ raw, m.pattern_index < q.textPredicates.length) →
    (∀ m ∈ raw, ∀ c ∈ m.captures, c.index < q.captureNames.length) →
    ∀ result : List Query.Match,
      (raw.map matchRecord).foldlM
          (fun result mr => Query.matches.body q mr result) result =
        some (result ++ matchList q raw) := by
  induction raw with
  | nil => intro _ _ result; simp [matchList]
  | cons m ms ih =>
    intro hpattern hname result
    rw [List.map_cons, List.foldlM_cons,
      matches_body_eq q m result (hpattern m (List.mem_cons_self _ _))
        (hname m (List.mem_cons_self _ _))]
    simp only [bind, Option.some_bind]
    rw [ih (fun x hx => hpattern x (List.mem_cons_of_mem _ hx))
        (fun x hx => hname x (List.mem_cons_of_mem _ hx)),
      matchList_cons q m ms, List.append_assoc]

/-- The list returned by `Query::matches` when the engine's records are in range:
one value-initialised match per raw match, followed by the match list of the
specification. -/
theorem matches_eq_padded_matchList (q : Query) (node : TSNode)
    (startPosition endPosition : TSPoint) (options : Query.Options)
    (hpattern : ∀ m ∈ q.query.next_match (configured startPosition endPosition options) node,
      m.pattern_index < q.textPredicates.length)
    (hname : ∀ m ∈ q.query.next_match (configured startPosition endPosition options) node,
      ∀ c ∈ m.captures, c.index < q.captureNames.length) :
    (q.matches node startPosition endPosition options).2 =
      some (List.replicate
          (q.query.next_match (configured startPosition endPosition options) node).length
          ⟨0, []⟩ ++
        matchList q (q.query.next_match (configured startPosition endPosition options) node)) := by
  unfold Query.matches
  simp only [queryMatches_eq]
  have hfold := foldlM_range_getElem? (fun result mr => Query.matches.body q mr result)
    ((q.query.next_match (configured startPosition endPosition options) node).map
      matchRecord)
    (List.replicate
      (q.query.next_match (configured startPosition endPosition options) node).length
      ⟨0, []⟩)
  simp only [bind, List.length_map] at hfold ⊢
  rw [hfold, matches_fold q _ hpattern hname]

/-- Witness for C7: the query `namedQuery` run on the tree of `a = 1 + 2`. -/
theorem captures_eq_captureStream_witness :
    (∀ r ∈ namedQuery.query.next_capture (configured ⟨0, 0⟩ ⟨0, 0⟩ ⟨0⟩) sampleTree,
      r.1.pattern_index < namedQuery.textPredicates.length) ∧
    (∀ r ∈ namedQuery.query.next_capture (configured ⟨0, 0⟩ ⟨0, 0⟩ ⟨0⟩) sampleTree,
      ∀ c ∈ r.1.captures, c.index < namedQuery.captureNames.length) ∧
    (∀ r ∈ namedQuery.query.next_capture (configured ⟨0, 0⟩ ⟨0, 0⟩ ⟨0⟩) sampleTree,
      passes namedQuery r.1 = true → r.2 < r.1.captures.length) ∧
    (namedQuery.captures sampleTree ⟨0, 0⟩ ⟨0, 0⟩ ⟨0⟩).2 =
      some (captureStream namedQuery
        (namedQuery.query.next_capture (configured ⟨0, 0⟩ ⟨0, 0⟩ ⟨0⟩) sampleTree)) :=
  ⟨by decide, by decide, by decide,
    captures_eq_captureStream namedQuery sampleTree ⟨0, 0⟩ ⟨0, 0⟩ ⟨0⟩
      (by decide) (by decide) (by decide)⟩

/-- C5, at the failing input: for the query of `(identifier) @id`, which has no
text predicate, the engine yields one raw match, and `Query::matches` returns two
entries: a value-initialised match (pattern 0, no captures) left from the
construction `result(rawCount)`, followed by the reified match. -/
theorem matches_plain_two_entries :
    (sampleAddress.next_match (configured ⟨0, 0⟩ ⟨0, 0⟩ ⟨0⟩) sampleTree).length = 1 ∧
    (namedQuery.matches sampleTree ⟨0, 0⟩ ⟨0, 0⟩ ⟨0⟩).2 =
      some [⟨0, []⟩, ⟨0, [⟨"id", sampleIdentifier⟩]⟩] ∧
    (((plainQuery sampleAddress).matches sampleTree ⟨0, 0⟩ ⟨0, 0⟩ ⟨0⟩).2.map
      List.length) = some 2 := by
  refine ⟨rfl, rfl, rfl⟩

/-- C6, at the failing input: the only text predicate of pattern 0 returns `false`
on the one raw match the engine yields, so no reified match passes, and
`Query::matches` still returns one entry, the value-initialised match left from
the construction `result(rawCount)`. -/
theorem matches_rejected_one_entry :
    passes rejectingQuery ⟨0, [⟨sampleIdentifier, 0⟩]⟩ = false ∧
    rejectingQuery.query.next_match (configured ⟨0, 0⟩ ⟨0, 0⟩ ⟨0⟩) sampleTree =
      [⟨0, [⟨sampleIdentifier, 0⟩]⟩] ∧
    (rejectingQuery.matches sampleTree ⟨0, 0⟩ ⟨0, 0⟩ ⟨0⟩).2 = some [⟨0, []⟩] := by
  refine ⟨rfl, rfl, rfl⟩

/-- C8, at the failing input: for the compiled query of `(identifier) @id` the
engine's name of capture id 0 is `id`, and `Language::query` builds the capture-name
list with two entries, the empty string at index 0 and `id` after it; the capture
that `Query::captures` reifies for capture id 0 is named by the empty string.  The
string table of `((identifier) @id (#eq? @id "x"))` gets four entries, two empty
strings before the two literals. -/
theorem query_tables_padded :
    sampleAddress.capture_count = 1 ∧ sampleAddress.capture_name_for_id 0 = "id" ∧
    Language.query.captureNames sampleAddress = ["", "id"] ∧
    ((plainQuery sampleAddress).captures sampleTree ⟨0, 0⟩ ⟨0, 0⟩ ⟨0⟩).2 =
      some [⟨"", sampleIdentifier⟩] ∧
    predicateAddress.string_count = 2 ∧
    Language.query.stringValues predicateAddress = ["", "", "eq?", "x"] := by
  refine ⟨rfl, rfl, by decide, rfl, rfl, by decide⟩

/-! ### Match limit -/

/-- C9: for every call of `Query::matches` and of `Query::captures`, the cursor
that the engine runs with, which is also the query's cursor after the call, has
the match limit `UINT32_MAX` when `options.matchLimit` is 0 and
`options.matchLimit` otherwise, and the raw records of the call are those the
engine yields for that cursor. -/
theorem match_limit_handed_to_engine (q : Query) (node : TSNode)
    (startPosition endPosition : TSPoint) (options : Query.Options) :
    ∃ cursor : TSQueryCursor,
      cursor.match_limit =
        (if options.matchLimit = 0 then UINT32_MAX else options.matchLimit) ∧
      (q.matches node startPosition endPosition options).1.cursor = cursor ∧
      (q.captures node startPosition endPosition options).1.cursor = cursor ∧
      queryMatches q.query q.cursor node startPosition.row startPosition.column
          endPosition.row endPosition.column options.matchLimit =
        (cursor, (q.query.next_match cursor node).length,
          (q.query.next_match cursor node).map matchRecord,
          q.query.did_exceed_match_limit cursor node) ∧
      queryCaptures q.query q.cursor node startPosition.row startPosition.column
          endPosition.row endPosition.column options.matchLimit =
        (cursor, (q.query.next_capture cursor node).length,
          (q.query.next_capture cursor node).map captureRecord,
          q.query.did_exceed_match_limit cursor node) := by
  refine ⟨configured startPosition endPosition options, rfl, ?_, ?_,
    queryMatches_eq _ _ _ _ _ _, queryCaptures_eq _ _ _ _ _ _⟩
  · unfold Query.matches
    simp only [queryMatches_eq]
  · unfold Query.captures
    simp only [queryCaptures_eq]

theorem andThen_returned {α β : Type} (a : α) (f : α → Outcome β) :
    (Outcome.returned a).andThen f = f a := rfl

theorem set_replicate_self {α : Type} (a : α) :
    ∀ (n i : Nat), (List.replicate n a).set i a = List.replicate n a := by
  intro n
  induction n with
  | zero => intro i; rfl
  | succ n ih =>
    intro i
    cases i with
    | zero => rfl
    | succ i => simp [List.replicate_succ, ih]

theorem update_replicate {α : Type} (a : α) (n i : Nat) (h : i < n) :
    Language.query.update (List.replicate n a) i (fun _ => a) =
      .returned (List.replicate n a) := by
  simp [Language.query.update, List.getElem?_replicate, h, set_replicate_self]

theorem length_foldl_push {α : Type} (f : Nat → α) (l : List Nat) :
    ∀ init : List α, (l.foldl (fun v i => v ++ [f i]) init).length =
      init.length + l.length := by
  induction l with
  | nil => intro init; rfl
  | cons x xs ih => intro init; simp [List.foldl_cons, ih]; omega

theorem captureNames_length (address : TSQuery) :
    (Language.query.captureNames address).length = 2 * address.capture_count := by
  simp [Language.query.captureNames, length_foldl_push]
  omega

theorem stringValues_length (address : TSQuery) :
    (Language.query.stringValues address).length = 2 * address.string_count := by
  simp [Language.query.stringValues, length_foldl_push]
  omega

/-- When the step read at index `i` is the separator, every pass of the loop finds
the buffer empty and leaves everything as it is. -/
theorem stepLoop_done (text : TSNode → String) (rm : String → String → Bool)
    (captureNames stringValues : List String) (stepAddress : List TSQueryPredicateStep)
    (i : Nat) (a : Language.query.Artifacts) (step : TSQueryPredicateStep)
    (hread : stepAddress[i]? = some step) (hdone : step.type = .Done) (js : List Nat) :
    Language.query.stepLoop text rm captureNames stringValues stepAddress i js [] a =
      .returned ([], a) := by
  induction js with
  | nil => rfl
  | cons j js ih =>
    simp only [Language.query.stepLoop, Language.query.step, hread, Outcome.ofOption,
      andThen_returned, hdone]
    simpa using ih

/-- When the step read at index `i` is a capture or a string whose value id is
inside the table, every pass of the loop pushes it and no pass interprets the
buffer. -/
theorem stepLoop_push (text : TSNode → String) (rm : String → String → Bool)
    (captureNames stringValues : List String) (stepAddress : List TSQueryPredicateStep)
    (i : Nat) (a : Language.query.Artifacts) (step : TSQueryPredicateStep)
    (hread : stepAddress[i]? = some step) (hnot : step.type ≠ .Done)
    (hcap : step.type = .Capture → step.value_id < captureNames.length)
    (hstr : step.type = .String → step.value_id < stringValues.length) (js : List Nat) :
    ∀ steps : List Step, ∃ steps' : List Step,
      Language.query.stepLoop text rm captureNames stringValues stepAddress i js steps a =
        .returned (steps', a) := by
  induction js with
  | nil => intro steps; exact ⟨steps, rfl⟩
  | cons j js ih =>
    intro steps
    cases htype : step.type with
    | Done => exact absurd htype hnot
    | Capture =>
      have hlt := hcap htype
      obtain ⟨steps', h⟩ := ih (steps ++ [⟨"capture", captureNames[step.value_id], ""⟩])
      refine ⟨steps', ?_⟩
      simp only [Language.query.stepLoop, Language.query.step, hread, Outcome.ofOption,
        andThen_returned, htype, List.getElem?_eq_getElem hlt, if_true]
      exact h
    | String =>
      have hlt := hstr htype
      obtain ⟨steps', h⟩ := ih (steps ++ [⟨"string", "", stringValues[step.value_id]⟩])
      refine ⟨steps', ?_⟩
      simp only [Language.query.stepLoop, Language.query.step, hread, Outcome.ofOption,
        andThen_returned, htype, List.getElem?_eq_getElem hlt]
      simpa using h

/-- With the step read at `stepAddress[i]`, the loop over the steps of a pattern
never interprets an invocation: it returns with the artifacts it started from. -/
theorem stepLoop_artifacts (text : TSNode → String) (rm : String → String → Bool)
    (address : TSQuery) (i : Nat) (a : Language.query.Artifacts)
    (hread : address.predicates_for_pattern i = [] ∨
      ∃ step, (address.predicates_for_pattern i)[i]? = some step ∧
        (step.type = .Capture → step.value_id < address.capture_count) ∧
        (step.type = .String → step.value_id < address.string_count)) :
    ∃ steps' : List Step,
      Language.query.stepLoop text rm (Language.query.captureNames address)
          (Language.query.stringValues address) (address.predicates_for_pattern i) i
          (List.range (address.predicates_for_pattern i).length) [] a =
        .returned (steps', a) := by
  rcases hread with hnil | ⟨step, hstep, hcap, hstr⟩
  · rw [hnil]
    exact ⟨[], rfl⟩
  · by_cases hdone : step.type = .Done
    · exact ⟨[], stepLoop_done text rm _ _ _ i a step hstep hdone _⟩
    · exact stepLoop_push text rm _ _ _ i a step hstep hdone
        (fun h => by rw [captureNames_length]; have := hcap h; omega)
        (fun h => by rw [stringValues_length]; have := hstr h; omega) _ []

theorem patternLoop_init (text : TSNode → String) (rm : String → String → Bool)
    (address : TSQuery)
    (hread : ∀ i, i < address.pattern_count →
      address.predicates_for_pattern i = [] ∨
      ∃ step, (address.predicates_for_pattern i)[i]? = some step ∧
        (step.type = .Capture → step.value_id < address.capture_count) ∧
        (step.type = .String → step.value_id < address.string_count))
    (is : List Nat) (his : ∀ i ∈ is, i < address.pattern_count) :
    Language.query.patternLoop text rm (Language.query.captureNames address)
        (Language.query.stringValues address) address is
        (Language.query.Artifacts.init address.pattern_count) =
      .returned (Language.query.Artifacts.init address.pattern_count) := by
  induction is with
  | nil => rfl
  | cons i is ih =>
    have hi := his i (List.mem_cons_self _ _)
    obtain ⟨steps', hloop⟩ := stepLoop_artifacts text rm address i
      (Language.query.Artifacts.init address.pattern_count) (hread i hi)
    simp only [Language.query.patternLoop, Language.query.Artifacts.init,
      update_replicate _ _ _ hi, andThen_returned]
    simp only [Language.query.Artifacts.init] at hloop
    rw [hloop, andThen_returned]
    exact ih fun x hx => his x (List.mem_cons_of_mem _ hx)

/-- Whatever predicate steps the patterns carry, as long as the reads of the step
loop stay inside the engine's data, `Language::query` interprets no invocation: it
returns the query with the tables as built and every per-pattern list empty. -/
theorem query_interprets_nothing (text : TSNode → String) (rm : String → String → Bool)
    (ts_query_new : String → Except (Nat × TSQueryError) TSQuery) (source : String)
    (address : TSQuery) (hnew : ts_query_new source = .ok address)
    (hread : ∀ i, i < address.pattern_count →
      address.predicates_for_pattern i = [] ∨
      ∃ step, (address.predicates_for_pattern i)[i]? = some step ∧
        (step.type = .Capture → step.value_id < address.capture_count) ∧
        (step.type = .String → step.value_id < address.string_count)) :
    Language.query text rm ts_query_new source = .returned (plainQuery address) := by
  unfold Language.query
  rw [hnew]
  simp only [patternLoop_init text rm address hread _ (fun i hi => List.mem_range.1 hi),
    andThen_returned]
  rfl

/-! ### Query construction: the interpretation of one buffered invocation -/

/-- A buffer whose first step is not a string makes the interpretation throw the
operator-not-literal error. -/
theorem invocation_operator_not_literal (text : TSNode → String)
    (rm : String → String → Bool) (i : Nat) (s0 : Step) (rest : List Step)
    (a : Language.query.Artifacts) (h : s0.type ≠ "string") :
    Language.query.invocation text rm i (s0 :: rest) a =
      .thrown ⟨.runtime_error, "Predicates must begin with a literal value"⟩ := by
  simp [Language.query.invocation, Outcome.ofOption, andThen_returned, h]

/-- A buffer with operator `eq?` and a number of operands other than 2 makes the
interpretation throw the arity error of `eq?`. -/
theorem invocation_eq_arity (text : TSNode → String) (rm : String → String → Bool)
    (i : Nat) (name : String) (operands : List Step) (a : Language.query.Artifacts)
    (h : operands.length ≠ 2) :
    Language.query.invocation text rm i (⟨"string", name, "eq?"⟩ :: operands) a =
      .thrown ⟨.runtime_error, "Wrong number of arguments to `#eq?` predicate"⟩ := by
  simp [Language.query.invocation, Outcome.ofOption, andThen_returned, h]

/-- A buffer `eq?` with two operands, the first not a capture, makes the
interpretation throw the type error of `eq?`. -/
theorem invocation_eq_first_operand (text : TSNode → String)
    (rm : String → String → Bool) (i : Nat) (name : String) (s1 s2 : Step)
    (a : Language.query.Artifacts) (h : s1.type ≠ "capture") :
    Language.query.invocation text rm i [⟨"string", name, "eq?"⟩, s1, s2] a =
      .thrown ⟨.runtime_error, "First argument of `#eq?` predicate must be a capture"⟩ := by
  simp [Language.query.invocation, Outcome.ofOption, andThen_returned, h]

/-- A buffer `match?` with two operands, the first not a capture, makes the
interpretation throw the first type error of `match?`. -/
theorem invocation_match_first_operand (text : TSNode → String)
    (rm : String → String → Bool) (i : Nat) (name : String) (s1 s2 : Step)
    (a : Language.query.Artifacts) (h : s1.type ≠ "capture") :
    Language.query.invocation text rm i [⟨"string", name, "match?"⟩, s1, s2] a =
      .thrown ⟨.runtime_error,
        "First argument of `#match?` predicate must be a capture"⟩ := by
  simp [Language.query.invocation, Outcome.ofOption, andThen_returned, h]

/-- A buffer `match?` with a capture and then a step that is not a string makes the
interpretation throw the second type error of `match?`. -/
theorem invocation_match_second_operand (text : TSNode → String)
    (rm : String → String → Bool) (i : Nat) (name : String) (s1 s2 : Step)
    (a : Language.query.Artifacts) (h1 : s1.type = "capture") (h2 : s2.type ≠ "string") :
    Language.query.invocation text rm i [⟨"string", name, "match?"⟩, s1, s2] a =
      .thrown ⟨.runtime_error,
        "Second argument of `#match?` predicate must be a string"⟩ := by
  simp [Language.query.invocation, Outcome.ofOption, andThen_returned, h1, h2]

/-- A buffer with operator `not-eq?` or `not-match?` is interpreted without any
effect, whatever its operands. -/
theorem invocation_negated (text : TSNode → String) (rm : String → String → Bool)
    (i : Nat) (name : String) (operands : List Step) (a : Language.query.Artifacts) :
    Language.query.invocation text rm i (⟨"string", name, "not-eq?"⟩ :: operands) a =
      .returned a ∧
    Language.query.invocation text rm i (⟨"string", name, "not-match?"⟩ :: operands) a =
      .returned a := by
  constructor <;> simp [Language.query.invocation, Outcome.ofOption, andThen_returned]

/-- A buffer `eq?` with two captures appends one text predicate to the list of the
pattern and changes nothing else. -/
theorem invocation_eq_captures (text : TSNode → String) (rm : String → String → Bool)
    (i : Nat) (name c1 v1 c2 v2 : String) (a : Language.query.Artifacts)
    (fns : List Query.TextPredicate) (hi : a.textPredicates[i]? = some fns) :
    Language.query.invocation text rm i
        [⟨"string", name, "eq?"⟩, ⟨"capture", c1, v1⟩, ⟨"capture", c2, v2⟩] a =
      .returned ⟨a.setProperties, a.assertedProperties, a.refutedProperties, a.predicates,
        a.textPredicates.set i (fns ++ [Language.query.eqCaptures text c1 c2 true])⟩ := by
  simp [Language.query.invocation, Outcome.ofOption, andThen_returned,
    Language.query.update, hi]

/-- A buffer `eq?` with a capture and a string appends one text predicate to the
list of the pattern and changes nothing else. -/
theorem invocation_eq_string (text : TSNode → String) (rm : String → String → Bool)
    (i : Nat) (name c1 v1 n2 v2 : String) (a : Language.query.Artifacts)
    (fns : List Query.TextPredicate) (hi : a.textPredicates[i]? = some fns) :
    Language.query.invocation text rm i
        [⟨"string", name, "eq?"⟩, ⟨"capture", c1, v1⟩, ⟨"string", n2, v2⟩] a =
      .returned ⟨a.setProperties, a.assertedProperties, a.refutedProperties, a.predicates,
        a.textPredicates.set i (fns ++ [Language.query.eqString text c1 v2 true])⟩ := by
  simp [Language.query.invocation, Outcome.ofOption, andThen_returned,
    Language.query.update, hi]

/-- A buffer `match?` with a capture and a string appends one text predicate, the
one that tests the name of the capture, and changes nothing else. -/
theorem invocation_match (text : TSNode → String) (rm : String → String → Bool)
    (i : Nat) (name c1 v1 n2 v2 : String) (a : Language.query.Artifacts)
    (fns : List Query.TextPredicate) (hi : a.textPredicates[i]? = some fns) :
    Language.query.invocation text rm i
        [⟨"string", name, "match?"⟩, ⟨"capture", c1, v1⟩, ⟨"string", n2, v2⟩] a =
      .returned ⟨a.setProperties, a.assertedProperties, a.refutedProperties, a.predicates,
        a.textPredicates.set i (fns ++ [Language.query.matchName rm c1 v2 true])⟩ := by
  simp [Language.query.invocation, Outcome.ofOption, andThen_returned,
    Language.query.update, hi]

/-- A buffer `set!` with a key and a value assigns the value to the key in the
`set` map of the pattern and changes nothing else. -/
theorem invocation_set (text : TSNode → String) (rm : String → String → Bool)
    (i : Nat) (name n1 key n2 value : String) (a : Language.query.Artifacts)
    (properties : Query.Properties) (hi : a.setProperties[i]? = some properties) :
    Language.query.invocation text rm i
        [⟨"string", name, "set!"⟩, ⟨"string", n1, key⟩, ⟨"string", n2, value⟩] a =
      .returned ⟨a.setProperties.set i (properties.assign key value),
        a.assertedProperties, a.refutedProperties, a.predicates, a.textPredicates⟩ ∧
    Language.query.invocation text rm i
        [⟨"string", name, "set!"⟩, ⟨"string", n1, key⟩] a =
      .returned ⟨a.setProperties.set i (properties.assign key ""),
        a.assertedProperties, a.refutedProperties, a.predicates, a.textPredicates⟩ := by
  constructor <;>
    simp [Language.query.invocation, Outcome.ofOption, andThen_returned,
      Language.query.update, Language.query.allStrings, Language.query.propertyValue, hi]

/-- A buffer `is?` with a key and a value assigns the value to the key in the
`asserted` map of the pattern and changes nothing else. -/
theorem invocation_is (text : TSNode → String) (rm : String → String → Bool)
    (i : Nat) (name n1 key n2 value : String) (a : Language.query.Artifacts)
    (properties : Query.Properties) (hi : a.assertedProperties[i]? = some properties) :
    Language.query.invocation text rm i
        [⟨"string", name, "is?"⟩, ⟨"string", n1, key⟩, ⟨"string", n2, value⟩] a =
      .returned ⟨a.setProperties, a.assertedProperties.set i (properties.assign key value),
        a.refutedProperties, a.predicates, a.textPredicates⟩ ∧
    Language.query.invocation text rm i
        [⟨"string", name, "is?"⟩, ⟨"string", n1, key⟩] a =
      .returned ⟨a.setProperties, a.assertedProperties.set i (properties.assign key ""),
        a.refutedProperties, a.predicates, a.textPredicates⟩ := by
  constructor <;>
    simp [Language.query.invocation, Outcome.ofOption, andThen_returned,
      Language.query.update, Language.query.allStrings, Language.query.propertyValue, hi]

/-- A buffer `is-not?` with a key and a value assigns the value to the key in the
`refuted` map of the pattern and changes nothing else. -/
theorem invocation_is_not (text : TSNode → String) (rm : String → String → Bool)
    (i : Nat) (name n1 key n2 value : String) (a : Language.query.Artifacts)
    (properties : Query.Properties) (hi : a.refutedProperties[i]? = some properties) :
    Language.query.invocation text rm i
        [⟨"string", name, "is-not?"⟩, ⟨"string", n1, key⟩, ⟨"string", n2, value⟩] a =
      .returned ⟨a.setProperties, a.assertedProperties,
        a.refutedProperties.set i (properties.assign key value), a.predicates,
        a.textPredicates⟩ ∧
    Language.query.invocation text rm i
        [⟨"string", name, "is-not?"⟩, ⟨"string", n1, key⟩] a =
      .returned ⟨a.setProperties, a.assertedProperties,
        a.refutedProperties.set i (properties.assign key ""), a.predicates,
        a.textPredicates⟩ := by
  constructor <;>
    simp [Language.query.invocation, Outcome.ofOption, andThen_returned,
      Language.query.update, Language.query.allStrings, Language.query.propertyValue, hi]

theorem find_filter_other (key other : String) (hne : other ≠ key)
    (properties : Query.Properties) :
    List.find? (fun entry => entry.1 == other)
        (properties.filter fun entry => entry.1 != key) =
      List.find? (fun entry => entry.1 == other) properties := by
  induction properties with
  | nil => rfl
  | cons e es ih =>
    by_cases hk : e.1 = key
    · have ho : (e.1 == other) = false := by
        rw [beq_eq_false_iff_ne]
        exact fun h => hne (h.symm.trans hk)
      have hf : (e.1 != key) = false := by simp [hk]
      simp only [List.filter_cons, hf, List.find?_cons, ho]
      exact ih
    · have hf : (e.1 != key) = true := by simp [hk]
      simp only [List.filter_cons, hf, if_true, List.find?_cons]
      cases ho : (e.1 == other) with
      | true => rfl
      | false => exact ih

/-- After an assignment the key is found with the assigned value, and every other
key is found as before. -/
theorem find_assign (properties : Query.Properties) (key value : String) :
    (properties.assign key value).find key = some value ∧
    ∀ other : String, other ≠ key →
      (properties.assign key value).find other = properties.find other := by
  constructor
  · simp [Query.Properties.assign, Query.Properties.find]
  · intro other hne
    have hko : (key == other) = false := by
      rw [beq_eq_false_iff_ne]
      exact fun h => hne h.symm
    simp only [Query.Properties.assign, Query.Properties.find, List.find?_cons, hko,
      find_filter_other key other hne]

/-- A buffer whose operator is none of the seven built-in names appends one
descriptor to the list of the pattern: the operator name and, for each operand, the
`name` and the `type` of its step; nothing else changes. -/
theorem invocation_generic (text : TSNode → String) (rm : String → String → Bool)
    (i : Nat) (name op : String) (operands : List Step) (a : Language.query.Artifacts)
    (results : List Query.PredicateResult) (hi : a.predicates[i]? = some results)
    (h1 : op ≠ "eq?") (h2 : op ≠ "not-eq?") (h3 : op ≠ "match?") (h4 : op ≠ "not-match?")
    (h5 : op ≠ "set!") (h6 : op ≠ "is?") (h7 : op ≠ "is-not?") :
    Language.query.invocation text rm i (⟨"string", name, op⟩ :: operands) a =
      .returned ⟨a.setProperties, a.assertedProperties, a.refutedProperties,
        a.predicates.set i (results ++ [⟨op, operands.map fun s => ⟨s.name, s.type⟩⟩]),
        a.textPredicates⟩ := by
  simp [Language.query.invocation, Outcome.ofOption, andThen_returned,
    Language.query.update, hi, h1, h2, h3, h4, h5, h6, h7]

/-! ### The compiled text predicates -/

theorem eqCaptures_nodes (captureName1 captureName2 : String)
    (captures : List Query.Capture) :
    captures.foldl
        (fun (nodes : Option TSNode × Option TSNode) (c : Query.Capture) =>
          (if c.name == captureName1 then some c.node else nodes.1,
            if c.name == captureName2 then some c.node else nodes.2))
        (none, none) =
      ((captures.reverse.find? fun c => c.name == captureName1).map fun c => c.node,
        (captures.reverse.find? fun c => c.name == captureName2).map fun c => c.node) := by
  induction captures using List.reverseRecOn with
  | nil => rfl
  | append_singleton cs c ih =>
    rw [List.foldl_append, ih, List.reverse_append]
    simp only [List.foldl_cons, List.foldl_nil, List.reverse_cons, List.reverse_nil,
      List.nil_append, List.singleton_append, List.find?_cons]
    cases h1 : c.name == captureName1 <;> cases h2 : c.name == captureName2 <;> simp

/-- The predicate built for `eq?` with two captures compares the texts of the last
capture named `captureName1` and the last capture named `captureName2`, and returns
`true` when either name is absent. -/
theorem eqCaptures_spec (text : TSNode → String) (captureName1 captureName2 : String)
    (captures : List Query.Capture) :
    Language.query.eqCaptures text captureName1 captureName2 true captures =
      match captures.reverse.find? fun c => c.name == captureName1,
        captures.reverse.find? fun c => c.name == captureName2 with
      | some c1, some c2 => text c1.node == text c2.node
      | _, _ => true := by
  unfold Language.query.eqCaptures
  simp only [eqCaptures_nodes]
  cases captures.reverse.find? (fun c => c.name == captureName1) <;>
    cases captures.reverse.find? (fun c => c.name == captureName2) <;> simp

/-- The predicate built for `eq?` with a capture and a string compares the text of
the first capture named `captureName` with the string, and returns `true` when the
name is absent. -/
theorem eqString_spec (text : TSNode → String) (captureName stringValue : String)
    (captures : List Query.Capture) :
    Language.query.eqString text captureName stringValue true captures =
      match captures.find? fun c => c.name == captureName with
      | some c => text c.node == stringValue
      | none => true := by
  unfold Language.query.eqString
  cases captures.find? (fun c => c.name == captureName) <;> simp

/-- The predicate built for `match?` returns the result of matching the capture
name itself against the pattern when the name is present, whatever the text of the
captured node, and `true` when the name is absent. -/
theorem matchName_spec (rm : String → String → Bool) (captureName pattern : String)
    (captures : List Query.Capture) :
    Language.query.matchName rm captureName pattern true captures =
      match captures.find? fun c => c.name == captureName with
      | some _ => rm captureName pattern
      | none => true := by
  unfold Language.query.matchName
  cases h : captures.find? (fun c => c.name == captureName) with
  | none => rfl
  | some c =>
    have hname : c.name = captureName := by
      have := List.find?_some h
      simpa using this
    simp [hname]

/-! ### Query construction: rejected pattern sources -/

theorem classAtom_length (cs : List Char) (a : std.regex.ClassAtom) (rest : List Char)
    (h : std.regex.classAtom cs = .ok (a, rest)) : rest.length < cs.length := by
  cases cs with
  | nil => simp [std.regex.classAtom] at h
  | cons c cs =>
    simp only [std.regex.classAtom] at h
    by_cases hc : c = '\\'
    · rw [if_pos hc] at h
      cases cs with
      | nil => simp at h
      | cons e rest1 =>
        simp only at h
        split at h <;>
        · injection h with h
          injection h with _ hr
          subst hr
          simp only [List.length_cons]
          omega
    · rw [if_neg hc] at h
      injection h with h
      injection h with _ hr
      subst hr
      simp

theorem classRanges_defined : ∀ (fuel : Nat) (cs : List Char), cs.length < fuel →
    ∃ r, std.regex.classRanges fuel cs = some r ∧
      ∀ rest, r = .ok rest → rest.length < cs.length := by
  intro fuel
  induction fuel with
  | zero => intro cs h; omega
  | succ f ih =>
    intro cs hlen
    cases cs with
    | nil => exact ⟨_, rfl, fun rest h => by cases h⟩
    | cons c rest =>
      rw [std.regex.classRanges]
      by_cases hc : c = ']'
      · refine ⟨_, if_pos hc, ?_⟩
        intro r h
        injection h with h
        subst h
        simp
      · rw [if_neg hc]
        cases hatom : std.regex.classAtom (c :: rest) with
        | error e => exact ⟨_, rfl, fun rest h => by cases h⟩
        | ok p =>
          obtain ⟨a, rest1⟩ := p
          have h1 := classAtom_length _ _ _ hatom
          have hrec : ∃ r, std.regex.classRanges f rest1 = some r ∧
              ∀ r2, r = .ok r2 → r2.length < (c :: rest).length := by
            obtain ⟨r, hr, hr2⟩ := ih rest1 (by omega)
            exact ⟨r, hr, fun r2 h => by have := hr2 r2 h; omega⟩
          match rest1, h1, hrec with
          | [], _, hrec => exact hrec
          | [_], _, hrec => exact hrec
          | d :: n :: rest2, h1, hrec =>
            simp only
            by_cases hd : d = '-' ∧ n ≠ ']'
            · rw [if_pos hd]
              cases hb : std.regex.classAtom (n :: rest2) with
              | error e => exact ⟨_, rfl, fun rest h => by cases h⟩
              | ok q =>
                obtain ⟨b, rest3⟩ := q
                have h3 := classAtom_length _ _ _ hb
                simp only
                by_cases hrange : std.regex.characterRange a b = true
                · rw [if_pos hrange]
                  simp only [List.length_cons] at h1 h3 hlen
                  obtain ⟨r, hr, hr2⟩ := ih rest3 (by omega)
                  exact ⟨r, hr, fun r2 h => by
                    have := hr2 r2 h
                    simp only [List.length_cons]
                    omega⟩
                · rw [if_neg hrange]
                  exact ⟨_, rfl, fun rest h => by cases h⟩
            · rw [if_neg hd]
              exact hrec

theorem scan_defined : ∀ (fuel depth : Nat) (cs : List Char), cs.length < fuel →
    ∃ r, std.regex.scan fuel depth cs = some r := by
  intro fuel
  induction fuel with
  | zero => intro depth cs h; omega
  | succ f ih =>
    intro depth cs hlen
    cases cs with
    | nil => exact ⟨_, rfl⟩
    | cons c rest =>
      simp only [List.length_cons] at hlen
      simp only [std.regex.scan]
      by_cases h1 : c = '\\'
      · rw [if_pos h1]
        cases rest with
        | nil => exact ⟨_, rfl⟩
        | cons e rest1 =>
          simp only [List.length_cons] at hlen
          exact ih depth rest1 (by omega)
      · rw [if_neg h1]
        by_cases h2 : c = '('
        · rw [if_pos h2]
          exact ih _ rest (by omega)
        · rw [if_neg h2]
          by_cases h3 : c = ')'
          · rw [if_pos h3]
            by_cases h0 : depth = 0
            · rw [if_pos h0]
              exact ⟨_, rfl⟩
            · rw [if_neg h0]
              exact ih _ rest (by omega)
          · rw [if_neg h3]
            by_cases h4 : c = '['
            · rw [if_pos h4]
              have hstrip : (match rest with
                  | [] => []
                  | n :: rest1 => if n = '^' then rest1 else n :: rest1).length ≤
                  rest.length := by
                cases rest with
                | nil => simp
                | cons n rest1 =>
                  simp only
                  split <;> simp
              obtain ⟨r, hr, hr2⟩ := classRanges_defined (rest.length + 1) _
                (Nat.lt_succ_of_le hstrip)
              rw [hr]
              cases r with
              | error e => exact ⟨_, rfl⟩
              | ok rest1 =>
                have := hr2 rest1 rfl
                exact ih depth rest1 (by omega)
            · rw [if_neg h4]
              exact ih _ rest (by omega)

/-- The model of the constructor `std::regex` has fuel for every pattern: its
outcome is the object or the exception. -/
theorem std_regex_defined (pattern : String) :
    (∃ r, std.regex pattern = .returned r) ∨
    ∃ e, std.regex pattern = .thrown ⟨.regex_error, e⟩ := by
  obtain ⟨r, hr⟩ := scan_defined (pattern.data.length + 1) 0 pattern.data (by omega)
  unfold std.regex
  rw [hr]
  cases r with
  | error e => exact Or.inr ⟨_, rfl⟩
  | ok u => exact Or.inl ⟨_, rfl⟩

/-- C20, at the failing input: the pattern of `QUERY_WORD_REGEX` has the class
escape `\w` as the lower end of a range, so the construction of the regex object at
line 13 throws `std::regex_error` with the code `error_range`, while the same
pattern with the dash escaped is accepted.  No word is found for any suffix: for
`(non_existent)` rejected with a node-type error at offset 1, and for
`(function_declaration non_existent:(identifier))` rejected with a field error at
offset 22, `Language::query` ends with that exception, where the specification gives
the messages `Invalid node name 'non_existent'` and
`Invalid field name 'non_existent'`. -/
theorem query_word_regex_rejected (text : TSNode → String)
    (rm : String → String → Bool) :
    Language.QUERY_WORD_REGEX = .thrown ⟨.regex_error, "error_range"⟩ ∧
    std.regex "([\\w\\-.]*)" = .returned ⟨"([\\w\\-.]*)"⟩ ∧
    (∀ suffix : List Char,
      Language.query.word suffix = .thrown ⟨.regex_error, "error_range"⟩) ∧
    Language.query text rm (fun _ => .error (1, .NodeType)) "(non_existent)" =
      .thrown ⟨.regex_error, "error_range"⟩ ∧
    (∀ suffix : String,
      errorMessage .NodeType 1 (firstWord "(non_existent)" 1) suffix =
        "Invalid node name 'non_existent'") ∧
    Language.query text rm (fun _ => .error (22, .Field))
        "(function_declaration non_existent:(identifier))" =
      .thrown ⟨.regex_error, "error_range"⟩ ∧
    (∀ suffix : String,
      errorMessage .Field 22
          (firstWord "(function_declaration non_existent:(identifier))" 22) suffix =
        "Invalid field name 'non_existent'") :=
  ⟨rfl, rfl, fun _ => rfl, rfl, fun _ => rfl, rfl, fun _ => rfl⟩

/-! ### Query construction at sample pattern sources -/

/-- C11, at the failing input: for the pattern
`((identifier) @a (identifier) @b (#eq? @a @b))` the step loop reads step 0 of the
pattern on each of its four passes and never reaches the separator, so
`Language::query` returns the query with no text predicate for pattern 0. -/
theorem query_eq_no_predicate (text : TSNode → String) (rm : String → String → Bool) :
    Language.query text rm (fun _ => .ok eqAddress)
        "((identifier) @a (identifier) @b (#eq? @a @b))" =
      .returned (plainQuery eqAddress) ∧
    (plainQuery eqAddress).textPredicates = [[]] :=
  ⟨rfl, rfl⟩

/-- C12, at the failing input: for the pattern `((identifier) @a (#not-eq? @a "x"))`
`Language::query` returns the query with no text predicate for pattern 0; and the
interpretation of the buffered invocation `not-eq? @a "x"` itself returns the
artifacts unchanged, since its branch only assigns `isPositive`. -/
theorem query_not_eq_no_predicate (text : TSNode → String)
    (rm : String → String → Bool) :
    Language.query text rm (fun _ => .ok notEqAddress)
        "((identifier) @a (#not-eq? @a \"x\"))" =
      .returned (plainQuery notEqAddress) ∧
    (plainQuery notEqAddress).textPredicates = [[]] ∧
    (∀ a : Language.query.Artifacts,
      Language.query.invocation text rm 0
        [⟨"string", "", "not-eq?"⟩, ⟨"capture", "a", ""⟩, ⟨"string", "", "x"⟩] a =
      .returned a) :=
  ⟨rfl, rfl, fun _ => rfl⟩

/-- C13, at the failing input: for the pattern `((identifier) @a (#match? @a "^x"))`
`Language::query` returns the query with no text predicate for pattern 0; and the
predicate that the interpretation of `match? @a "^x"` builds returns, on a match
that captures a node as `a`, the result of matching the name `a` against the
pattern, whatever the text of the node. -/
theorem query_match_no_predicate (text : TSNode → String)
    (rm : String → String → Bool) :
    Language.query text rm (fun _ => .ok matchAddress)
        "((identifier) @a (#match? @a \"^x\"))" =
      .returned (plainQuery matchAddress) ∧
    (plainQuery matchAddress).textPredicates = [[]] ∧
    (∀ node : TSNode,
      Language.query.matchName rm "a" "^x" true [⟨"a", node⟩] = rm "a" "^x") :=
  ⟨rfl, rfl, fun _ => by simp [Language.query.matchName]⟩

/-- C14, at the failing input: for the pattern `((identifier) @abc (#eq?))` of the
test `throws an error on invalid predicates`, `Language::query` returns a query and
throws nothing; the interpretation of the buffered invocation `eq?` alone would
throw the arity error. -/
theorem query_eq_arity_not_thrown (text : TSNode → String)
    (rm : String → String → Bool) :
    Language.query text rm (fun _ => .ok eqNoOperandAddress)
        "((identifier) @abc (#eq?))" =
      .returned (plainQuery eqNoOperandAddress) ∧
    (∀ a : Language.query.Artifacts,
      Language.query.invocation text rm 0 [⟨"string", "", "eq?"⟩] a =
      .thrown ⟨.runtime_error, "Wrong number of arguments to `#eq?` predicate"⟩) :=
  ⟨rfl, fun _ => rfl⟩

/-- C15, at the failing input: for the pattern `((identifier) @a (#eq? "x" @a))`,
whose first operand is a string, `Language::query` returns a query and throws
nothing; the interpretation of the buffered invocation alone would throw the type
error. -/
theorem query_eq_type_not_thrown (text : TSNode → String)
    (rm : String → String → Bool) :
    Language.query text rm (fun _ => .ok eqStringFirstAddress)
        "((identifier) @a (#eq? \"x\" @a))" =
      .returned (plainQuery eqStringFirstAddress) ∧
    (∀ a : Language.query.Artifacts,
      Language.query.invocation text rm 0
        [⟨"string", "", "eq?"⟩, ⟨"string", "", "x"⟩, ⟨"capture", "a", ""⟩] a =
      .thrown ⟨.runtime_error,
        "First argument of `#eq?` predicate must be a capture"⟩) :=
  ⟨rfl, fun _ => rfl⟩

/-- C16, at the failing input: for a pattern whose instruction stream is a capture
step, a string step and the separator, `Language::query` returns a query and throws
nothing; the interpretation of the buffered steps alone would throw the
operator-not-literal error. -/
theorem query_operator_not_thrown (text : TSNode → String)
    (rm : String → String → Bool) :
    Language.query text rm (fun _ => .ok captureFirstAddress) "" =
      .returned (plainQuery captureFirstAddress) ∧
    (∀ a : Language.query.Artifacts,
      Language.query.invocation text rm 0
        [⟨"capture", "a", ""⟩, ⟨"string", "", "x"⟩] a =
      .thrown ⟨.runtime_error, "Predicates must begin with a literal value"⟩) :=
  ⟨rfl, fun _ => rfl⟩

/-- C17, at the failing input: for the pattern `((identifier) @a (#set! "k" "v"))`
`Language::query` returns the query whose `set` map of pattern 0 is empty, so the
key `k` is not found in it. -/
theorem query_set_not_recorded (text : TSNode → String)
    (rm : String → String → Bool) :
    Language.query text rm (fun _ => .ok setAddress)
        "((identifier) @a (#set! \"k\" \"v\"))" =
      .returned (plainQuery setAddress) ∧
    (plainQuery setAddress).setProperties = [[]] ∧
    (plainQuery setAddress).setProperties.map (fun p => p.find "k") = [none] :=
  ⟨rfl, rfl, rfl⟩

/-- C18, at the failing input: for the pattern `((identifier) @a (#foo? @a "b"))`
`Language::query` returns the query with no generic descriptor for pattern 0; and
the descriptor that the interpretation of the buffered invocation `foo? @a "b"`
builds gives the string operand the empty name, not its literal `b`. -/
theorem query_generic_not_recorded (text : TSNode → String)
    (rm : String → String → Bool) :
    Language.query text rm (fun _ => .ok fooAddress)
        "((identifier) @a (#foo? @a \"b\"))" =
      .returned (plainQuery fooAddress) ∧
    (plainQuery fooAddress).predicatesForPattern 0 = [] ∧
    Language.query.invocation text rm 0
        [⟨"string", "", "foo?"⟩, ⟨"capture", "a", ""⟩, ⟨"string", "", "b"⟩]
        (Language.query.Artifacts.init 1) =
      .returned ⟨[[]], [[]], [[]],
        [[⟨"foo?", [⟨"a", "capture"⟩, ⟨"", "string"⟩]⟩]], [[]]⟩ :=
  ⟨rfl, rfl, rfl⟩

/-- C19, at the failing input: for the pattern
`((identifier) @a (#foo? @a) (#bar? @a))`, whose stream is two invocations each
ended by the separator, the six passes of the step loop all read step 0 of the
pattern, and `Language::query` returns the query with no descriptor for pattern 0,
neither that of `foo?` nor that of `bar?`. -/
theorem query_stream_not_consumed (text : TSNode → String)
    (rm : String → String → Bool) :
    Language.query text rm (fun _ => .ok fooBarAddress)
        "((identifier) @a (#foo? @a) (#bar? @a))" =
      .returned (plainQuery fooBarAddress) ∧
    (plainQuery fooBarAddress).predicatesForPattern 0 = [] ∧
    Language.query.stepLoop text rm (Language.query.captureNames fooBarAddress)
        (Language.query.stringValues fooBarAddress)
        (fooBarAddress.predicates_for_pattern 0) 0 (List.range 6) []
        (Language.query.Artifacts.init 1) =
      .returned (List.replicate 6 ⟨"string", "", ""⟩, Language.query.Artifacts.init 1) :=
  ⟨rfl, rfl, rfl⟩

/-! ### Rejected multi-line pattern sources -/

theorem find?_key_of_mem (fields : List (Int × String))
    (hkeys : (fields.map fun field => field.1).Nodup) (field : Int × String)
    (hmem : field ∈ fields) :
    fields.find? (fun f => f.1 == field.1) = some field := by
  induction fields with
  | nil => cases hmem
  | cons x xs ih =>
    simp only [List.map_cons, List.nodup_cons] at hkeys
    rcases List.mem_cons.1 hmem with rfl | hmem
    · simp [List.find?_cons]
    · have hne : ¬ x.1 = field.1 := by
        intro h
        exact hkeys.1 (h ▸ List.mem_map_of_mem (fun f : Int × String => f.1) hmem)
      have hb : (x.1 == field.1) = false := by simpa using hne
      rw [List.find?_cons, hb]
      exact ih hkeys.2 hmem

theorem init_fields_keys (lang : TSLanguage) :
    ((Language.init.fields lang).map fun field => field.1).Nodup ∧
    ∀ field ∈ Language.init.fields lang, 0 ≤ field.1 ∧ field.1 < lang.field_count := by
  constructor
  · have hsub : ((Language.init.fields lang).map fun field => field.1).Sublist
        ((List.range lang.field_count).map fun (i : Nat) => (i : Int)) := by
      unfold Language.init.fields
      generalize List.range lang.field_count = l
      induction l with
      | nil => simp
      | cons i is ih =>
        simp only [List.filterMap_cons, List.map_cons]
        cases lang.field_name_for_id i with
        | none => exact List.Sublist.cons _ ih
        | some n => simpa using ih
    refine List.Nodup.sublist hsub ?_
    have hinj : Function.Injective (fun i : Nat => (i : Int)) :=
      fun a b h => by simpa using h
    exact List.Nodup.map hinj (List.nodup_range lang.field_count)
  · intro field hmem
    simp only [Language.init.fields, List.mem_filterMap, List.mem_range,
      Option.map_eq_some'] at hmem
    obtain ⟨i, hi, n, _, rfl⟩ := hmem
    exact ⟨Int.ofNat_nonneg i, Int.ofNat_lt.2 hi⟩

/-- C22: for the field catalog of a language, in any iteration order of the map:
a name present in the catalog is mapped by `fieldIdForName` to an id of the catalog
that `fieldNameForId` maps back to the name; a name absent from the catalog is
mapped to -1; an id absent from the catalog, in particular -1 and every id from the
field count on, is mapped to the empty string. -/
theorem field_id_name_roundtrip (lang : TSLanguage) (fields : List (Int × String))
    (hperm : fields.Perm (Language.init.fields lang)) (n : String) :
    (n ∈ Language.fields fields →
      (Language.fieldIdForName fields n, n) ∈ fields ∧
      Language.fieldNameForId fields (Language.fieldIdForName fields n) = n) ∧
    (n ∉ Language.fields fields → Language.fieldIdForName fields n = -1) ∧
    (∀ id : Int, id ∉ fields.map (fun field => field.1) →
      Language.fieldNameForId fields id = "") ∧
    Language.fieldNameForId fields (-1) = "" ∧
    (∀ id : Int, (lang.field_count : Int) ≤ id →
      Language.fieldNameForId fields id = "") := by
  have hkeys : (fields.map fun field => field.1).Nodup :=
    ((hperm.map _).nodup_iff).2 (init_fields_keys lang).1
  have hrange : ∀ field ∈ fields, 0 ≤ field.1 ∧ field.1 < lang.field_count :=
    fun field hf => (init_fields_keys lang).2 field (hperm.subset hf)
  have habsent : ∀ id : Int, id ∉ fields.map (fun field => field.1) →
      Language.fieldNameForId fields id = "" := by
    intro id hid
    have hnone : fields.find? (fun field => field.1 == id) = none := by
      rw [List.find?_eq_none]
      intro f hf hb
      exact hid (List.mem_map.2 ⟨f, hf, by simpa using hb⟩)
    simp [Language.fieldNameForId, Language.hasFieldId, hnone]
  refine ⟨?_, ?_, habsent, ?_, ?_⟩
  · intro hn
    obtain ⟨f, hf, hfn⟩ : ∃ f ∈ fields, f.2 = n := by
      simpa [Language.fields] using hn
    cases hfind : fields.find? (fun field => field.2 == n) with
    | none =>
      rw [List.find?_eq_none] at hfind
      exact absurd (by simpa using hfn) (hfind f hf)
    | some g =>
      have hg : g ∈ fields := List.mem_of_find?_eq_some hfind
      have hgn : g.2 = n := by simpa using List.find?_some hfind
      have hid : Language.fieldIdForName fields n = g.1 := by
        simp [Language.fieldIdForName, hfind]
      have hkey := find?_key_of_mem fields hkeys g hg
      rw [hid]
      refine ⟨by rw [← hgn]; exact hg, ?_⟩
      simp [Language.fieldNameForId, Language.hasFieldId, hkey, hgn]
  · intro hn
    have hnone : fields.find? (fun field => field.2 == n) = none := by
      rw [List.find?_eq_none]
      intro f hf hb
      exact hn (List.mem_map.2 ⟨f, hf, by simpa using hb⟩)
    simp [Language.fieldIdForName, hnone]
  · apply habsent
    intro h
    obtain ⟨f, hf, hid⟩ := List.mem_map.1 h
    have := (hrange f hf).1
    omega
  · intro id hid
    apply habsent
    intro h
    obtain ⟨f, hf, hfid⟩ := List.mem_map.1 h
    have := (hrange f hf).2
    omega

/-- Witness for C22: the catalog of `fieldLanguage` in insertion order and the name
`body`. -/
theorem field_id_name_roundtrip_witness :
    (Language.init.fields fieldLanguage).Perm (Language.init.fields fieldLanguage) ∧
    ((("body" ∈ Language.fields (Language.init.fields fieldLanguage) →
      (Language.fieldIdForName (Language.init.fields fieldLanguage) "body", "body") ∈
        Language.init.fields fieldLanguage ∧
      Language.fieldNameForId (Language.init.fields fieldLanguage)
        (Language.fieldIdForName (Language.init.fields fieldLanguage) "body") = "body") ∧
    ("body" ∉ Language.fields (Language.init.fields fieldLanguage) →
      Language.fieldIdForName (Language.init.fields fieldLanguage) "body" = -1) ∧
    (∀ id : Int, id ∉ (Language.init.fields fieldLanguage).map (fun field => field.1) →
      Language.fieldNameForId (Language.init.fields fieldLanguage) id = "") ∧
    Language.fieldNameForId (Language.init.fields fieldLanguage) (-1) = "" ∧
    (∀ id : Int, (fieldLanguage.field_count : Int) ≤ id →
      Language.fieldNameForId (Language.init.fields fieldLanguage) id = ""))) :=
  ⟨List.Perm.refl _,
    field_id_name_roundtrip fieldLanguage (Language.init.fields fieldLanguage)
      (List.Perm.refl _) "body"⟩

/-- C23, at the failing input: `hasFieldName` is the comparison of
`fieldIdForName` with -1, for every catalog and name; in the catalog of
`fieldLanguage` the name `body` has the id 2 and `hasFieldName` returns `false`,
and the name `zzz` has no id and `hasFieldName` returns `true`. -/
theorem hasFieldName_inverted :
    (∀ (fields : List (Int × String)) (n : String),
      Language.hasFieldName fields n = (Language.fieldIdForName fields n == -1)) ∧
    Language.fieldIdForName (Language.init.fields fieldLanguage) "body" = 2 ∧
    Language.hasFieldName (Language.init.fields fieldLanguage) "body" = false ∧
    Language.fieldIdForName (Language.init.fields fieldLanguage) "zzz" = -1 ∧
    Language.hasFieldName (Language.init.fields fieldLanguage) "zzz" = true :=
  ⟨fun _ _ => rfl, by decide, by decide, by decide, by decide⟩

/-- C24, at the failing input: `operator==` returns `true` and `operator!=`
returns `false` for every pair of nodes; for the identifier and the number of
`a = 1 + 2`, two different nodes, `equals` returns `false` and `operator==`
returns `true`. -/
theorem operator_eq_ignores_argument :
    (∀ a b : TSNode, Node.operator_eq a b = true ∧ Node.operator_ne a b = false) ∧
    Node.equals sampleIdentifier sampleNumber = false ∧
    Node.operator_eq sampleIdentifier sampleNumber = true ∧
    Node.operator_ne sampleIdentifier sampleNumber = false :=
  ⟨fun a b => by simp [Node.operator_eq, Node.operator_ne, ts_node_eq],
    by decide, by decide, by decide⟩

theorem indexOf?_lt {α : Type} [BEq α] (l : List α) (a : α) (i : Nat)
    (h : l.indexOf? a = some i) : i < l.length := by
  unfold List.indexOf? at h
  have := List.findIdx?_eq_some_iff_getElem.1 h
  exact this.1

/-- C28, at the failing input: in the catalog of `fieldLanguage` the id of `body`
is 2, and the engine answers `sampleNumber` for field id 2; for every iteration
order of the field map `childForFieldName` does not return that node for `body`,
because the id it looks up is a position in the list of names, below 2; in
insertion order it looks up id 1 and returns the child of the field `name`. -/
theorem childForFieldName_uses_position :
    Language.fieldIdForName (Language.init.fields fieldLanguage) "body" = 2 ∧
    Node.childForFieldId sampleFieldChildren
      (Language.fieldIdForName (Language.init.fields fieldLanguage) "body") =
      some sampleNumber ∧
    Node.childForFieldName (Language.init.fields fieldLanguage) sampleFieldChildren "body" =
      some sampleIdentifier ∧
    Node.childForFieldName (Language.init.fields fieldLanguage) sampleFieldChildren "name" =
      none ∧
    (¬ ∃ fields : List (Int × String),
      fields.Perm (Language.init.fields fieldLanguage) ∧
      Node.childForFieldName fields sampleFieldChildren "body" = some sampleNumber) := by
  refine ⟨by decide, by rfl, by rfl, by rfl, ?_⟩
  rintro ⟨fields, hperm, h⟩
  unfold Node.childForFieldName at h
  simp only at h
  cases hidx : (Language.fields fields).indexOf? "body" with
  | none => rw [hidx] at h; cases h
  | some i =>
    rw [hidx] at h
    have hlt := indexOf?_lt _ _ _ hidx
    have hlen : (Language.fields fields).length = 2 := by
      simp only [Language.fields, List.length_map, hperm.length_eq]
      decide
    have hi : i = 0 ∨ i = 1 := by omega
    rcases hi with rfl | rfl
    · simp [Node.childForFieldId, sampleFieldChildren] at h
    · have hid := congrArg (Option.map TSNode.id) h
      revert hid
      simp [Node.childForFieldId, sampleFieldChildren, sampleIdentifier, sampleNumber,
        TSNode.id]

/-- C29, at the failing input: `descendantForIndex` hands the engine the range from
`startIndex` to the lesser of the two indices, for all arguments; for the
well-formed range from 2 to 5 that is the empty range at 2, while
`namedDescendantForIndex` hands on the range from 2 to 5. -/
theorem descendantForIndex_collapses_range :
    (∀ startIndex endIndex : Int,
      Node.descendantForIndex.range startIndex endIndex =
        (Node.uint32_of_int startIndex, Node.uint32_of_int (min startIndex endIndex))) ∧
    Node.descendantForIndex.range 2 5 = (2, 2) ∧
    Node.namedDescendantForIndex.range 2 5 = (2, 5) := by
  refine ⟨fun s e => ?_, by decide, by decide⟩
  unfold Node.descendantForIndex.range
  by_cases h : e > s
  · have hmin : min s e = s := by omega
    simp [h, hmin]
  · have hmin : min s e = e := by omega
    simp [h, hmin]

/-- C30: for every 32-bit signed `patternIndex` and every query with fewer than
`2^32` per-pattern lists, `Query::predicatesForPattern` reads inside the list and
returns the descriptors stored for that pattern when the index is not negative and
below the number of lists, and returns the empty list otherwise, for every negative
index included. -/
theorem predicatesForPattern_in_range (q : Query) (patternIndex : Int)
    (hlo : -2147483648 ≤ patternIndex) (hhi : patternIndex < 2147483648)
    (hsize : q.predicates.length < 4294967296) :
    (0 ≤ patternIndex ∧ patternIndex < q.predicates.length →
      Query.predicatesForPattern.ofInt q patternIndex =
        some (q.predicatesForPattern patternIndex.toNat) ∧
      q.predicates[patternIndex.toNat]? = some (q.predicatesForPattern patternIndex.toNat)) ∧
    (¬ (0 ≤ patternIndex ∧ patternIndex < q.predicates.length) →
      Query.predicatesForPattern.ofInt q patternIndex = some []) := by
  constructor
  · rintro ⟨h0, h1⟩
    have hconv : size_t_of_int patternIndex = patternIndex.toNat := by
      unfold size_t_of_int
      rw [Int.emod_eq_of_lt h0 (by omega)]
    have hlt : patternIndex.toNat < q.predicates.length := by omega
    simp [Query.predicatesForPattern.ofInt, hconv, hlt, Query.predicatesForPattern,
      List.getElem?_eq_getElem hlt]
  · intro hout
    have hge : size_t_of_int patternIndex ≥ q.predicates.length := by
      unfold size_t_of_int
      by_cases h0 : 0 ≤ patternIndex
      · rw [Int.emod_eq_of_lt h0 (by omega)]
        omega
      · have : patternIndex % 18446744073709551616 = patternIndex + 18446744073709551616 := by
          omega
        rw [this]
        omega
    simp [Query.predicatesForPattern.ofInt, hge]

/-- Witness for C30: the query `namedQuery`, with one per-pattern list, and the
index -1. -/
theorem predicatesForPattern_in_range_witness :
    (-2147483648 : Int) ≤ -1 ∧ (-1 : Int) < 2147483648 ∧
    namedQuery.predicates.length < 4294967296 ∧
    ((0 ≤ (-1 : Int) ∧ (-1 : Int) < namedQuery.predicates.length →
      Query.predicatesForPattern.ofInt namedQuery (-1) =
        some (namedQuery.predicatesForPattern (-1 : Int).toNat) ∧
      namedQuery.predicates[(-1 : Int).toNat]? =
        some (namedQuery.predicatesForPattern (-1 : Int).toNat)) ∧
    (¬ (0 ≤ (-1 : Int) ∧ (-1 : Int) < namedQuery.predicates.length) →
      Query.predicatesForPattern.ofInt namedQuery (-1) = some [])) :=
  ⟨by decide, by decide, by decide,
    predicatesForPattern_in_range namedQuery (-1) (by decide) (by decide) (by decide)⟩

/-! ### Termination of the walk -/

/-- A pass that continues has moved the cursor to the first child (from a node not
yet visited), to the next sibling, or to the parent. -/
theorem body_next_move (symbols : List Nat) (s e : TSPoint) (st st' : WalkState)
    (h : Node.descendantsOfType.body symbols s e st = .next st') :
    (st.already_visited_children = false ∧
      ts_tree_cursor_goto_first_child st.cursor = some st'.cursor ∧
      st'.already_visited_children = false) ∨
    (ts_tree_cursor_goto_next_sibling st.cursor = some st'.cursor ∧
      st'.already_visited_children = false) ∨
    (ts_tree_cursor_goto_parent st.cursor = some st'.cursor ∧
      st'.already_visited_children = true) := by
  obtain ⟨c, flag, result⟩ := st
  unfold Node.descendantsOfType.body at h
  cases flag with
  | true =>
    simp only [Bool.not_true, Bool.false_eq_true, if_false] at h
    cases hs : ts_tree_cursor_goto_next_sibling c with
    | some c' =>
      rw [hs] at h
      simp only [LoopStep.next.injEq] at h
      subst h
      exact Or.inr (Or.inl ⟨rfl, rfl⟩)
    | none =>
      rw [hs] at h
      cases hp : ts_tree_cursor_goto_parent c with
      | none => rw [hp] at h; cases h
      | some c' =>
        rw [hp] at h
        simp only [LoopStep.next.injEq] at h
        subst h
        exact Or.inr (Or.inr ⟨rfl, rfl⟩)
  | false =>
    simp only [Bool.not_false, if_true] at h
    split at h
    · cases hs : ts_tree_cursor_goto_next_sibling c with
      | some c' =>
        rw [hs] at h
        simp only [LoopStep.next.injEq] at h
        subst h
        exact Or.inr (Or.inl ⟨rfl, rfl⟩)
      | none =>
        rw [hs] at h
        cases hp : ts_tree_cursor_goto_parent c with
        | none => rw [hp] at h; cases h
        | some c' =>
          rw [hp] at h
          simp only [LoopStep.next.injEq] at h
          subst h
          exact Or.inr (Or.inr ⟨rfl, rfl⟩)
    · split at h
      · cases h
      · cases hf : ts_tree_cursor_goto_first_child c with
        | some c' =>
          rw [hf] at h
          simp only [LoopStep.next.injEq] at h
          subst h
          exact Or.inl ⟨rfl, rfl, rfl⟩
        | none =>
          rw [hf] at h
          cases hs : ts_tree_cursor_goto_next_sibling c with
          | some c' =>
            rw [hs] at h
            simp only [LoopStep.next.injEq] at h
            subst h
            exact Or.inr (Or.inl ⟨rfl, rfl⟩)
          | none =>
            rw [hs] at h
            cases hp : ts_tree_cursor_goto_parent c with
            | none => rw [hp] at h; cases h
            | some c' =>
              rw [hp] at h
              simp only [LoopStep.next.injEq] at h
              subst h
              exact Or.inr (Or.inr ⟨rfl, rfl⟩)

theorem TSNode.size_children (n : TSNode) : n.size = 1 + TSNode.sizeList n.children := by
  cases n
  simp [TSNode.size, TSNode.children]

theorem first_child_weight (root : TSNode) (c c' : TSTreeCursor)
    (h : ts_tree_cursor_goto_first_child c = some c') :
    walkWeight c' false < walkWeight c false ∧
    (cursorWithin root c.node c.stack → cursorWithin root c'.node c'.stack) := by
  obtain ⟨n, stack⟩ := c
  unfold ts_tree_cursor_goto_first_child at h
  cases hc : n.children with
  | nil => simp [hc] at h
  | cons k ks =>
    simp only [hc, Option.some.injEq] at h
    subst h
    have hn := TSNode.size_children n
    have hk := TSNode.size_pos k
    rw [hc] at hn
    simp only [TSNode.sizeList] at hn
    refine ⟨?_, fun hw => ⟨⟨[], by simp [hc]⟩, hw⟩⟩
    simp only [walkWeight, stackWeight, Bool.false_eq_true, if_false]
    omega

theorem next_sibling_weight (root : TSNode) (c c' : TSTreeCursor) (flag : Bool)
    (h : ts_tree_cursor_goto_next_sibling c = some c') :
    walkWeight c' false < walkWeight c flag ∧
    (cursorWithin root c.node c.stack → cursorWithin root c'.node c'.stack) := by
  obtain ⟨n, stack⟩ := c
  unfold ts_tree_cursor_goto_next_sibling at h
  rcases stack with _ | ⟨⟨p, _ | ⟨x, xs⟩⟩, rest⟩
  · simp at h
  · simp at h
  · simp only [Option.some.injEq] at h
    subst h
    have hx := TSNode.size_pos x
    have hn := TSNode.size_pos n
    constructor
    · cases flag <;>
        simp only [walkWeight, stackWeight, TSNode.sizeList, Bool.false_eq_true, if_false,
          if_true] <;> omega
    · rintro ⟨⟨before, hb⟩, hrest⟩
      exact ⟨⟨before ++ [n], by simp [hb]⟩, hrest⟩

theorem parent_weight (root : TSNode) (c c' : TSTreeCursor) (flag : Bool)
    (h : ts_tree_cursor_goto_parent c = some c') :
    walkWeight c' true < walkWeight c flag ∧
    (cursorWithin root c.node c.stack → cursorWithin root c'.node c'.stack) := by
  obtain ⟨n, stack⟩ := c
  unfold ts_tree_cursor_goto_parent at h
  rcases stack with _ | ⟨⟨p, following⟩, rest⟩
  · simp at h
  · simp only [Option.some.injEq] at h
    subst h
    constructor
    · cases flag <;>
        simp only [walkWeight, stackWeight, Bool.false_eq_true, if_false, if_true] <;> omega
    · rintro ⟨_, hrest⟩
      exact hrest

/-- Every pass that continues lowers the work left and keeps the cursor in the tree
of the root. -/
theorem body_next_weight (symbols : List Nat) (s e : TSPoint) (root : TSNode)
    (st st' : WalkState) (h : Node.descendantsOfType.body symbols s e st = .next st') :
    walkWeight st'.cursor st'.already_visited_children <
      walkWeight st.cursor st.already_visited_children ∧
    (cursorWithin root st.cursor.node st.cursor.stack →
      cursorWithin root st'.cursor.node st'.cursor.stack) := by
  rcases body_next_move symbols s e st st' h with ⟨hf, hm, hf'⟩ | ⟨hm, hf'⟩ | ⟨hm, hf'⟩
  · rw [hf, hf']
    exact first_child_weight root _ _ hm
  · rw [hf']
    exact next_sibling_weight root _ _ _ hm
  · rw [hf']
    exact parent_weight root _ _ _ hm

theorem trace_succ (symbols : List Nat) (s e : TSPoint) (fuel : Nat) (st : WalkState) :
    Node.descendantsOfType.trace symbols s e (fuel + 1) st =
      st :: match Node.descendantsOfType.body symbols s e st with
        | .done _ => []
        | .next st' => Node.descendantsOfType.trace symbols s e fuel st' := rfl

/-- Along the passes the work left never exceeds that of the first state, and the
cursor stays in the tree of the root. -/
theorem trace_bound (symbols : List Nat) (s e : TSPoint) (root : TSNode) (fuel : Nat) :
    ∀ st : WalkState, ∀ x ∈ Node.descendantsOfType.trace symbols s e fuel st,
      walkWeight x.cursor x.already_visited_children ≤
        walkWeight st.cursor st.already_visited_children ∧
      (cursorWithin root st.cursor.node st.cursor.stack →
        cursorWithin root x.cursor.node x.cursor.stack) := by
  induction fuel with
  | zero => intro st x hx; cases hx
  | succ fuel ih =>
    intro st x hx
    rw [trace_succ] at hx
    rcases List.mem_cons.1 hx with rfl | hx
    · exact ⟨Nat.le_refl _, fun h => h⟩
    · cases hb : Node.descendantsOfType.body symbols s e st with
      | done r => rw [hb] at hx; cases hx
      | next st' =>
        rw [hb] at hx
        have hstep := body_next_weight symbols s e root st st' hb
        have hx' := ih st' x hx
        exact ⟨by omega, fun h => hx'.2 (hstep.2 h)⟩

/-- Along the passes the work left falls strictly. -/
theorem trace_pairwise (symbols : List Nat) (s e : TSPoint) (fuel : Nat) :
    ∀ st : WalkState, (Node.descendantsOfType.trace symbols s e fuel st).Pairwise
      fun a b => walkWeight b.cursor b.already_visited_children <
        walkWeight a.cursor a.already_visited_children := by
  induction fuel with
  | zero => intro st; exact List.Pairwise.nil
  | succ fuel ih =>
    intro st
    rw [trace_succ]
    cases hb : Node.descendantsOfType.body symbols s e st with
    | done r => simp
    | next st' =>
      simp only
      refine List.Pairwise.cons ?_ (ih st')
      intro x hx
      have hstep := body_next_weight symbols s e st.cursor.node st st' hb
      have hx' := trace_bound symbols s e st.cursor.node fuel st' x hx
      omega

theorem trace_length (symbols : List Nat) (s e : TSPoint) (fuel : Nat) :
    ∀ st : WalkState, (Node.descendantsOfType.trace symbols s e fuel st).length ≤
      walkWeight st.cursor st.already_visited_children + 1 := by
  induction fuel with
  | zero => intro st; simp [Node.descendantsOfType.trace]
  | succ fuel ih =>
    intro st
    rw [trace_succ]
    cases hb : Node.descendantsOfType.body symbols s e st with
    | done r => simp
    | next st' =>
      have hstep := body_next_weight symbols s e st.cursor.node st st' hb
      have := ih st'
      simp only [List.length_cons]
      omega

theorem mem_preorder_self (n : TSNode) : n ∈ n.preorder := by
  cases n
  simp [TSNode.preorder]

/-- The children of a node of a subtree are nodes of the subtree. -/
theorem mem_preorder_children (r : TSNode) :
    ∀ p ∈ r.preorder, ∀ c ∈ p.children, c ∈ r.preorder := by
  refine (TSNode.induct
    (fun r => ∀ p ∈ r.preorder, ∀ c ∈ p.children, c ∈ r.preorder)
    (fun l => ∀ x ∈ l, ∀ p ∈ x.preorder, ∀ c ∈ p.children, c ∈ x.preorder)
    ?_ ?_ ?_).1 r
  · intro i y a b cs ih p hp c hc
    simp only [TSNode.preorder, List.mem_cons] at hp ⊢
    right
    rcases hp with rfl | hp
    · exact mem_preorderList.2 ⟨c, hc, mem_preorder_self c⟩
    · obtain ⟨x, hx, hpx⟩ := mem_preorderList.1 hp
      exact mem_preorderList.2 ⟨x, hx, ih x hx p hpx c hc⟩
  · intro x hx
    cases hx
  · intro x xs hx ih y hy
    rcases List.mem_cons.1 hy with rfl | hy
    · exact hx
    · exact ih y hy

/-- A cursor position in the tree of the root is at a node of the root's subtree. -/
theorem cursorWithin_mem (root : TSNode) (stack : List CursorEntry) :
    ∀ node : TSNode, cursorWithin root node stack → node ∈ root.preorder := by
  induction stack with
  | nil =>
    intro node h
    simp only [cursorWithin] at h
    rw [h]
    exact mem_preorder_self root
  | cons entry rest ih =>
    intro node h
    obtain ⟨⟨before, hb⟩, hrest⟩ := h
    exact mem_preorder_children root entry.parent (ih entry.parent hrest) node
      (by rw [hb]; simp)

/-- C27: for every tree, every root, every target list and every pair of points
(in any order), the loop of `Node::descendantsOfType` ends within two passes per
node of the root's subtree; the states at the head of its passes never repeat a
pair of cursor position and already-visited-children flag, so each node is entered
at most once with the flag down and at most once with the flag up; and at every
pass the cursor is at a node of the root's subtree, below an ancestor chain that
ends at the root. -/
theorem walk_terminates_without_repeat (root : TSNode) (symbols : List Nat)
    (s e : TSPoint) (fuel : Nat) (hfuel : 2 * root.size ≤ fuel) :
    (∃ r, Node.descendantsOfType.walk fuel symbols s e root = some r) ∧
    (Node.descendantsOfType.trace symbols s e fuel
      ⟨ts_tree_cursor_reset root, false, []⟩).length ≤ 2 * root.size ∧
    ((Node.descendantsOfType.trace symbols s e fuel
      ⟨ts_tree_cursor_reset root, false, []⟩).map
        fun st => (st.cursor, st.already_visited_children)).Nodup ∧
    (∀ st ∈ Node.descendantsOfType.trace symbols s e fuel
        ⟨ts_tree_cursor_reset root, false, []⟩,
      st.cursor.node ∈ root.preorder ∧
      cursorWithin root st.cursor.node st.cursor.stack) := by
  have hpos := TSNode.size_pos root
  refine ⟨⟨_, walk_eq_scan symbols s e root fuel hfuel⟩, ?_, ?_, ?_⟩
  · have h := trace_length symbols s e fuel ⟨ts_tree_cursor_reset root, false, []⟩
    simp only [walkWeight, ts_tree_cursor_reset, stackWeight, Bool.false_eq_true,
      if_false] at h ⊢
    omega
  · rw [List.Nodup, List.pairwise_map]
    refine (trace_pairwise symbols s e fuel _).imp ?_
    intro a b hlt heq
    have h1 : a.cursor = b.cursor := congrArg Prod.fst heq
    have h2 : a.already_visited_children = b.already_visited_children :=
      congrArg Prod.snd heq
    rw [h1, h2] at hlt
    exact Nat.lt_irrefl _ hlt
  · intro st hst
    have h := (trace_bound symbols s e root fuel _ st hst).2 rfl
    exact ⟨cursorWithin_mem root _ _ h, h⟩

/-- Witness for C27: the tree of `a = 1 + 2`, searched for symbol 3 between the
points `(0,9)` and `(0,5)`, the end before the start. -/
theorem walk_terminates_without_repeat_witness :
    2 * sampleTree.size ≤ 14 ∧
    ((∃ r, Node.descendantsOfType.walk 14 [3] ⟨0, 9⟩ ⟨0, 5⟩ sampleTree = some r) ∧
    (Node.descendantsOfType.trace [3] ⟨0, 9⟩ ⟨0, 5⟩ 14
      ⟨ts_tree_cursor_reset sampleTree, false, []⟩).length ≤ 2 * sampleTree.size ∧
    ((Node.descendantsOfType.trace [3] ⟨0, 9⟩ ⟨0, 5⟩ 14
      ⟨ts_tree_cursor_reset sampleTree, false, []⟩).map
        fun st => (st.cursor, st.already_visited_children)).Nodup ∧
    (∀ st ∈ Node.descendantsOfType.trace [3] ⟨0, 9⟩ ⟨0, 5⟩ 14
        ⟨ts_tree_cursor_reset sampleTree, false, []⟩,
      st.cursor.node ∈ sampleTree.preorder ∧
      cursorWithin sampleTree st.cursor.node st.cursor.stack)) :=
  ⟨by decide,
    walk_terminates_without_repeat sampleTree [3] ⟨0, 9⟩ ⟨0, 5⟩ 14 (by decide)⟩

/-! ### Child lists -/

theorem children_step (p x k : TSNode) (ks : List TSNode) (stack : List CursorEntry)
    (acc : List TSNode) (j : Nat) :
    Node.children.step (⟨x, ⟨p, k :: ks⟩ :: stack⟩, acc) j =
      (⟨k, ⟨p, ks⟩ :: stack⟩, acc ++ [k]) := rfl

theorem children_loop (p : TSNode) (stack : List CursorEntry) :
    ∀ (ks : List TSNode) (x : TSNode) (acc : List TSNode) (l : List Nat),
      l.length = ks.length →
      ∃ c : TSTreeCursor,
        l.foldl Node.children.step (⟨x, ⟨p, ks⟩ :: stack⟩, acc) = (c, acc ++ ks) := by
  intro ks
  induction ks with
  | nil =>
    intro x acc l hl
    have : l = [] := List.length_eq_zero.1 hl
    subst this
    exact ⟨⟨x, ⟨p, []⟩ :: stack⟩, by simp⟩
  | cons k ks ih =>
    intro x acc l hl
    cases l with
    | nil => simp at hl
    | cons j js =>
      obtain ⟨c, hc⟩ := ih k (acc ++ [k]) js (by simpa using hl)
      refine ⟨c, ?_⟩
      rw [List.foldl_cons, children_step, hc, List.append_assoc, List.singleton_append]

/-- With a count equal to the number of children and the cache empty or filled,
`Node::children` returns the children of the node and leaves them in the cache. -/
theorem children_eq (ts_node_child_count : TSNode → Nat) (d : Node.Private)
    (hcount : ts_node_child_count d.node = d.node.children.length)
    (hd : d.children = [] ∨ d.children = d.node.children) :
    ∃ c : TSTreeCursor, Node.children ts_node_child_count d =
      (⟨d.node, d.node.children, d.namedChildren, c⟩, d.node.children) := by
  obtain ⟨node, children, namedChildren, cursor⟩ := d
  simp only at hd hcount ⊢
  by_cases hlen : children.length > 0
  · have hc : children = node.children := by
      rcases hd with h | h
      · rw [h] at hlen; simp at hlen
      · exact h
    subst hc
    refine ⟨cursor, ?_⟩
    simp only [Node.children, hlen, if_true]
  · have hnil : children = [] := by
      cases children with
      | nil => rfl
      | cons x xs => simp at hlen
    subst hnil
    cases hk : node.children with
    | nil =>
      refine ⟨cursor, ?_⟩
      simp [Node.children, hcount, hk]
    | cons k ks =>
      have hfirst : cursorMove ts_tree_cursor_goto_first_child (ts_tree_cursor_reset node) =
          ⟨k, ⟨node, ks⟩ :: []⟩ := by
        simp [cursorMove, ts_tree_cursor_goto_first_child, ts_tree_cursor_reset, hk]
      obtain ⟨c, hloop⟩ := children_loop node [] ks k [k] (List.range' 1 ks.length)
        (by simp)
      refine ⟨c, ?_⟩
      simp only [Node.children, List.length_nil, Nat.lt_irrefl, if_false, hcount, hk,
        List.length_cons, Nat.zero_lt_succ, if_true, hfirst, ts_tree_cursor_current_node,
        Nat.add_sub_cancel, List.nil_append, hloop, List.singleton_append]

theorem namedChildren_loop (is_named : TSNode → Bool) (count : Nat) (p : TSNode)
    (stack : List CursorEntry) :
    ∀ (rest : List TSNode) (x : TSNode) (acc : List TSNode) (fuel : Nat),
      rest.length < fuel → acc.length < count →
      acc.length + ((x :: rest).filter is_named).length = count →
      ∃ c : TSTreeCursor,
        Node.namedChildren.loop is_named count fuel ⟨x, ⟨p, rest⟩ :: stack⟩ acc.length acc =
          some (c, acc ++ (x :: rest).filter is_named) := by
  intro rest
  induction rest with
  | nil =>
    intro x acc fuel hfuel hlt hsum
    obtain ⟨f, rfl⟩ : ∃ f, fuel = f + 1 := ⟨fuel - 1, by omega⟩
    cases hx : is_named x with
    | true =>
      refine ⟨⟨x, ⟨p, []⟩ :: stack⟩, ?_⟩
      simp only [Node.namedChildren.loop, ts_tree_cursor_current_node, hx, if_true,
        ts_tree_cursor_goto_next_sibling, List.filter_cons, List.filter_nil]
      split <;> rfl
    | false =>
      simp [List.filter_cons, hx] at hsum
      omega
  | cons s ss ih =>
    intro x acc fuel hfuel hlt hsum
    obtain ⟨f, rfl⟩ : ∃ f, fuel = f + 1 := ⟨fuel - 1, by omega⟩
    have hf : ss.length < f := by simp at hfuel; omega
    cases hx : is_named x with
    | true =>
      have hfx : (x :: s :: ss).filter is_named = x :: (s :: ss).filter is_named :=
        List.filter_cons_of_pos hx
      have hsum' : (acc ++ [x]).length + ((s :: ss).filter is_named).length = count := by
        rw [hfx, List.length_cons] at hsum
        simp only [List.length_append, List.length_singleton]
        omega
      by_cases hi : acc.length + 1 = count
      · have hnil : (s :: ss).filter is_named = [] := by
          apply List.eq_nil_of_length_eq_zero
          simp only [List.length_append, List.length_singleton] at hsum'
          omega
        refine ⟨⟨x, ⟨p, s :: ss⟩ :: stack⟩, ?_⟩
        simp only [Node.namedChildren.loop, ts_tree_cursor_current_node, hx, if_true, hi,
          beq_self_eq_true, hfx, hnil]
      · have hlt' : (acc ++ [x]).length < count := by
          simp only [List.length_append, List.length_singleton]
          omega
        obtain ⟨c, hc⟩ := ih s (acc ++ [x]) f hf hlt' hsum'
        refine ⟨c, ?_⟩
        have hb : (acc.length + 1 == count) = false := by simpa using hi
        simp only [List.length_append, List.length_singleton] at hc
        simp only [Node.namedChildren.loop, ts_tree_cursor_current_node, hx, if_true, hb,
          Bool.false_eq_true, if_false, ts_tree_cursor_goto_next_sibling, hc,
          hfx, List.append_assoc, List.singleton_append]
    | false =>
      have hfx : (x :: s :: ss).filter is_named = (s :: ss).filter is_named :=
        List.filter_cons_of_neg (by simp [hx])
      have hsum' : acc.length + ((s :: ss).filter is_named).length = count := by
        rw [hfx] at hsum
        exact hsum
      obtain ⟨c, hc⟩ := ih s acc f hf hlt hsum'
      refine ⟨c, ?_⟩
      simp only [Node.namedChildren.loop, ts_tree_cursor_current_node, hx,
        Bool.false_eq_true, if_false, ts_tree_cursor_goto_next_sibling, hc, hfx]

/-- With a count equal to the number of named children, the cache empty or filled,
and fuel for one pass per child, `Node::namedChildren` returns the named children
of the node, in the order of the children, and leaves them in the cache. -/
theorem namedChildren_eq (ts_node_named_child_count : TSNode → Nat)
    (is_named : TSNode → Bool) (fuel : Nat) (d : Node.Private)
    (hcount : ts_node_named_child_count d.node = (d.node.children.filter is_named).length)
    (hd : d.namedChildren = [] ∨ d.namedChildren = d.node.children.filter is_named)
    (hfuel : d.node.children.length ≤ fuel) :
    ∃ c : TSTreeCursor, Node.namedChildren ts_node_named_child_count is_named fuel d =
      some (⟨d.node, d.children, d.node.children.filter is_named, c⟩,
        d.node.children.filter is_named) := by
  obtain ⟨node, children, namedChildren, cursor⟩ := d
  simp only at hd hcount hfuel ⊢
  by_cases hlen : namedChildren.length > 0
  · have hc : namedChildren = node.children.filter is_named := by
      rcases hd with h | h
      · rw [h] at hlen; simp at hlen
      · exact h
    subst hc
    refine ⟨cursor, ?_⟩
    simp only [Node.namedChildren, hlen, if_true]
  · have hnil : namedChildren = [] := by
      cases namedChildren with
      | nil => rfl
      | cons x xs => simp at hlen
    subst hnil
    by_cases hzero : (node.children.filter is_named).length = 0
    · have hf : node.children.filter is_named = [] := List.eq_nil_of_length_eq_zero hzero
      refine ⟨cursor, ?_⟩
      simp [Node.namedChildren, hcount, hf]
    · cases hk : node.children with
      | nil => simp [hk] at hzero
      | cons k ks =>
        have hfirst : cursorMove ts_tree_cursor_goto_first_child
            (ts_tree_cursor_reset node) = ⟨k, ⟨node, ks⟩ :: []⟩ := by
          simp [cursorMove, ts_tree_cursor_goto_first_child, ts_tree_cursor_reset, hk]
        rw [hk] at hzero hfuel
        obtain ⟨c, hloop⟩ := namedChildren_loop is_named
          ((k :: ks).filter is_named).length node [] ks k [] fuel
          (by simp at hfuel; omega) (by simp; omega) (by simp)
        refine ⟨c, ?_⟩
        have hpos : ((k :: ks).filter is_named).length > 0 := by omega
        simp only [List.length_nil, List.nil_append] at hloop
        simp only [Node.namedChildren, List.length_nil, Nat.lt_irrefl, if_false, hcount, hk,
          hpos, if_true, hfirst, hloop, Option.map_some']

/-- C25: for a node whose engine-reported counts agree with its child list, and whose
caches are empty (as in a new `Node`) or already filled by these functions,
`Node::children` returns the node's children in order with `childCount()` entries
and `Node::namedChildren` returns the named ones among them, in the same order, with
`namedChildCount()` entries; both leave the caches empty or filled, and calling
either again on the state they leave returns the same list. -/
theorem children_namedChildren_lists (ts_node_child_count ts_node_named_child_count : TSNode → Nat)
    (ts_node_is_named : TSNode → Bool) (fuel : Nat) (d : Node.Private)
    (hcount : ts_node_child_count d.node = d.node.children.length)
    (hnamed : ts_node_named_child_count d.node =
      (d.node.children.filter ts_node_is_named).length)
    (hfuel : d.node.children.length ≤ fuel)
    (hd : Node.Private.cached ts_node_is_named d) :
    Node.Private.cached ts_node_is_named (Node.new d.node) ∧
    (Node.children ts_node_child_count d).2 = d.node.children ∧
    (Node.children ts_node_child_count d).2.length = ts_node_child_count d.node ∧
    (Node.children ts_node_child_count d).1.node = d.node ∧
    Node.Private.cached ts_node_is_named (Node.children ts_node_child_count d).1 ∧
    (Node.children ts_node_child_count (Node.children ts_node_child_count d).1).2 =
      (Node.children ts_node_child_count d).2 ∧
    ∃ d2 : Node.Private,
      Node.namedChildren ts_node_named_child_count ts_node_is_named fuel d =
        some (d2, (Node.children ts_node_child_count d).2.filter ts_node_is_named) ∧
      ((Node.children ts_node_child_count d).2.filter ts_node_is_named).length =
        ts_node_named_child_count d.node ∧
      d2.node = d.node ∧
      Node.Private.cached ts_node_is_named d2 ∧
      ∃ d3 : Node.Private,
        Node.namedChildren ts_node_named_child_count ts_node_is_named fuel d2 =
          some (d3, (Node.children ts_node_child_count d).2.filter ts_node_is_named) := by
  obtain ⟨c1, h1⟩ := children_eq ts_node_child_count d hcount hd.1
  obtain ⟨c2, h2⟩ := children_eq ts_node_child_count
    ⟨d.node, d.node.children, d.namedChildren, c1⟩ hcount (Or.inr rfl)
  obtain ⟨c3, h3⟩ := namedChildren_eq ts_node_named_child_count ts_node_is_named fuel d
    hnamed hd.2 hfuel
  obtain ⟨c4, h4⟩ := namedChildren_eq ts_node_named_child_count ts_node_is_named fuel
    ⟨d.node, d.children, d.node.children.filter ts_node_is_named, c3⟩ hnamed (Or.inr rfl) hfuel
  rw [h1]
  refine ⟨⟨Or.inl rfl, Or.inl rfl⟩, rfl, hcount.symm, rfl, ⟨Or.inr rfl, hd.2⟩, ?_, ?_⟩
  · rw [h2]
  · exact ⟨_, h3, hnamed.symm, rfl, ⟨hd.1, Or.inr rfl⟩, _, h4⟩

/-- The lists of C25 on a new `Node` over the sample tree: three children, of which
the second (symbol 2) is anonymous, with the counts the engine would report. -/
theorem children_namedChildren_lists_witness :
    (Node.children (fun n => n.children.length) (Node.new sampleTree)).2 =
      sampleTree.children ∧
    (Node.children (fun n => n.children.length) (Node.new sampleTree)).2.length = 3 ∧
    ∃ d2 : Node.Private,
      Node.namedChildren (fun n => (n.children.filter sampleIsNamed).length) sampleIsNamed 3
          (Node.new sampleTree) =
        some (d2, [.mk 1 1 ⟨0, 0⟩ ⟨0, 1⟩ [],
          .mk 3 4 ⟨0, 4⟩ ⟨0, 9⟩
            [.mk 4 3 ⟨0, 4⟩ ⟨0, 5⟩ [], .mk 5 6 ⟨0, 6⟩ ⟨0, 7⟩ [], .mk 6 3 ⟨0, 8⟩ ⟨0, 9⟩ []]]) := by
  have h := children_namedChildren_lists (fun n => n.children.length)
    (fun n => (n.children.filter sampleIsNamed).length) sampleIsNamed 3 (Node.new sampleTree)
    rfl rfl (by decide) ⟨Or.inl rfl, Or.inl rfl⟩
  obtain ⟨_, h2, h3, _, _, _, d2, h7, _⟩ := h
  exact ⟨h2, h3, d2, h7⟩

/-! ### The logger callback -/

theorem size_t_add_eq (a b : Nat) (h : a + b < 18446744073709551616) :
    size_t_add a b = a + b := by
  unfold size_t_add
  exact Nat.mod_eq_of_lt h

theorem size_t_sub_eq (a b : Nat) (hb : b ≤ a) (ha : a < 18446744073709551616) :
    size_t_sub a b = a - b := by
  unfold size_t_sub
  omega

theorem find_go_bounds (str : List Char) : ∀ (s : List Char) (i : Nat),
    std.string.find.go str s i = std.string.npos ∨
    (i ≤ std.string.find.go str s i ∧
      std.string.find.go str s i + str.length ≤ i + s.length) := by
  intro s
  induction s with
  | nil =>
    intro i
    by_cases h : str.isPrefixOf [] = true
    · right
      have hp : str <+: [] := List.isPrefixOf_iff_prefix.1 h
      have hl := hp.length_le
      rw [std.string.find.go, if_pos h]
      simp only [List.length_nil] at hl ⊢
      omega
    · left
      rw [std.string.find.go, if_neg h]
  | cons c s ih =>
    intro i
    by_cases h : str.isPrefixOf (c :: s) = true
    · right
      have hp : str <+: c :: s := List.isPrefixOf_iff_prefix.1 h
      have hl := hp.length_le
      rw [std.string.find.go, if_pos h]
      omega
    · rw [std.string.find.go, if_neg h]
      rcases ih (i + 1) with h1 | h1
      · exact Or.inl h1
      · right
        simp only [List.length_cons]
        omega

theorem find_bounds (s str : List Char) (pos : Nat) :
    std.string.find s str pos = std.string.npos ∨
    (pos ≤ std.string.find s str pos ∧
      std.string.find s str pos + str.length ≤ s.length) := by
  unfold std.string.find
  by_cases h : pos > s.length
  · simp only [h, if_true, true_or]
  · simp only [h, if_false]
    rcases find_go_bounds str (s.drop pos) pos with h1 | h1
    · exact Or.inl h1
    · right
      simp only [List.length_drop] at h1
      omega

theorem find_append (a b str : List Char) :
    std.string.find (a ++ b) str a.length = std.string.find.go str b a.length := by
  unfold std.string.find
  have h : ¬ a.length > (a ++ b).length := by simp
  simp only [h, if_false, List.drop_left]

theorem substr_mid (a b c : List Char) :
    std.string.substr (a ++ b ++ c) a.length b.length = some b := by
  rw [List.append_assoc]
  unfold std.string.substr
  have h : ¬ a.length > (a ++ (b ++ c)).length := by simp
  have hmin : min b.length ((a ++ (b ++ c)).length - a.length) = b.length := by
    simp only [List.length_append]
    omega
  simp only [h, if_false, hmin, List.drop_left, List.take_left]

theorem substr_rest (a b : List Char) (n : Nat) (hn : b.length ≤ n) :
    std.string.substr (a ++ b) a.length n = some b := by
  unfold std.string.substr
  have h : ¬ a.length > (a ++ b).length := by simp
  have hmin : min n ((a ++ b).length - a.length) = b.length := by
    simp only [List.length_append]
    omega
  simp only [h, if_false, hmin, List.drop_left, List.take_length]

theorem find_go_char (c : Char) : ∀ (s : List Char) (i : Nat),
    std.string.find.go [c] s i =
      if c ∈ s then i + (s.takeWhile fun x => x != c).length else std.string.npos := by
  intro s
  induction s with
  | nil =>
    intro i
    simp [std.string.find.go, List.isPrefixOf]
  | cons d s ih =>
    intro i
    by_cases hd : c = d
    · subst hd
      simp [std.string.find.go, List.isPrefixOf]
    · have hd2 : ¬ d = c := fun h => hd h.symm
      simp [std.string.find.go, List.isPrefixOf, hd, hd2, ih, List.takeWhile_cons]
      split <;> omega

theorem take_takeWhile_length (p : Char → Bool) : ∀ s : List Char,
    s.take (s.takeWhile p).length = s.takeWhile p := by
  intro s
  induction s with
  | nil => rfl
  | cons d s ih =>
    by_cases hd : p d = true
    · simp [List.takeWhile_cons, hd, ih]
    · simp [List.takeWhile_cons, hd]

theorem takeWhile_of_not_mem (c : Char) : ∀ s : List Char, c ∉ s →
    s.takeWhile (fun x => x != c) = s := by
  intro s
  induction s with
  | nil => intro _; rfl
  | cons d s ih =>
    intro h
    simp only [List.mem_cons, not_or] at h
    have hd : (d != c) = true := by simpa using fun e => h.1 e.symm
    simp [List.takeWhile_cons, hd, ih h.2]

theorem find_go_char_append (c : Char) : ∀ (k rest : List Char) (i : Nat), c ∉ k →
    std.string.find.go [c] (k ++ c :: rest) i = i + k.length := by
  intro k
  induction k with
  | nil =>
    intro rest i _
    simp [std.string.find.go, List.isPrefixOf]
  | cons d k ih =>
    intro rest i h
    simp only [List.mem_cons, not_or] at h
    have := ih rest (i + 1) h.2
    simp [std.string.find.go, List.isPrefixOf, h.1, this]
    omega

theorem find_go_char_none (c : Char) (s : List Char) (i : Nat) (h : c ∉ s) :
    std.string.find.go [c] s i = std.string.npos := by
  rw [find_go_char, if_neg h]

theorem find_go_sep_none : ∀ (v : List Char) (i : Nat), ¬ [',', ' '] <:+: v →
    std.string.find.go [',', ' '] v i = std.string.npos := by
  intro v
  induction v with
  | nil =>
    intro i _
    simp [std.string.find.go, List.isPrefixOf]
  | cons x v ih =>
    intro i h
    rw [List.infix_cons_iff, not_or] at h
    have hp : ¬ ([',', ' '] : List Char).isPrefixOf (x :: v) = true :=
      fun e => h.1 (List.isPrefixOf_iff_prefix.1 e)
    rw [std.string.find.go, if_neg hp]
    exact ih (i + 1) h.2

theorem find_go_sep_append : ∀ (v rest : List Char) (i : Nat), ¬ [',', ' '] <:+: v →
    std.string.find.go [',', ' '] (v ++ ',' :: ' ' :: rest) i = i + v.length := by
  intro v
  induction v with
  | nil =>
    intro rest i _
    simp [std.string.find.go, List.isPrefixOf]
  | cons x v ih =>
    intro rest i h
    rw [List.infix_cons_iff, not_or] at h
    have hp : ¬ ([',', ' '] : List Char).isPrefixOf (x :: v ++ ',' :: ' ' :: rest) = true := by
      intro e
      cases v with
      | nil => simp [List.isPrefixOf] at e
      | cons y w =>
        apply h.1
        simp [List.isPrefixOf] at e
        rw [← e.1, ← e.2]
        exact ⟨w, rfl⟩
    have := ih rest (i + 1) h.2
    rw [List.cons_append] at hp ⊢
    rw [std.string.find.go, if_neg hp, this, List.length_cons]
    omega

theorem substr_some (s : List Char) (pos count : Nat) (h : pos ≤ s.length) :
    ∃ x, std.string.substr s pos count = some x := by
  unfold std.string.substr
  have h2 : ¬ pos > s.length := by omega
  exact ⟨_, if_neg h2⟩

theorem cb_loop_total (message : List Char) (hlen : message.length < std.string.npos) :
    ∀ (fuel : Nat) (sep : List Char) (pos : Nat) (acc : LoggerParams),
      1 ≤ sep.length → 1 ≤ fuel →
      (pos ≠ std.string.npos →
        pos + sep.length ≤ message.length ∧ message.length + 1 ≤ fuel + pos) →
      ∃ params, Parser.setLogger.cb.loop message fuel sep pos acc = some params := by
  have hnpos : std.string.npos = 18446744073709551615 := rfl
  intro fuel
  induction fuel with
  | zero => intro sep pos acc _ h; omega
  | succ f ih =>
    intro sep pos acc hsep _ hpos
    rw [Parser.setLogger.cb.loop]
    by_cases hp : pos = std.string.npos
    · refine ⟨acc, ?_⟩
      simp [hp]
    · obtain ⟨hb1, hb2⟩ := hpos hp
      have hne : (pos != std.string.npos) = true := by simpa using hp
      have hkey : size_t_add pos sep.length = pos + sep.length :=
        size_t_add_eq _ _ (by omega)
      simp only [hne, if_true, hkey]
      rcases find_bounds message [':'] (pos + sep.length) with hv | hv
      · refine ⟨acc, ?_⟩
        simp [hv]
      · generalize std.string.find message [':'] (pos + sep.length) = vsp at hv
        simp only [List.length_singleton] at hv
        have hvne : (vsp == std.string.npos) = false := by
          rw [beq_eq_false_iff_ne]
          omega
        have hval : size_t_add vsp 1 = vsp + 1 := size_t_add_eq _ _ (by omega)
        obtain ⟨key, hk⟩ := substr_some message (pos + sep.length)
          (size_t_sub vsp (pos + sep.length)) hb1
        obtain ⟨value, hvl⟩ := substr_some message (vsp + 1)
          (size_t_sub (std.string.find message [',', ' '] vsp) (vsp + 1)) (by omega)
        simp only [hvne, Bool.false_eq_true, if_false, hval, hk, hvl, Option.bind_some,
          Option.some_bind]
        apply ih
        · simp
        · omega
        · intro hq
          rcases find_bounds message [',', ' '] vsp with hs | hs
          · exact absurd hs hq
          · simp only [List.length_cons, List.length_nil] at hs ⊢
            omega

theorem cb_loop_step (pre sep kd vd T : List Char) (acc : LoggerParams) (f psp : Nat)
    (hk : ':' ∉ kd)
    (hlen : (pre ++ (sep ++ (kd ++ ':' :: (vd ++ T)))).length < std.string.npos)
    (hpsp : std.string.find.go [',', ' '] (vd ++ T)
      (pre.length + sep.length + kd.length + 1) = psp)
    (hcount : psp = std.string.npos ∧ T = [] ∨
      psp = pre.length + sep.length + kd.length + 1 + vd.length) :
    Parser.setLogger.cb.loop (pre ++ (sep ++ (kd ++ ':' :: (vd ++ T)))) (f + 1) sep
        pre.length acc =
      Parser.setLogger.cb.loop (pre ++ (sep ++ (kd ++ ':' :: (vd ++ T)))) f [',', ' '] psp
        (acc.assign (String.mk kd) (String.mk vd)) := by
  have hnpos : std.string.npos = 18446744073709551615 := rfl
  generalize hm : pre ++ (sep ++ (kd ++ ':' :: (vd ++ T))) = msg at hlen ⊢
  have hmlen : msg.length = pre.length + sep.length + kd.length + 1 + vd.length + T.length := by
    rw [← hm]
    simp only [List.length_append, List.length_cons]
    omega
  have h1 : msg = (pre ++ sep) ++ (kd ++ ':' :: (vd ++ T)) := by
    rw [← hm]; simp only [List.append_assoc]
  have h2 : msg = (pre ++ sep ++ kd) ++ (':' :: (vd ++ T)) := by
    rw [← hm]; simp only [List.append_assoc]
  have h3 : msg = (pre ++ sep) ++ kd ++ (':' :: (vd ++ T)) := by
    rw [← hm]; simp only [List.append_assoc]
  have h4 : msg = (pre ++ sep ++ kd ++ [':']) ++ vd ++ T := by
    rw [← hm]; simp
  have hl1 : (pre ++ sep).length = pre.length + sep.length := by simp
  have hl2 : (pre ++ sep ++ kd).length = pre.length + sep.length + kd.length := by
    simp only [List.length_append]
  have hl4 : (pre ++ sep ++ kd ++ [':']).length = pre.length + sep.length + kd.length + 1 := by
    simp only [List.length_append, List.length_cons, List.length_nil]
  have hne : (pre.length != std.string.npos) = true := by
    rw [bne_iff_ne]
    omega
  have hkey : size_t_add pre.length sep.length = pre.length + sep.length :=
    size_t_add_eq _ _ (by omega)
  have hvsp : std.string.find msg [':'] (pre.length + sep.length) =
      pre.length + sep.length + kd.length := by
    rw [h1, ← hl1, find_append, find_go_char_append _ _ _ _ hk]
  have hvne : (pre.length + sep.length + kd.length == std.string.npos) = false := by
    rw [beq_eq_false_iff_ne]
    omega
  have hval : size_t_add (pre.length + sep.length + kd.length) 1 =
      pre.length + sep.length + kd.length + 1 := size_t_add_eq _ _ (by omega)
  have hfind : std.string.find msg [',', ' '] (pre.length + sep.length + kd.length) = psp := by
    have hnp : ¬ ([',', ' '] : List Char).isPrefixOf (':' :: (vd ++ T)) = true := by
      simp [List.isPrefixOf]
    rw [h2, ← hl2, find_append, std.string.find.go, if_neg hnp, hl2, hpsp]
  have hksub : size_t_sub (pre.length + sep.length + kd.length) (pre.length + sep.length) =
      kd.length := by
    rw [size_t_sub_eq _ _ (by omega) (by omega)]
    omega
  have hkeystr : std.string.substr msg (pre.length + sep.length) kd.length = some kd := by
    rw [h3, ← hl1, substr_mid]
  have hvalstr : std.string.substr msg (pre.length + sep.length + kd.length + 1)
      (size_t_sub psp (pre.length + sep.length + kd.length + 1)) = some vd := by
    rcases hcount with ⟨hp, hT⟩ | hp
    · subst hT
      rw [hp, size_t_sub_eq _ _ (by omega) (by omega), h4, List.append_nil, ← hl4]
      apply substr_rest
      rw [hl4]
      simp only [List.length_nil] at hmlen
      omega
    · rw [hp, size_t_sub_eq _ _ (by omega) (by omega), h4, ← hl4]
      have : (pre ++ sep ++ kd ++ [':']).length + vd.length -
          (pre ++ sep ++ kd ++ [':']).length = vd.length := by omega
      rw [this, substr_mid]
  rw [Parser.setLogger.cb.loop]
  simp only [hne, if_true, hkey, hvsp, hvne, Bool.false_eq_true, if_false, hval, hfind, hksub,
    hkeystr, hvalstr, Option.some_bind, Option.bind_some]

theorem more_data (q : String × String) (qs : List (String × String)) :
    (logMessage.more (q :: qs)).data =
      ',' :: ' ' :: (q.1.data ++ ':' :: (q.2.data ++ (logMessage.more qs).data)) := by
  have h1 : (", " : String).data = [',', ' '] := rfl
  have h2 : (":" : String).data = [':'] := rfl
  simp only [logMessage.more, String.data_append, h1, h2, List.append_assoc, List.cons_append,
    List.nil_append]

theorem cb_loop_params : ∀ (ps : List (String × String)) (k v : String)
    (pre sep : List Char) (acc : LoggerParams) (fuel : Nat),
    ':' ∉ k.data → ¬ [',', ' '] <:+: v.data →
    (∀ p ∈ ps, ':' ∉ p.1.data ∧ ¬ [',', ' '] <:+: p.2.data) →
    (pre ++ (sep ++ (k.data ++ ':' :: (v.data ++ (logMessage.more ps).data)))).length <
      std.string.npos →
    (pre ++ (sep ++ (k.data ++ ':' :: (v.data ++ (logMessage.more ps).data)))).length <
      fuel + pre.length →
    Parser.setLogger.cb.loop
        (pre ++ (sep ++ (k.data ++ ':' :: (v.data ++ (logMessage.more ps).data))))
        fuel sep pre.length acc =
      some (((k, v) :: ps).foldl (fun m p => LoggerParams.assign m p.1 p.2) acc) := by
  intro ps
  induction ps with
  | nil =>
    intro k v pre sep acc fuel hk hv _ hlen hfuel
    have hmore : (logMessage.more []).data = [] := rfl
    rw [hmore] at hlen hfuel ⊢
    have hf : 2 ≤ fuel := by
      simp only [List.length_append, List.length_cons, List.length_nil] at hfuel
      omega
    obtain ⟨f, rfl⟩ : ∃ f, fuel = f + 1 + 1 := ⟨fuel - 2, by omega⟩
    rw [cb_loop_step pre sep k.data v.data [] acc (f + 1) std.string.npos hk hlen
      (by rw [List.append_nil]; exact find_go_sep_none _ _ hv) (Or.inl ⟨rfl, rfl⟩)]
    rw [Parser.setLogger.cb.loop]
    simp [List.foldl]
  | cons q qs ih =>
    intro k v pre sep acc fuel hk hv hps hlen hfuel
    rw [more_data] at hlen hfuel ⊢
    have hq := hps q (List.mem_cons_self _ _)
    have hqs : ∀ p ∈ qs, ':' ∉ p.1.data ∧ ¬ [',', ' '] <:+: p.2.data :=
      fun p hp => hps p (List.mem_cons_of_mem _ hp)
    have hf : 1 ≤ fuel := by
      simp only [List.length_append, List.length_cons] at hfuel
      omega
    obtain ⟨f, rfl⟩ : ∃ f, fuel = f + 1 := ⟨fuel - 1, by omega⟩
    rw [cb_loop_step pre sep k.data v.data _ acc f
      (pre.length + sep.length + k.data.length + 1 + v.data.length) hk hlen
      (find_go_sep_append _ _ _ hv) (Or.inr rfl)]
    have hshape : pre ++ (sep ++ (k.data ++ ':' :: (v.data ++
        ',' :: ' ' :: (q.1.data ++ ':' :: (q.2.data ++ (logMessage.more qs).data))))) =
        (pre ++ sep ++ k.data ++ ':' :: v.data) ++ ([',', ' '] ++
          (q.1.data ++ ':' :: (q.2.data ++ (logMessage.more qs).data))) := by
      simp only [List.append_assoc, List.cons_append, List.nil_append]
    have hplen : (pre ++ sep ++ k.data ++ ':' :: v.data).length =
        pre.length + sep.length + k.data.length + 1 + v.data.length := by
      simp only [List.length_append, List.length_cons]
      omega
    rw [hshape] at hlen hfuel ⊢
    rw [← hplen]
    rw [ih q.1 q.2 (pre ++ sep ++ k.data ++ ':' :: v.data) [',', ' ']
      (LoggerParams.assign acc (String.mk k.data) (String.mk v.data)) f hq.1 hq.2 hqs hlen
      (by simp only [List.length_append, List.length_cons, List.length_nil] at hfuel ⊢; omega)]
    rfl

theorem params_find_assign (params : LoggerParams) (key value other : String) :
    (params.assign key value).find other =
      if key = other then some value else params.find other := by
  by_cases h : key = other
  · subst h
    simp [LoggerParams.assign, LoggerParams.find]
  · have hko : (key == other) = false := by
      rw [beq_eq_false_iff_ne]
      exact h
    simp only [LoggerParams.assign, LoggerParams.find, List.find?_cons, hko, h, if_false,
      find_filter_other key other (fun e => h e.symm)]

theorem params_find_foldl : ∀ (pairs : List (String × String)) (acc : LoggerParams)
    (key : String),
    (pairs.foldl (fun m p => LoggerParams.assign m p.1 p.2) acc).find key =
      ((pairs.reverse.find? fun p => p.1 == key).map fun p => p.2).or (acc.find key) := by
  intro pairs
  induction pairs with
  | nil =>
    intro acc key
    simp
  | cons p ps ih =>
    intro acc key
    rw [List.foldl_cons, ih, params_find_assign, List.reverse_cons, List.find?_append]
    cases hfind : List.find? (fun p => p.1 == key) ps.reverse with
    | some x => simp
    | none =>
      by_cases hk : p.1 = key
      · simp [hk]
      · simp [hk]

theorem find_zero (s str : List Char) :
    std.string.find s str 0 = std.string.find.go str s 0 := by
  simp [std.string.find]

theorem cb_name (s : List Char) (hlen : s.length < std.string.npos) :
    std.string.substr s 0 (std.string.find s [' '] 0) =
      some (s.takeWhile fun c => c != ' ') := by
  rw [find_zero, find_go_char]
  unfold std.string.substr
  by_cases h : ' ' ∈ s
  · have hle : (s.takeWhile fun c => c != ' ').length ≤ s.length :=
      (List.takeWhile_sublist _).length_le
    have hmin : min (0 + (s.takeWhile fun c => c != ' ').length) (s.length - 0) =
        (s.takeWhile fun c => c != ' ').length := by omega
    simp only [h, if_true, Nat.not_lt_zero, gt_iff_lt, if_false, hmin, List.drop_zero,
      take_takeWhile_length]
  · have hmin : min std.string.npos (s.length - 0) = s.length := by omega
    simp only [h, if_false, Nat.not_lt_zero, gt_iff_lt, hmin, List.drop_zero, List.take_length,
      takeWhile_of_not_mem ' ' s h]

theorem cb_of {α : Type} (logger : String → LoggerParams → String → α) (fuel : Nat)
    (type : TSLogType) (message : String) (name : List Char) (params : LoggerParams)
    (hname : std.string.substr message.data 0 (std.string.find message.data [' '] 0) =
      some name)
    (hloop : Parser.setLogger.cb.loop message.data fuel [' ']
      (std.string.find message.data [' '] 0) [] = some params) :
    Parser.setLogger.cb logger fuel type message =
      some (logger (String.mk name) params
        (match type with
          | TSLogType.TSLogTypeParse => "parse"
          | TSLogType.TSLogTypeLex => "lex")) := by
  unfold Parser.setLogger.cb
  simp only [hname, hloop, Option.some_bind, Option.bind_some, Option.map_some']
  cases type <;> rfl

theorem logMessage_data (name : String) (p : String × String) (ps : List (String × String)) :
    (logMessage name (p :: ps)).data =
      name.data ++ ([' '] ++ (p.1.data ++ ':' :: (p.2.data ++ (logMessage.more ps).data))) := by
  have h1 : (" " : String).data = [' '] := rfl
  have h2 : (":" : String).data = [':'] := rfl
  simp only [logMessage, String.data_append, h1, h2, List.append_assoc, List.cons_append,
    List.nil_append]

/-- C26: for every engine log message (shorter than `npos`, as every `std::string`
is, and with fuel for one pass per character), the callback installed by
`Parser::setLogger` calls the logger once, with `name` the text of the message before
its first space (the whole message when it has no space) and with type `parse` or
`lex` after the engine's log type; and when the message has the form
`name k1:v1, ..., kn:vn`, with no space in the name, no `:` in a key and no `, `
in a value, the params passed are the map built by assigning `k1 -> v1`, ...,
`kn -> vn` in this order, in which a key is bound to the value of its last pair. -/
theorem logger_callback_arguments {α : Type} (logger : String → LoggerParams → String → α)
    (fuel : Nat) (type : TSLogType) (message : String)
    (hlen : message.length < std.string.npos) (hfuel : message.length < fuel) :
    (∃ params : LoggerParams,
      Parser.setLogger.cb logger fuel type message =
        some (logger (String.mk (message.data.takeWhile fun c => c != ' ')) params
          (match type with
            | TSLogType.TSLogTypeParse => "parse"
            | TSLogType.TSLogTypeLex => "lex"))) ∧
    ∀ (name : String) (pairs : List (String × String)),
      message = logMessage name pairs →
      ' ' ∉ name.data →
      (∀ p ∈ pairs, ':' ∉ p.1.data ∧ ¬ [',', ' '] <:+: p.2.data) →
      ∃ params : LoggerParams,
        Parser.setLogger.cb logger fuel type message =
          some (logger name params
            (match type with
              | TSLogType.TSLogTypeParse => "parse"
              | TSLogType.TSLogTypeLex => "lex")) ∧
        params = pairs.foldl (fun m p => LoggerParams.assign m p.1 p.2) [] ∧
        ∀ key : String, LoggerParams.find params key =
          (pairs.reverse.find? fun p => p.1 == key).map fun p => p.2 := by
  have hnpos : std.string.npos = 18446744073709551615 := rfl
  have hl : message.data.length = message.length := rfl
  constructor
  · obtain ⟨params, hloop⟩ := cb_loop_total message.data hlen fuel [' ']
      (std.string.find message.data [' '] 0) [] (by simp) (by omega) (by
        intro hne
        rcases find_bounds message.data [' '] 0 with h | h
        · exact absurd h hne
        · simp only [List.length_singleton] at h ⊢
          omega)
    exact ⟨params, cb_of logger fuel type message _ params (cb_name _ hlen) hloop⟩
  · intro name pairs hmsg hname hpairs
    refine ⟨pairs.foldl (fun m p => LoggerParams.assign m p.1 p.2) [], ?_, rfl, ?_⟩
    · have hn := cb_name message.data hlen
      cases pairs with
      | nil =>
        have hm : message = name := hmsg
        subst hm
        rw [takeWhile_of_not_mem ' ' _ hname] at hn
        have hpos : std.string.find message.data [' '] 0 = std.string.npos := by
          rw [find_zero, find_go_char_none _ _ _ hname]
        have hloop : Parser.setLogger.cb.loop message.data fuel [' ']
            (std.string.find message.data [' '] 0) [] = some [] := by
          obtain ⟨f, rfl⟩ : ∃ f, fuel = f + 1 := ⟨fuel - 1, by omega⟩
          rw [hpos, Parser.setLogger.cb.loop]
          simp
        exact cb_of logger (fuel) type message _ [] hn hloop
      | cons p ps =>
        have hd := logMessage_data name p ps
        rw [← hmsg] at hd
        have hpos : std.string.find message.data [' '] 0 = name.data.length := by
          rw [find_zero, hd]
          simp only [List.singleton_append]
          rw [find_go_char_append _ _ _ _ hname]
          omega
        have hnm : std.string.substr message.data 0 (std.string.find message.data [' '] 0) =
            some name.data := by
          rw [hpos, hd]
          have := substr_mid [] name.data
            ([' '] ++ (p.1.data ++ ':' :: (p.2.data ++ (logMessage.more ps).data)))
          simpa using this
        have hp := hpairs p (List.mem_cons_self _ _)
        have hps : ∀ q ∈ ps, ':' ∉ q.1.data ∧ ¬ [',', ' '] <:+: q.2.data :=
          fun q hq => hpairs q (List.mem_cons_of_mem _ hq)
        have hloop := cb_loop_params ps p.1 p.2 name.data [' '] [] fuel hp.1 hp.2 hps
          (by rw [← hd]; exact hlen) (by rw [← hd]; omega)
        rw [← hd, ← hpos] at hloop
        exact cb_of logger fuel type message _ _ hnm hloop
    · intro key
      rw [params_find_foldl]
      simp [LoggerParams.find]

/-- The callback on the message `reduce sym:program, child_count:1` of a parse. -/
theorem logger_callback_arguments_witness :
    ∃ params : LoggerParams,
      Parser.setLogger.cb recordingLogger 40 TSLogType.TSLogTypeParse
          "reduce sym:program, child_count:1" =
        some ("reduce", params, "parse") ∧
      params = [("child_count", "1"), ("sym", "program")] ∧
      ∀ key : String, LoggerParams.find params key =
        (List.find? (fun p => p.1 == key)
          [("child_count", "1"), ("sym", "program")]).map fun p => p.2 :=
  (logger_callback_arguments recordingLogger 40 TSLogType.TSLogTypeParse
    "reduce sym:program, child_count:1" (by decide) (by decide)).2
    "reduce" [("sym", "program"), ("child_count", "1")] rfl (by decide) (by decide)

end TreeSitter
